import Mathlib

/-!
Verification of the hedge half-edge mesh kernel.

This file contains a shallow embedding of the two generational-arena
implementations and the mesh kernel of the `hedge` repository:

* `Hedge.*`        — the crate in `src/src/` (`lib.rs`, `kernel.rs`,
                     `function_sets.rs`): `Index`, `MeshElement`,
                     `ElementBuffer`, `Kernel` with its four defrag phases,
                     and the `EdgeFn::is_boundary` query.
* `HedgeElementBuffer.*` — the standalone crate in
                     `src/hedge-element-buffer/src/lib.rs`: `Handle`,
                     `ElementBuffer` with `get`/`remove`/`len` and
                     `build_rectify_plan`.

Machine integers (`u32`, `usize`) are modelled as `Nat`; the only overflow
the source handles explicitly (the generation bump in
`kernel.rs::ElementBuffer::remove`) is modelled with the source's own check,
and the unchecked `+= 1` of the standalone crate is modelled with the
release-mode wrap-around `% 2^32`.  Operations that can panic in Rust
(out-of-bounds `Vec` indexing) are modelled in `Except Unit` where a claim
is about the panic, and are totalised with `Option`/defaults where every
use in this file is under an in-bounds hypothesis or at a concrete
in-bounds state (each such place is marked in a comment).
-/

namespace Hedge

/-- Rust `u32::max_value()`, the value `kernel.rs::ElementBuffer::remove`
checks the bumped generation against. -/
def u32Max : Nat := 4294967295

/-- `lib.rs` `Index<T>`: a typed pair of offset and generation.  The
`PhantomData` type parameter only separates the four handle types at the
Rust type level; the embedding uses one untyped index for all four arenas
(the kernel never mixes them). -/
structure Index where
  offset : Nat
  generation : Nat
deriving DecidableEq

instance : Inhabited Index := ⟨⟨0, 0⟩⟩

/-- `lib.rs` `Index::with_generation`. -/
def Index.with_generation (offset generation : Nat) : Index := ⟨offset, generation⟩

/-- `lib.rs` `IsValid for Index<T>`: valid iff the offset is not the
reserved sentinel offset 0 (`INVALID_COMPONENT_OFFSET`). -/
def Index.is_valid (i : Index) : Bool := i.offset ≠ 0

/-- `lib.rs` `ElementStatus`. -/
inductive ElementStatus where
  | ACTIVE
  | INACTIVE
deriving DecidableEq

/-- `lib.rs` `MeshElement<D>`: tag, generation and status cells plus the
element payload. -/
structure MeshElement (D : Type) where
  tag : Nat
  generation : Nat
  status : ElementStatus
  data : D
deriving DecidableEq

/-- `lib.rs` `Default for MeshElement<D>`: tag 0, generation 1, INACTIVE,
default payload. -/
def MeshElement.defaultElem {D : Type} [Inhabited D] : MeshElement D :=
  ⟨0, 1, .INACTIVE, default⟩

instance {D : Type} [Inhabited D] : Inhabited (MeshElement D) := ⟨MeshElement.defaultElem⟩

/-- `lib.rs` `IsActive for MeshElement<D>`. -/
def MeshElement.is_active {D : Type} (e : MeshElement D) : Bool :=
  e.status = ElementStatus.ACTIVE

/-- `lib.rs` `EdgeData`. -/
structure EdgeData where
  twin_index : Index
  next_index : Index
  prev_index : Index
  face_index : Index
  vertex_index : Index
deriving DecidableEq

instance : Inhabited EdgeData := ⟨⟨default, default, default, default, default⟩⟩

/-- `lib.rs` `FaceData`. -/
structure FaceData where
  edge_index : Index
deriving DecidableEq

instance : Inhabited FaceData := ⟨⟨default⟩⟩

/-- `lib.rs` `VertexData`. -/
structure VertexData where
  edge_index : Index
  point_index : Index
deriving DecidableEq

instance : Inhabited VertexData := ⟨⟨default, default⟩⟩

/-- `lib.rs` `PointData`.  The source stores a position of three `f32`
coordinates; no claim in this development depends on positional arithmetic,
so the coordinates are modelled as integers (IEEE floats are not
kernel-computable). -/
structure PointData where
  position : Int × Int × Int
deriving DecidableEq

instance : Inhabited PointData := ⟨⟨(0, 0, 0)⟩⟩

abbrev Edge := MeshElement EdgeData
abbrev Face := MeshElement FaceData
abbrev Vertex := MeshElement VertexData
abbrev Point := MeshElement PointData

/-- `kernel.rs` `ElementBuffer<D>`: a free list of indices and the slot
vector.  `free_cells` models the Rust `Vec` used as a stack with its most
recently pushed element first (`Vec::push`/`Vec::pop` operate on the same
end; only the stack order is observable). -/
structure ElementBuffer (D : Type) where
  free_cells : List Index
  buffer : List (MeshElement D)
deriving DecidableEq

/-- `kernel.rs` `Default for ElementBuffer<D>`: empty free list and one
default (inactive, generation 1) sentinel element. -/
def ElementBuffer.defaultBuf {D : Type} [Inhabited D] : ElementBuffer D :=
  ⟨[], [MeshElement.defaultElem]⟩

/-- `kernel.rs` `ElementBuffer::len`: `buffer.len() - free_cells.len()`.
Note that this counts the sentinel slot at offset 0. -/
def ElementBuffer.len {D : Type} (b : ElementBuffer D) : Nat :=
  b.buffer.length - b.free_cells.length

/-- `kernel.rs` `ElementBuffer::has_inactive_cells`. -/
def ElementBuffer.has_inactive_cells {D : Type} (b : ElementBuffer D) : Bool :=
  ¬ b.free_cells.isEmpty

/-- `kernel.rs` `ElementBuffer::sort`: `self.buffer[1..].sort_by(...)` with
a comparator that orders ACTIVE before INACTIVE and leaves equal statuses
alone.  `sort_by` is a stable sort, and a stable sort by a two-valued key
is exactly the stable partition: the active elements in their original
order, then the inactive elements in theirs.  The sentinel at offset 0 is
outside the sorted slice. -/
def ElementBuffer.sort {D : Type} (b : ElementBuffer D) : ElementBuffer D :=
  { b with
    buffer :=
      match b.buffer with
      | [] => []
      | s :: rest =>
        s :: (rest.filter (fun e => e.is_active) ++ rest.filter (fun e => ¬ e.is_active)) }

/-- Lookup helper shared by `ElementBuffer::get` and the defrag walks:
`ensure_active_cell` composed with `ensure_matching_generation` after a
bounds-checked `Vec::get`.  Note the source's `ensure_matching_generation`
treats a handle generation of 0 as a wildcard: the check is only performed
when `index.generation > 0`. -/
def getElem? {D : Type} (buffer : List (MeshElement D)) (index : Index) :
    Option (MeshElement D) :=
  match buffer[index.offset]? with
  | none => none
  | some e =>
    if e.is_active then
      if index.generation > 0 then
        if e.generation = index.generation then some e else none
      else some e
    else none

/-- `kernel.rs` `ElementBuffer::get` at the level of the raw slot list:
`is_valid` check, bounds-checked lookup, activity check, generation check.
The defrag phases call this form on buffers they are rewriting. -/
def bufGet {D : Type} (buffer : List (MeshElement D)) (index : Index) :
    Option (MeshElement D) :=
  if index.is_valid then getElem? buffer index else none

/-- `kernel.rs` `ElementBuffer::get`. -/
def ElementBuffer.get {D : Type} (b : ElementBuffer D) (index : Index) :
    Option (MeshElement D) :=
  bufGet b.buffer index

/-- `kernel.rs` `ElementBuffer::remove`: if `get` succeeds, bump the
generation (wrapping to 1 when the bump would reach `u32::MAX`), mark the
cell INACTIVE and push `(offset, new generation)` onto the free list. -/
def ElementBuffer.remove {D : Type} (b : ElementBuffer D) (index : Index) :
    ElementBuffer D :=
  match b.get index with
  | none => b
  | some cell =>
    let next_gen := cell.generation + 1
    let newGen := if next_gen = u32Max then 1 else next_gen
    { free_cells := ⟨index.offset, newGen⟩ :: b.free_cells,
      buffer := b.buffer.set index.offset { cell with generation := newGen, status := .INACTIVE } }

/-- `kernel.rs` `ElementBuffer::truncate_inactive`: clear the free list and
truncate the buffer to `total - inactive` slots. -/
def ElementBuffer.truncate_inactive {D : Type} (b : ElementBuffer D) : ElementBuffer D :=
  { free_cells := [],
    buffer := b.buffer.take (b.buffer.length - b.free_cells.length) }

/-- Offset of the first non-active cell at offset ≥ 1
(`self.enumerate().find(|e| !e.1.is_active())`; `enumerate` always skips
the sentinel at offset 0). -/
def firstInactiveOffset {D : Type} (buffer : List (MeshElement D)) : Option Nat :=
  match (buffer.drop 1).findIdx? (fun e => ¬ e.is_active) with
  | some j => some (j + 1)
  | none => none

/-- Offset of the last active cell at offset ≥ 1
(`self.enumerate().rev().find(|e| e.1.is_active())`). -/
def lastActiveOffset {D : Type} (buffer : List (MeshElement D)) : Option Nat :=
  match (buffer.drop 1).reverse.findIdx? (fun e => e.is_active) with
  | some j => some (buffer.length - 1 - j)
  | none => none

/-- `kernel.rs` `ElementBuffer::next_swap_pair` at the level of the raw
slot list: the first inactive offset and the last active offset, unless
the buffer is already partitioned (`active_offset < inactive_offset`). -/
def nextSwapPair {D : Type} (buffer : List (MeshElement D)) : Option (Nat × Nat) :=
  match firstInactiveOffset buffer, lastActiveOffset buffer with
  | some inactive_offset, some active_offset =>
    if active_offset < inactive_offset then none
    else some (inactive_offset, active_offset)
  | _, _ => none

/-- `kernel.rs` `ElementBuffer::next_swap_pair`. -/
def ElementBuffer.next_swap_pair {D : Type} (b : ElementBuffer D) : Option (Nat × Nat) :=
  nextSwapPair b.buffer

/-- `Vec::swap`: exchange the slots at two positions.  The swap offsets the
kernel uses always come from `next_swap_pair` and are therefore in bounds;
the `getD` fallbacks are never reached at those call sites. -/
def listSwap {α : Type} [Inhabited α] (l : List α) (i j : Nat) : List α :=
  let xi := l[i]?.getD default
  let xj := l[j]?.getD default
  (l.set i xj).set j xi

/-! ## The mesh kernel (`kernel.rs::Kernel`) and its defrag phases -/

/-- `kernel.rs` `Kernel`: the four element arenas.  The `Mesh` wrapper of
`lib.rs` adds only the atomic traversal-tag counter, which none of the
operations embedded here consult. -/
structure Kernel where
  edge_buffer : ElementBuffer EdgeData
  face_buffer : ElementBuffer FaceData
  vertex_buffer : ElementBuffer VertexData
  point_buffer : ElementBuffer PointData
deriving DecidableEq

/-- The edge-loop rewrite of `Kernel::defrag_faces`: starting from the
face's root edge, stamp `face_index` onto each edge and follow `next`,
stopping at an edge already carrying `face_index` or when the walk closes
back on the root.  The source indexes `edge_buffer.buffer` directly and
would panic on an out-of-bounds offset; the embedding totalises that
lookup with the default element (every use in this file is at states whose
walked offsets are in bounds).  The source's `loop` has no fuel; each pass
either breaks or stamps an edge whose `face_index` differed, and a
revisited edge breaks the loop, so `buffer.len() + 1` passes always
suffice — `defrag_faces` below calls the walk with exactly that fuel. -/
def faceRewriteLoop (fuel : Nat) (Ebuf : List Edge)
    (face_index root_edge_index edge_index : Index) : List Edge :=
  match fuel with
  | 0 => Ebuf
  | fuel + 1 =>
    let edge := Ebuf[edge_index.offset]?.getD MeshElement.defaultElem
    if edge.data.face_index = face_index then Ebuf
    else
      let Ebuf' := Ebuf.set edge_index.offset
        { edge with data := { edge.data with face_index := face_index } }
      let next := edge.data.next_index
      if next = root_edge_index then Ebuf'
      else faceRewriteLoop fuel Ebuf' face_index root_edge_index next

/-- `kernel.rs` `Kernel::defrag_faces`: sort the face buffer (active
first), then for each active face in ascending offset order whose root
edge resolves and does not already carry the face's new handle, stamp the
new handle along the face's edge loop; finally truncate the inactive tail
of the face buffer.  The Rust iterator chain interleaves the filter and
the rewrite per face, so the filter of a later face observes the rewrites
of earlier ones; the fold below does the same. -/
def Kernel.defrag_faces (k : Kernel) : Kernel :=
  if k.face_buffer.has_inactive_cells then
    let fb := k.face_buffer.sort
    let E := (fb.buffer.enum.filter (fun p => p.2.is_active)).foldl
      (fun Ebuf p =>
        let face_index : Index := ⟨p.1, p.2.generation⟩
        let root_edge_index := p.2.data.edge_index
        match bufGet Ebuf root_edge_index with
        | some root_edge =>
          if face_index ≠ root_edge.data.face_index then
            faceRewriteLoop (Ebuf.length + 1) Ebuf face_index root_edge_index root_edge_index
          else Ebuf
        | none => Ebuf)
      k.edge_buffer.buffer
    { k with face_buffer := fb.truncate_inactive,
             edge_buffer := { k.edge_buffer with buffer := E } }
  else k

/-- `kernel.rs` `Kernel::defrag_verts`: sort the vertex buffer, then for
each active vertex whose outgoing edge resolves and does not already carry
the vertex's new handle, rewrite that one edge's `vertex_index`; truncate
the vertex buffer's inactive tail. -/
def Kernel.defrag_verts (k : Kernel) : Kernel :=
  if k.vertex_buffer.has_inactive_cells then
    let vb := k.vertex_buffer.sort
    let E := (vb.buffer.enum.filter (fun p => p.2.is_active)).foldl
      (fun Ebuf p =>
        let vertex_index : Index := ⟨p.1, p.2.generation⟩
        let vert_edge_index := p.2.data.edge_index
        match bufGet Ebuf vert_edge_index with
        | some edge =>
          if vertex_index ≠ edge.data.vertex_index then
            Ebuf.set vert_edge_index.offset
              { edge with data := { edge.data with vertex_index := vertex_index } }
          else Ebuf
        | none => Ebuf)
      k.edge_buffer.buffer
    { k with vertex_buffer := vb.truncate_inactive,
             edge_buffer := { k.edge_buffer with buffer := E } }
  else k

/-- The swap loop of `Kernel::defrag_points`: swap the first inactive
point slot with the last active one and redirect every active vertex
(offsets ≥ 1) whose `point_index` named the old offset to the new one;
repeat until no `inactive < active` pair remains.  Each swap strictly
decreases the number of inactive slots below the active count, so a fuel
of `pbuf.length` (used by `defrag_points`) always reaches the fixpoint. -/
def defragPointsLoop (fuel : Nat) (pbuf : List Point) (vbuf : List Vertex) :
    List Point × List Vertex :=
  match fuel with
  | 0 => (pbuf, vbuf)
  | fuel + 1 =>
    match nextSwapPair pbuf with
    | none => (pbuf, vbuf)
    | some (inactive_offset, active_offset) =>
      let pbuf' := listSwap pbuf inactive_offset active_offset
      let swapped := pbuf'[inactive_offset]?.getD MeshElement.defaultElem
      let swapped_index : Index := ⟨inactive_offset, swapped.generation⟩
      let vbuf' := vbuf.enum.map (fun q =>
        if 1 ≤ q.1 ∧ q.2.is_active ∧ q.2.data.point_index.offset = active_offset then
          { q.2 with data := { q.2.data with point_index := swapped_index } }
        else q.2)
      defragPointsLoop fuel pbuf' vbuf'

/-- `kernel.rs` `Kernel::defrag_points`.  Note the final bookkeeping step
of the source (kernel.rs line 354): it calls
`self.vertex_buffer.truncate_inactive()` — the *vertex* buffer, not the
point buffer — so the point buffer's free list and inactive tail survive
the call.  The embedding reproduces that behaviour. -/
def Kernel.defrag_points (k : Kernel) : Kernel :=
  if k.point_buffer.has_inactive_cells then
    let r := defragPointsLoop k.point_buffer.buffer.length
      k.point_buffer.buffer k.vertex_buffer.buffer
    { k with point_buffer := { k.point_buffer with buffer := r.1 },
             vertex_buffer :=
               ElementBuffer.truncate_inactive { k.vertex_buffer with buffer := r.2 } }
  else k

/-- The buffers `Kernel::defrag_edges` rewrites while swapping. -/
structure EdgeSwapState where
  ebuf : List Edge
  fbuf : List Face
  vbuf : List Vertex
deriving DecidableEq

/-- One iteration of the swap loop of `Kernel::defrag_edges`: swap the
edge slots, then redirect the references held by the moved edge's `next`,
`prev` and `twin` neighbours, and conditionally the root edge of its
incident face and the outgoing edge of its origin vertex (only when those
still name the old offset).  The reference rewrites go through `get`, so a
reference that does not resolve is skipped (the source logs nothing here;
it simply leaves the stale reference).  The source holds a `Ref` borrow of
the moved edge's data across the rewrites; a mesh in which the moved
edge's `next`/`prev`/`twin` handle resolved to the moved edge itself would
make the source panic on a `RefCell` double borrow — that situation cannot
arise for the twin (twin ≠ self on the states considered here) and is
excluded by the validity hypotheses under which this function appears in
theorems. -/
def edgeSwapStep (st : EdgeSwapState) (inactive_offset active_offset : Nat) :
    EdgeSwapState :=
  let E0 := listSwap st.ebuf inactive_offset active_offset
  let swapped := E0[inactive_offset]?.getD MeshElement.defaultElem
  let sd := swapped.data
  let swapped_index : Index := ⟨inactive_offset, swapped.generation⟩
  let E1 := match bufGet E0 sd.next_index with
    | some next_edge => E0.set sd.next_index.offset
        { next_edge with data := { next_edge.data with prev_index := swapped_index } }
    | none => E0
  let E2 := match bufGet E1 sd.prev_index with
    | some prev_edge => E1.set sd.prev_index.offset
        { prev_edge with data := { prev_edge.data with next_index := swapped_index } }
    | none => E1
  let E3 := match bufGet E2 sd.twin_index with
    | some twin_edge => E2.set sd.twin_index.offset
        { twin_edge with data := { twin_edge.data with twin_index := swapped_index } }
    | none => E2
  let F1 := match bufGet st.fbuf sd.face_index with
    | some face =>
      if face.data.edge_index.offset = active_offset then
        st.fbuf.set sd.face_index.offset
          { face with data := { face.data with edge_index := swapped_index } }
      else st.fbuf
    | none => st.fbuf
  let V1 := match bufGet st.vbuf sd.vertex_index with
    | some vertex =>
      if vertex.data.edge_index.offset = active_offset then
        st.vbuf.set sd.vertex_index.offset
          { vertex with data := { vertex.data with edge_index := swapped_index } }
      else st.vbuf
    | none => st.vbuf
  ⟨E3, F1, V1⟩

/-- The swap loop of `Kernel::defrag_edges`; as with the point loop, a
fuel of the edge buffer's length always reaches the fixpoint. -/
def defragEdgesLoop (fuel : Nat) (st : EdgeSwapState) : EdgeSwapState :=
  match fuel with
  | 0 => st
  | fuel + 1 =>
    match nextSwapPair st.ebuf with
    | none => st
    | some (i, a) => defragEdgesLoop fuel (edgeSwapStep st i a)

/-- `kernel.rs` `Kernel::defrag_edges`. -/
def Kernel.defrag_edges (k : Kernel) : Kernel :=
  if k.edge_buffer.has_inactive_cells then
    let st := defragEdgesLoop k.edge_buffer.buffer.length
      ⟨k.edge_buffer.buffer, k.face_buffer.buffer, k.vertex_buffer.buffer⟩
    { k with edge_buffer :=
               ElementBuffer.truncate_inactive { k.edge_buffer with buffer := st.ebuf },
             face_buffer := { k.face_buffer with buffer := st.fbuf },
             vertex_buffer := { k.vertex_buffer with buffer := st.vbuf } }
  else k

/-- `kernel.rs` `Kernel::inactive_element_count`. -/
def Kernel.inactive_element_count (k : Kernel) : Nat :=
  k.face_buffer.free_cells.length + k.edge_buffer.free_cells.length +
    k.vertex_buffer.free_cells.length + k.point_buffer.free_cells.length

/-- `kernel.rs` `Kernel::active_element_count`. -/
def Kernel.active_element_count (k : Kernel) : Nat :=
  k.face_buffer.len + k.edge_buffer.len + k.vertex_buffer.len + k.point_buffer.len

/-- `kernel.rs` `Kernel::defrag`: the four phases in their fixed order,
gated on there being at least one inactive element. -/
def Kernel.defrag (k : Kernel) : Kernel :=
  if k.inactive_element_count > 0 then
    k.defrag_faces.defrag_verts.defrag_points.defrag_edges
  else k

/-! ## The traversal façade (`function_sets.rs`) -/

/-- `FunctionSet::data` for an edge handle: the payload of the edge if the
handle resolves. -/
def edgeDataOf (k : Kernel) (i : Index) : Option EdgeData :=
  (k.edge_buffer.get i).map MeshElement.data

/-- `EdgeFn::twin` composed with `FunctionSet::maybe`: a failed lookup
falls back to the default (invalid) index. -/
def EdgeFn.twinIndex (k : Kernel) (i : Index) : Index :=
  ((edgeDataOf k i).map EdgeData.twin_index).getD default

/-- `EdgeFn::face` composed with `FunctionSet::maybe`. -/
def EdgeFn.faceIndex (k : Kernel) (i : Index) : Index :=
  ((edgeDataOf k i).map EdgeData.face_index).getD default

/-- `IsValid for FaceFn`: whether the face handle resolves through the
kernelBs `get`. -/
def FaceFn.is_valid (k : Kernel) (i : Index) : Bool :=
  (k.face_buffer.get i).isSome

/-- `function_sets.rs` `EdgeFn::is_boundary`:
`!self.face().is_valid() || !self.twin().face().is_valid()`. -/
def EdgeFn.is_boundary (k : Kernel) (i : Index) : Bool :=
  !(FaceFn.is_valid k (EdgeFn.faceIndex k i)) ||
    !(FaceFn.is_valid k (EdgeFn.faceIndex k (EdgeFn.twinIndex k i)))

end Hedge

namespace HedgeElementBuffer

/-- `hedge-element-buffer/src/lib.rs` `Handle<T>` (the phantom type
parameter erased, as for `Hedge.Index`). -/
structure Handle where
  offset : Nat
  generation : Nat
deriving DecidableEq

instance : Inhabited Handle := ⟨⟨0, 0⟩⟩

/-- `Handle::is_valid`: the offset differs from
`INVALID_ELEMENT_OFFSET = 0`. -/
def Handle.is_valid (h : Handle) : Bool := h.offset ≠ 0

/-- `hedge-element-buffer/src/lib.rs` `ElementBuffer<D>`: payload vector,
generation vector and the free-cell `HashSet` (modelled as a `Finset ℕ`,
which matches the set semantics of insertion and membership; no claim
depends on iteration order). -/
structure ElementBuffer (D : Type) where
  buffer : List D
  generations : List Nat
  free_cells : Finset ℕ
deriving DecidableEq

/-- `Default for ElementBuffer<D>`: one default sentinel payload and one
default (0) sentinel generation, empty free set. -/
def ElementBuffer.defaultBuf {D : Type} [Inhabited D] : ElementBuffer D :=
  ⟨[default], [0], ∅⟩

/-- `ElementBuffer::is_active_cell`: the offset is not in the free set. -/
def ElementBuffer.is_active_cell {D : Type} (b : ElementBuffer D) (offset : Nat) : Bool :=
  offset ∉ b.free_cells

/-- `ElementBuffer::len`: `(buffer.len() - 1) - free_cells.len()` — this
copy of the arena does exclude the sentinel slot. -/
def ElementBuffer.len {D : Type} (b : ElementBuffer D) : Nat :=
  (b.buffer.length - 1) - b.free_cells.card

/-- `ElementBuffer::has_inactive_cells`. -/
def ElementBuffer.has_inactive_cells {D : Type} (b : ElementBuffer D) : Bool :=
  b.free_cells ≠ ∅

/-- `ElementBuffer::get`.  The activity test comes first; then
`self.generations[handle.offset]` is an unchecked `Vec` index, which
panics (`Except.error ()`) when the offset is out of bounds; the final
payload lookup is Rust's checked `Vec::get`, returned as-is.  Note there
is no `is_valid`/offset-0 check in this copy of the arena. -/
def ElementBuffer.get {D : Type} (b : ElementBuffer D) (handle : Handle) :
    Except Unit (Option D) :=
  if ¬ b.is_active_cell handle.offset then .ok none
  else
    match b.generations[handle.offset]? with
    | none => .error ()
    | some generation =>
      if generation ≠ handle.generation then .ok none
      else .ok b.buffer[handle.offset]?

/-- `ElementBuffer::remove`: insert the offset into the free set and bump
`generations[handle.offset]` — with no bounds, activity or generation
check.  The generation bump is an unchecked `u32` `+= 1`, modelled with
the release-mode wrap `% 2^32`; the indexing panics (`Except.error ()`)
when the offset is out of bounds (the free-set insertion has already
happened when the source panics, but the panic propagates out of
`remove`, so the updated state is not returned). -/
def ElementBuffer.remove {D : Type} (b : ElementBuffer D) (handle : Handle) :
    Except Unit (ElementBuffer D) :=
  let free' := insert handle.offset b.free_cells
  match b.generations[handle.offset]? with
  | none => .error ()
  | some g =>
    .ok { b with free_cells := free',
                 generations := b.generations.set handle.offset ((g + 1) % 4294967296) }

/-- `ElementBuffer::build_rectify_plan`: free offsets ascending
(`(1..=len).filter(free)`), "active" offsets descending
(`(1..=len).map(len - idx).filter(!free)` — note this descending list
ends with the sentinel offset 0, which can never be emitted because the
`take_while` requires `free < active` and free offsets are ≥ 1), zipped
in lockstep and cut at the first pair violating `f < a`. -/
def ElementBuffer.build_rectify_plan {D : Type} (b : ElementBuffer D) :
    List (Nat × Nat) :=
  let n := b.buffer.length
  let active_cells := ((List.range' 1 n).map (fun idx => n - idx)).filter
    (fun i => decide (i ∉ b.free_cells))
  let free_cells := (List.range' 1 n).filter (fun i => decide (i ∈ b.free_cells))
  (free_cells.zip active_cells).takeWhile (fun p => decide (p.1 < p.2))

/-- Modelled from the spec: the apply step that consumes the rectify plan
is missing from the source — `ElementBuffer::compact` computes the plan
and discards it (`let _rectify_map = self.build_rectify_plan();`).  Per
§4.1 of the spec, applying the plan performs, for each emitted pair
`(free_offset, active_offset)`, the swap that moves the active cell into
the free slot: afterwards `free_offset` is active (removed from the free
set) and `active_offset` is free (inserted).  This function tracks the
effect of those swaps on the free set, which is what the claim's
post-condition ("the first `active_count` offsets are all active")
observes. -/
def applyPlanFree (free : Finset ℕ) (plan : List (Nat × Nat)) : Finset ℕ :=
  plan.foldl (fun s p => insert p.2 (s.erase p.1)) free

end HedgeElementBuffer

/-! ## Concrete states used by counterexamples, failing inputs and witnesses -/

namespace Hedge

/-- Number of active cells at offsets ≥ 1 (the sentinel excluded). -/
def activeCountK {D : Type} (b : ElementBuffer D) : Nat :=
  ((b.buffer.drop 1).filter (fun e => e.is_active)).length

/-- A kernel arena holding one active element of generation 1: the state
after a single `add` on a fresh buffer. -/
def exB5 : ElementBuffer Nat :=
  ⟨[], [MeshElement.defaultElem, ⟨0, 1, .ACTIVE, 42⟩]⟩

/-- The element stored at offset 1 of `exB5`. -/
def exEl5 : MeshElement Nat := ⟨0, 1, .ACTIVE, 42⟩

/-- A kernel whose only hole is one removed point (offset 1, generation
bumped to 2) next to one live point: the minimal input on which
`defrag` must compact the point arena. -/
def exKC3 : Kernel :=
  { edge_buffer := ⟨[], [MeshElement.defaultElem]⟩,
    face_buffer := ⟨[], [MeshElement.defaultElem]⟩,
    vertex_buffer := ⟨[], [MeshElement.defaultElem]⟩,
    point_buffer :=
      ⟨[⟨1, 2⟩], [MeshElement.defaultElem,
                  ⟨0, 2, .INACTIVE, ⟨(0, 0, 0)⟩⟩,
                  ⟨0, 1, .ACTIVE, ⟨(1, 0, 0)⟩⟩]⟩ }

/-- Live face A of the C1 state: at offset 2 before defrag, generation 1,
rooted at the edge at offset 1. -/
def exFaceA : Face := ⟨0, 1, .ACTIVE, ⟨⟨1, 1⟩⟩⟩

/-- Live face B of the C1 state: at offset 3 before defrag, generation 1,
rooted at the edge at offset 2. -/
def exFaceB : Face := ⟨0, 1, .ACTIVE, ⟨⟨2, 1⟩⟩⟩

/-- A kernel with one removed face (offset 1) and two live faces A and B of
equal generation 1, each owning a one-edge loop.  Compaction slides A to
offset 1 and B to offset 2 without touching generations, so the old
handle (2, 1) of A afterwards resolves to B. -/
def exKC1 : Kernel :=
  { edge_buffer :=
      ⟨[], [MeshElement.defaultElem,
            ⟨0, 1, .ACTIVE, ⟨⟨0, 0⟩, ⟨1, 1⟩, ⟨1, 1⟩, ⟨2, 1⟩, ⟨0, 0⟩⟩⟩,
            ⟨0, 1, .ACTIVE, ⟨⟨0, 0⟩, ⟨2, 1⟩, ⟨2, 1⟩, ⟨3, 1⟩, ⟨0, 0⟩⟩⟩]⟩,
    face_buffer :=
      ⟨[⟨1, 2⟩], [MeshElement.defaultElem, ⟨0, 2, .INACTIVE, ⟨⟨1, 1⟩⟩⟩, exFaceA, exFaceB]⟩,
    vertex_buffer := ⟨[], [MeshElement.defaultElem]⟩,
    point_buffer := ⟨[], [MeshElement.defaultElem]⟩ }

/-- A mesh whose single full edge (offsets 1 and 2, mutual twins) carries
a stale face handle (1, 5): the face arena holds no face at all, so the
handle does not resolve, yet its offset is not 0. -/
def exKC9 : Kernel :=
  { edge_buffer :=
      ⟨[], [MeshElement.defaultElem,
            ⟨0, 1, .ACTIVE, ⟨⟨2, 1⟩, ⟨2, 1⟩, ⟨2, 1⟩, ⟨1, 5⟩, ⟨0, 0⟩⟩⟩,
            ⟨0, 1, .ACTIVE, ⟨⟨1, 1⟩, ⟨1, 1⟩, ⟨1, 1⟩, ⟨1, 5⟩, ⟨0, 0⟩⟩⟩]⟩,
    face_buffer := ⟨[], [MeshElement.defaultElem]⟩,
    vertex_buffer := ⟨[], [MeshElement.defaultElem]⟩,
    point_buffer := ⟨[], [MeshElement.defaultElem]⟩ }

end Hedge

namespace HedgeElementBuffer

/-- A standalone-arena state with one live element of generation 1 at
offset 1 (the state after one `push`). -/
def exH0 : ElementBuffer Nat := ⟨[0, 7], [0, 1], ∅⟩

/-- `exH0` after `remove (1, 1)`: offset 1 freed, generation bumped to 2. -/
def exH1 : ElementBuffer Nat := ⟨[0, 7], [0, 2], {1}⟩

/-- `exH1` after a second `remove (1, 1)`: the free set is unchanged but
the generation is bumped again, to 3. -/
def exH2 : ElementBuffer Nat := ⟨[0, 7], [0, 3], {1}⟩

/-- A standalone-arena state with six slots and free offsets {1, 4}: its
rectify plan is the single pair (1, 5). -/
def exH8 : ElementBuffer Nat := ⟨[0, 1, 2, 3, 4, 5], [0, 1, 1, 1, 1, 1], {1, 4}⟩

end HedgeElementBuffer

/-- Decidable equality for `Except`, so that the panic-aware results of the
standalone arena can be checked on concrete states by `decide`. -/
instance exceptDecEq {α β : Type} [DecidableEq α] [DecidableEq β] :
    DecidableEq (Except α β) := fun x y =>
  match x, y with
  | .error a, .error b =>
    if h : a = b then .isTrue (by rw [h]) else .isFalse (by intro he; cases he; exact h rfl)
  | .error _, .ok _ => .isFalse (by intro he; cases he)
  | .ok _, .error _ => .isFalse (by intro he; cases he)
  | .ok a, .ok b =>
    if h : a = b then .isTrue (by rw [h]) else .isFalse (by intro he; cases he; exact h rfl)

namespace Hedge

/-! ### Topological invariants (§3 of the spec) over the embedded buffers -/

/-- The element stored at offset `o` (the default element when out of
bounds; every use is bounded by `liveAt`). -/
def elemAt {D : Type} [Inhabited D] (buffer : List (MeshElement D)) (o : Nat) :
    MeshElement D :=
  (buffer[o]?).getD MeshElement.defaultElem

/-- Offset `o` holds a live element: a non-sentinel offset whose slot is
ACTIVE. -/
def liveAt {D : Type} [Inhabited D] (buffer : List (MeshElement D)) (o : Nat) : Bool :=
  decide (1 ≤ o) && decide (o < buffer.length) && (elemAt buffer o).is_active

/-- The current handle of the element at offset `o`: the offset paired
with the slot's stored generation. -/
def handleAt {D : Type} [Inhabited D] (buffer : List (MeshElement D)) (o : Nat) : Index :=
  ⟨o, (elemAt buffer o).generation⟩

/-- A stored handle resolves coherently: it names a live slot and carries
exactly that slot's generation (and a positive generation, so the
generation-0 wildcard of `get` is not involved). -/
def resolvesAt {D : Type} [Inhabited D] (buffer : List (MeshElement D)) (i : Index) : Bool :=
  liveAt buffer i.offset && decide (i = handleAt buffer i.offset) &&
    decide (1 ≤ i.generation)

/-- Twin involution (§3.1): every live edge's twin handle resolves to a
different live edge whose twin handle points straight back. -/
def TwinInvolution (E : List Edge) : Prop :=
  ∀ o, liveAt E o = true →
    resolvesAt E (elemAt E o).data.twin_index = true ∧
    (elemAt E o).data.twin_index.offset ≠ o ∧
    (elemAt E (elemAt E o).data.twin_index.offset).data.twin_index = handleAt E o

/-- Next/prev involution (§3.2): every live edge's next and prev handles
resolve, `prev (next e) = e` and `next (prev e) = e`. -/
def NextPrevInvolution (E : List Edge) : Prop :=
  ∀ o, liveAt E o = true →
    resolvesAt E (elemAt E o).data.next_index = true ∧
    resolvesAt E (elemAt E o).data.prev_index = true ∧
    (elemAt E (elemAt E o).data.next_index.offset).data.prev_index = handleAt E o ∧
    (elemAt E (elemAt E o).data.prev_index.offset).data.next_index = handleAt E o

/-- No live edge is its own `next` (equivalently, by the involution, its
own `prev`).  This is *not* one of the spec's §3 invariants; it is the
side condition the C4 counterexample shows to be necessary. -/
def NoSelfNext (E : List Edge) : Prop :=
  ∀ o, liveAt E o = true → (elemAt E o).data.next_index.offset ≠ o

/-- `l` lists the edge offsets of a `next`-cycle entered at handle
`root`: the offsets are live and pairwise distinct, `root` is the
coherent handle of the first one, and each listed edge's `next` handle is
the coherent handle of the cyclically following one. -/
def NextCycle (E : List Edge) (root : Index) (l : List Nat) : Prop :=
  l ≠ [] ∧ l.Nodup ∧ (∀ o ∈ l, liveAt E o = true) ∧
  root = handleAt E (l.getD 0 0) ∧
  (∀ i, i < l.length → (elemAt E (l.getD i 0)).data.next_index =
      (if i + 1 = l.length then root else handleAt E (l.getD (i + 1) 0)))

/-- A face loop (§3.3): a `next`-cycle through the root whose every edge
names `fh` as its incident face. -/
def IsFaceLoopOf (E : List Edge) (fh root : Index) (l : List Nat) : Prop :=
  NextCycle E root l ∧ ∀ o ∈ l, (elemAt E o).data.face_index = fh

/-- Face-loop closure (§3.3) of a face buffer against an edge buffer:
walking `next` from every live face's root edge returns to the root in
finitely many steps, and every edge on the walk carries that face's
handle. -/
def FaceLoopsOK (E : List Edge) (FB : List Face) : Prop :=
  ∀ o, liveAt FB o = true →
    ∃ l, IsFaceLoopOf E (handleAt FB o) ((elemAt FB o).data.edge_index) l

/-- Vertex origin (§3.4, first half): the outgoing edge stored by a live
vertex, when set, resolves and names that vertex back.  Used only by the
C4 counterexample (the claim's operative conclusion does not mention
it). -/
def VertexOriginOK (E : List Edge) (VB : List Vertex) : Prop :=
  ∀ o, liveAt VB o = true → (elemAt VB o).data.edge_index.is_valid = true →
    resolvesAt E (elemAt VB o).data.edge_index = true ∧
    (elemAt E (elemAt VB o).data.edge_index.offset).data.vertex_index = handleAt VB o

/-- Free-list/status consistency of a kernel arena: the buffer is
non-empty, its sentinel slot is inactive, and the free list has exactly
one entry per inactive non-sentinel slot (what `add`/`remove` maintain
and what `truncate_inactive` relies on). -/
def BufferConsistent {D : Type} [Inhabited D] (b : ElementBuffer D) : Prop :=
  b.buffer ≠ [] ∧
  (∀ e, b.buffer[0]? = some e → e.status = ElementStatus.INACTIVE) ∧
  b.free_cells.length = ((b.buffer.drop 1).filter (fun e => !(e.is_active))).length

/-- Number of live (non-sentinel, active) cells of an edge buffer. -/
def actCount {D : Type} [Inhabited D] (buffer : List (MeshElement D)) : Nat :=
  ((buffer.drop 1).filter (fun e => e.is_active)).length

/-- Overwrite the `face_index` field of the edge at offset `o`. -/
def stampFace (fh : Index) (E : List Edge) (o : Nat) : List Edge :=
  E.set o { elemAt E o with data := { (elemAt E o).data with face_index := fh } }

/-- Overwrite the `face_index` field of every listed edge, in order. -/
def stampAll (fh : Index) (E : List Edge) (l : List Nat) : List Edge :=
  l.foldl (stampFace fh) E

/-- A mesh with one full edge whose two half-edges are each their own
`next` and `prev`: the face side is a one-edge loop, the boundary side a
one-edge boundary loop.  All four §3 invariants hold, yet the edge at
offset 3 is its own `next`, which `defrag_edges` cannot relocate
consistently (the self-referencing handle still names the old slot after
the swap, and the post-swap `get` on it fails, skipping the rewrite). -/
def exKC4 : Kernel :=
  { edge_buffer :=
      ⟨[⟨1, 2⟩],
       [MeshElement.defaultElem,
        ⟨0, 2, .INACTIVE, ⟨⟨0, 0⟩, ⟨0, 0⟩, ⟨0, 0⟩, ⟨0, 0⟩, ⟨0, 0⟩⟩⟩,
        ⟨0, 1, .ACTIVE, ⟨⟨3, 1⟩, ⟨2, 1⟩, ⟨2, 1⟩, ⟨0, 0⟩, ⟨1, 1⟩⟩⟩,
        ⟨0, 1, .ACTIVE, ⟨⟨2, 1⟩, ⟨3, 1⟩, ⟨3, 1⟩, ⟨1, 1⟩, ⟨1, 1⟩⟩⟩]⟩,
    face_buffer := ⟨[], [MeshElement.defaultElem, ⟨0, 1, .ACTIVE, ⟨⟨3, 1⟩⟩⟩]⟩,
    vertex_buffer := ⟨[], [MeshElement.defaultElem, ⟨0, 1, .ACTIVE, ⟨⟨3, 1⟩, ⟨0, 0⟩⟩⟩]⟩,
    point_buffer := ⟨[], [MeshElement.defaultElem]⟩ }



/-! ### Support for the defrag preservation proof: frame relations -/

/-- Two edge buffers agree slotwise on length, status, generation and the
`twin`/`next`/`prev` handles (the fields the topological involutions and
`next`-cycles read); the `face`/`vertex` payload fields may differ. -/
def SameCore (E E' : List Edge) : Prop :=
  E'.length = E.length ∧
  ∀ o, (elemAt E' o).status = (elemAt E o).status ∧
       (elemAt E' o).generation = (elemAt E o).generation ∧
       (elemAt E' o).data.twin_index = (elemAt E o).data.twin_index ∧
       (elemAt E' o).data.next_index = (elemAt E o).data.next_index ∧
       (elemAt E' o).data.prev_index = (elemAt E o).data.prev_index

/-- Two edge buffers agree slotwise on the `face_index` field. -/
def SameFaceField (E E' : List Edge) : Prop :=
  ∀ o, (elemAt E' o).data.face_index = (elemAt E o).data.face_index



/-- The per-face step of `Kernel::defrag_faces`'s iterator chain (the
body of the fold in `Kernel.defrag_faces`, named for the proofs). -/
def faceFoldStep (Ebuf : List Edge) (p : Nat × Face) : List Edge :=
  match bufGet Ebuf p.2.data.edge_index with
  | some root_edge =>
    if (⟨p.1, p.2.generation⟩ : Index) ≠ root_edge.data.face_index then
      faceRewriteLoop (Ebuf.length + 1) Ebuf ⟨p.1, p.2.generation⟩
        p.2.data.edge_index p.2.data.edge_index
    else Ebuf
  | none => Ebuf



/-- The per-vertex step of `Kernel::defrag_verts`'s iterator chain. -/
def vertFoldStep (Ebuf : List Edge) (p : Nat × Vertex) : List Edge :=
  match bufGet Ebuf p.2.data.edge_index with
  | some edge =>
    if (⟨p.1, p.2.generation⟩ : Index) ≠ edge.data.vertex_index then
      Ebuf.set p.2.data.edge_index.offset
        { edge with data := { edge.data with vertex_index := ⟨p.1, p.2.generation⟩ } }
    else Ebuf
  | none => Ebuf



/-- The transposition of two offsets (where `Vec::swap` relocates cells). -/
def swapPerm (lo hi z : Nat) : Nat :=
  if z = lo then hi else if z = hi then lo else z

/-- The `prev` redirection of the moved edge's `next` neighbour in
`Kernel::defrag_edges` (the first `get`-guarded rewrite of the swap loop's
body). -/
def redirectPrev (B : List Edge) (i v : Index) : List Edge :=
  match bufGet B i with
  | some e => B.set i.offset { e with data := { e.data with prev_index := v } }
  | none => B

/-- The `next` redirection of the moved edge's `prev` neighbour. -/
def redirectNext (B : List Edge) (i v : Index) : List Edge :=
  match bufGet B i with
  | some e => B.set i.offset { e with data := { e.data with next_index := v } }
  | none => B

/-- The `twin` redirection of the moved edge's twin. -/
def redirectTwin (B : List Edge) (i v : Index) : List Edge :=
  match bufGet B i with
  | some e => B.set i.offset { e with data := { e.data with twin_index := v } }
  | none => B

/-- The conditional root-edge rewrite of the moved edge's incident face. -/
def redirectFaceRoot (F : List Face) (i v : Index) (active_offset : Nat) : List Face :=
  match bufGet F i with
  | some f =>
    if f.data.edge_index.offset = active_offset then
      F.set i.offset { f with data := { f.data with edge_index := v } }
    else F
  | none => F

/-- The conditional outgoing-edge rewrite of the moved edge's origin
vertex. -/
def redirectVertexEdge (V : List Vertex) (i v : Index) (active_offset : Nat) : List Vertex :=
  match bufGet V i with
  | some vtx =>
    if vtx.data.edge_index.offset = active_offset then
      V.set i.offset { vtx with data := { vtx.data with edge_index := v } }
    else V
  | none => V



/-- A digon mesh with one hole: one full edge whose two half-edges form a
two-edge `next`-cycle (so no edge is its own `next`), both bounding the
single face, plus an inactive edge slot at offset 1 left by a remove.
All hypotheses of the amended C4 preservation theorem hold, and the
defragment pass actually relocates both half-edges. -/
def exKC4W : Kernel :=
  { edge_buffer :=
      ⟨[⟨1, 2⟩],
       [MeshElement.defaultElem,
        ⟨0, 2, .INACTIVE, ⟨⟨0, 0⟩, ⟨0, 0⟩, ⟨0, 0⟩, ⟨0, 0⟩, ⟨0, 0⟩⟩⟩,
        ⟨0, 1, .ACTIVE, ⟨⟨3, 1⟩, ⟨3, 1⟩, ⟨3, 1⟩, ⟨1, 1⟩, ⟨1, 1⟩⟩⟩,
        ⟨0, 1, .ACTIVE, ⟨⟨2, 1⟩, ⟨2, 1⟩, ⟨2, 1⟩, ⟨1, 1⟩, ⟨1, 1⟩⟩⟩]⟩,
    face_buffer := ⟨[], [MeshElement.defaultElem, ⟨0, 1, .ACTIVE, ⟨⟨2, 1⟩⟩⟩]⟩,
    vertex_buffer := ⟨[], [MeshElement.defaultElem]⟩,
    point_buffer := ⟨[], [MeshElement.defaultElem]⟩ }


end Hedge

/-! ## Shared helper lemmas -/

theorem length_filter_add_length_filter_not {α : Type} (l : List α) (p : α → Bool) :
    (l.filter p).length + (l.filter (fun a => !(p a))).length = l.length := by
  induction l with
  | nil => rfl
  | cons a t ih =>
    by_cases h : p a <;>
      simp only [List.filter_cons, h, Bool.not_true, Bool.not_false, if_pos, if_neg,
        Bool.false_eq_true, not_false_eq_true, List.length_cons] <;> omega

/-! ## C2 -/

/-- C2: the claim states that on every arena a handle with offset 0 — in
particular the default handle — is rejected by `get`.  The standalone
arena violates it: its `get` has no offset/validity check, the sentinel
slot at offset 0 is never in the free set, and its stored generation is
the default 0, which is exactly the generation of a default-constructed
handle — so `get` returns a reference to the reserved sentinel slot.
This theorem evaluates the code at the failing input (the
default-constructed buffer and the default handle) and also records that
the kernel copy of the arena behaves as the claim demands. -/
theorem C2_default_handle_resolves_to_sentinel :
    HedgeElementBuffer.ElementBuffer.get
        (HedgeElementBuffer.ElementBuffer.defaultBuf (D := Nat)) ⟨0, 0⟩ =
      .ok (some 0) ∧
    Hedge.ElementBuffer.get (Hedge.ElementBuffer.defaultBuf (D := Nat)) ⟨0, 0⟩ = none := by
  constructor <;> rfl

/-! ## C7 -/

/-- C7 counterexample: the claim's formula
`len() = (total slots − 1) − |free set|` fails on the kernel copy of the
arena already at the default state: its `len` is
`buffer.len() - free_cells.len()`, which counts the offset-0 sentinel, so
the default one-slot buffer reports `len() = 1` while the claim demands
`(1 − 1) − 0 = 0`. -/
theorem C7_kernel_len_counts_sentinel :
    ¬ (Hedge.ElementBuffer.len (Hedge.ElementBuffer.defaultBuf (D := Nat)) =
        (Hedge.ElementBuffer.defaultBuf (D := Nat)).buffer.length - 1 -
          (Hedge.ElementBuffer.defaultBuf (D := Nat)).free_cells.length) := by
  decide

/-- C7 amended: the standalone arena's `len()` is
`(slots − 1) − |free set|` and, when the free set names exactly the slots
of `1..slots`, equals the number of active non-sentinel slots; the kernel
arena's `len()` is `slots − |free set|`, which under the free-list/status
consistency that `remove` maintains is *one more than* the number of
active non-sentinel slots (it counts the sentinel). -/
theorem C7_len_active_count (D : Type) :
    (∀ b : Hedge.ElementBuffer D, b.buffer ≠ [] →
      b.free_cells.length = ((b.buffer.drop 1).filter (fun e => !(e.is_active))).length →
      b.len = 1 + Hedge.activeCountK b) ∧
    (∀ hb : HedgeElementBuffer.ElementBuffer D,
      (∀ o ∈ hb.free_cells, 1 ≤ o ∧ o < hb.buffer.length) →
      hb.len = ((List.range' 1 (hb.buffer.length - 1)).filter
        (fun o => decide (o ∉ hb.free_cells))).length) := by
  constructor
  · intro b hne hfc
    have hsplit := length_filter_add_length_filter_not (b.buffer.drop 1)
      (fun e => e.is_active)
    have hlen : b.buffer.length = 1 + (b.buffer.drop 1).length := by
      rcases hbb : b.buffer with _ | ⟨a, t⟩
      · exact absurd hbb hne
      · simp [Nat.add_comm]
    unfold Hedge.ElementBuffer.len Hedge.activeCountK
    omega
  · intro hb hsub
    unfold HedgeElementBuffer.ElementBuffer.len
    have hnodup : ((List.range' 1 (hb.buffer.length - 1)).filter
        (fun o => decide (o ∈ hb.free_cells))).Nodup :=
      (List.nodup_range' _ _).filter _
    have hmem : ∀ o, o ∈ (List.range' 1 (hb.buffer.length - 1)).filter
        (fun o => decide (o ∈ hb.free_cells)) ↔ o ∈ hb.free_cells := by
      intro o
      simp only [List.mem_filter, List.mem_range'_1, decide_eq_true_eq]
      constructor
      · exact fun h => h.2
      · intro h
        rcases hsub o h with ⟨h1, h2⟩
        exact ⟨⟨h1, by omega⟩, h⟩
    have hcard : ((List.range' 1 (hb.buffer.length - 1)).filter
        (fun o => decide (o ∈ hb.free_cells))).length = hb.free_cells.card := by
      classical
      rw [← List.toFinset_card_of_nodup hnodup]
      congr 1
      ext o
      simp only [List.mem_toFinset]
      exact hmem o
    have hsplit := length_filter_add_length_filter_not
      (List.range' 1 (hb.buffer.length - 1)) (fun o => decide (o ∈ hb.free_cells))
    have hfilternot : (List.range' 1 (hb.buffer.length - 1)).filter
        (fun o => !(decide (o ∈ hb.free_cells))) =
        (List.range' 1 (hb.buffer.length - 1)).filter
        (fun o => decide (o ∉ hb.free_cells)) := by
      apply List.filter_congr
      intro o _
      simp
    have hlenr : (List.range' 1 (hb.buffer.length - 1)).length = hb.buffer.length - 1 :=
      List.length_range' _ _ _
    rw [← hfilternot]
    omega

/-- C7 witness: the amended statement applied at the default states of
both arenas. -/
theorem C7_len_active_count_witness :
    Hedge.ElementBuffer.len (Hedge.ElementBuffer.defaultBuf (D := Nat)) =
      1 + Hedge.activeCountK (Hedge.ElementBuffer.defaultBuf (D := Nat)) ∧
    HedgeElementBuffer.ElementBuffer.len
        (HedgeElementBuffer.ElementBuffer.defaultBuf (D := Nat)) =
      ((List.range' 1 ((HedgeElementBuffer.ElementBuffer.defaultBuf (D := Nat)).buffer.length - 1)).filter
        (fun o => decide (o ∉ (HedgeElementBuffer.ElementBuffer.defaultBuf (D := Nat)).free_cells))).length :=
  ⟨(C7_len_active_count Nat).1 _ (by decide) (by decide),
   (C7_len_active_count Nat).2 _ (by decide)⟩

/-! ## C10 -/

/-- C10: on the standalone arena, `remove(h)` with an out-of-range offset
(at or past the number of allocated slots; `generations` and `buffer`
always have equal length by construction) panics on the unchecked
`generations[handle.offset] += 1` instead of returning normally: `remove`
performs no bounds, activity or generation check before mutating. -/
theorem C10_remove_out_of_bounds_panics (D : Type)
    (b : HedgeElementBuffer.ElementBuffer D) (h : HedgeElementBuffer.Handle)
    (hlen : b.generations.length = b.buffer.length)
    (hoob : b.buffer.length ≤ h.offset) :
    b.remove h = .error () := by
  unfold HedgeElementBuffer.ElementBuffer.remove
  have : b.generations[h.offset]? = none := by
    rw [List.getElem?_eq_none]
    omega
  rw [this]

/-- C10 witness: removing with offset 5 from the default one-slot buffer
panics. -/
theorem C10_remove_out_of_bounds_panics_witness :
    HedgeElementBuffer.ElementBuffer.remove
      (HedgeElementBuffer.ElementBuffer.defaultBuf (D := Nat)) ⟨5, 1⟩ = .error () :=
  C10_remove_out_of_bounds_panics Nat _ _ (by decide) (by decide)

/-! ## C6 -/

/-- C6 counterexample: on the standalone arena a second `remove` with the
same handle is *not* a no-op: starting from a buffer with one live
element of generation 1, the first `remove (1,1)` frees offset 1 and
bumps its generation to 2, and the second `remove (1,1)` — which per the
claim should change nothing — bumps the generation again, to 3. -/
theorem C6_second_remove_bumps_generation :
    HedgeElementBuffer.ElementBuffer.remove HedgeElementBuffer.exH0 ⟨1, 1⟩ =
      .ok HedgeElementBuffer.exH1 ∧
    HedgeElementBuffer.ElementBuffer.remove HedgeElementBuffer.exH1 ⟨1, 1⟩ =
      .ok HedgeElementBuffer.exH2 ∧
    HedgeElementBuffer.exH2 ≠ HedgeElementBuffer.exH1 := by
  refine ⟨by decide, by decide, by decide⟩

/-- C6 amended: on the kernel arena a repeated `remove` with the same
handle is a no-op exactly as claimed (the slot is inactive after the
first `remove`, so the second `get` fails and nothing changes).  On the
standalone arena, whose `remove` checks nothing, the second `remove`
leaves the free set (and hence `len()`) and the payloads unchanged but
increments the slot's generation once more. -/
theorem C6_remove_idempotency (D : Type) :
    (∀ (b : Hedge.ElementBuffer D) (h : Hedge.Index),
      (b.remove h).remove h = b.remove h) ∧
    (∀ (b b1 : HedgeElementBuffer.ElementBuffer D) (h : HedgeElementBuffer.Handle),
      b.remove h = .ok b1 →
      ∃ g, b1.generations[h.offset]? = some g ∧
        b1.remove h = .ok { b1 with generations := b1.generations.set h.offset ((g + 1) % 4294967296) }) := by
  constructor
  · intro b h
    rcases hg : b.get h with _ | cell
    · have h1 : b.remove h = b := by rw [Hedge.ElementBuffer.remove, hg]
      rw [h1]; exact h1
    · have hvalid : h.is_valid = true := by
        by_contra hv
        simp only [Bool.not_eq_true] at hv
        rw [Hedge.ElementBuffer.get, Hedge.bufGet, hv] at hg
        simp at hg
      have hlt : h.offset < b.buffer.length := by
        rw [Hedge.ElementBuffer.get, Hedge.bufGet, hvalid, if_pos rfl, Hedge.getElem?] at hg
        by_contra hc
        push_neg at hc
        rw [List.getElem?_eq_none hc] at hg
        simp at hg
      have hb' : b.remove h =
          ⟨⟨h.offset, if cell.generation + 1 = Hedge.u32Max then 1 else cell.generation + 1⟩ ::
              b.free_cells,
            b.buffer.set h.offset
              { cell with
                generation := if cell.generation + 1 = Hedge.u32Max then 1 else cell.generation + 1,
                status := .INACTIVE }⟩ := by
        rw [Hedge.ElementBuffer.remove, hg]
      have hget2 : (b.remove h).get h = none := by
        rw [hb', Hedge.ElementBuffer.get, Hedge.bufGet, hvalid, if_pos rfl, Hedge.getElem?]
        simp only [List.getElem?_set_eq_of_lt _ hlt]
        simp [Hedge.MeshElement.is_active]
      conv_lhs => rw [Hedge.ElementBuffer.remove]
      rw [hget2]
  · intro b b1 h hrem
    rw [HedgeElementBuffer.ElementBuffer.remove] at hrem
    rcases hg : b.generations[h.offset]? with _ | g
    · rw [hg] at hrem; simp at hrem
    · rw [hg] at hrem
      simp only [Except.ok.injEq] at hrem
      subst hrem
      have hlt : h.offset < b.generations.length := by
        by_contra hc
        push_neg at hc
        rw [List.getElem?_eq_none hc] at hg
        exact Option.noConfusion hg
      refine ⟨(g + 1) % 4294967296, ?_, ?_⟩
      · simp only [List.getElem?_set_eq_of_lt _ hlt]
      · rw [HedgeElementBuffer.ElementBuffer.remove]
        simp only [List.getElem?_set_eq_of_lt _ hlt]
        simp

/-- Characterisation of the kernel arena's `get` for handles with non-zero
offset and non-zero generation: it returns exactly the stored element when
that element is active and its generation matches the handle's. -/
theorem kernelGet_some_iff {D : Type} (b : Hedge.ElementBuffer D) (h : Hedge.Index)
    (e : Hedge.MeshElement D) (hoff : h.offset ≠ 0) (hgen : h.generation ≠ 0) :
    b.get h = some e ↔
      b.buffer[h.offset]? = some e ∧ e.status = .ACTIVE ∧ e.generation = h.generation := by
  have hvalid : h.is_valid = true := by simp [Hedge.Index.is_valid, hoff]
  have hgpos : h.generation > 0 := Nat.pos_of_ne_zero hgen
  rw [Hedge.ElementBuffer.get, Hedge.bufGet, hvalid, if_pos rfl, Hedge.getElem?]
  rcases hx : b.buffer[h.offset]? with _ | x
  · simp
  · dsimp only
    by_cases hact : x.is_active
    · rw [if_pos hact, if_pos hgpos]
      by_cases hgeq : x.generation = h.generation
      · rw [if_pos hgeq]
        constructor
        · intro hse
          cases hse
          refine ⟨rfl, ?_, hgeq⟩
          rw [Hedge.MeshElement.is_active, decide_eq_true_eq] at hact
          exact hact
        · rintro ⟨he, _, _⟩
          cases he
          rfl
      · rw [if_neg hgeq]
        constructor
        · rintro ⟨⟩
        · rintro ⟨he, _, hg2⟩
          cases he
          exact absurd hg2 hgeq
    · rw [if_neg hact]
      constructor
      · rintro ⟨⟩
      · rintro ⟨he, hst, _⟩
        cases he
        rw [Hedge.MeshElement.is_active, hst] at hact
        simp at hact

/-- The generation of anything the kernel arena's `get` returns for a
handle of non-zero generation equals the handle's generation. -/
theorem kernelGet_some_generation {D : Type} (b : Hedge.ElementBuffer D) (h : Hedge.Index)
    (e : Hedge.MeshElement D) (hgen : h.generation ≠ 0) :
    b.get h = some e → e.generation = h.generation := by
  intro hget
  have hoff : h.offset ≠ 0 := by
    by_contra hc
    have : h.is_valid = false := by simp [Hedge.Index.is_valid, hc]
    rw [Hedge.ElementBuffer.get, Hedge.bufGet, this] at hget
    simp at hget
  exact ((kernelGet_some_iff b h e hoff hgen).mp hget).2.2

/-- C6 witness: the amended statement applied at the concrete states of
the counterexample (kernel part at the one-element kernel arena state,
standalone part at `exH0`). -/
theorem C6_remove_idempotency_witness :
    ((Hedge.exB5.remove ⟨1, 1⟩).remove ⟨1, 1⟩ = Hedge.exB5.remove ⟨1, 1⟩) ∧
    (∃ g, HedgeElementBuffer.exH1.generations[(1 : Nat)]? = some g ∧
      HedgeElementBuffer.exH1.remove ⟨1, 1⟩ =
        .ok { HedgeElementBuffer.exH1 with
              generations := HedgeElementBuffer.exH1.generations.set 1 ((g + 1) % 4294967296) }) :=
  ⟨(C6_remove_idempotency Nat).1 Hedge.exB5 ⟨1, 1⟩,
   (C6_remove_idempotency Nat).2 HedgeElementBuffer.exH0 HedgeElementBuffer.exH1 ⟨1, 1⟩ (by decide)⟩

/-! ## C9 -/

/-- C9 counterexample: `is_boundary` is not equivalent to "own face handle
or twin's face handle has offset 0".  In `exKC9` the edge at offset 1 and
its twin both carry the face handle (1, 5), whose offset is 1 ≠ 0; the
handle is stale (the face arena holds no face), so `FaceFn::is_valid`
fails and `is_boundary` reports `true` although neither handle is the
invalid handle. -/
theorem C9_boundary_true_with_nonzero_face_handles :
    Hedge.EdgeFn.is_boundary Hedge.exKC9 ⟨1, 1⟩ = true ∧
    (Hedge.EdgeFn.faceIndex Hedge.exKC9 ⟨1, 1⟩).offset ≠ 0 ∧
    (Hedge.EdgeFn.faceIndex Hedge.exKC9 (Hedge.EdgeFn.twinIndex Hedge.exKC9 ⟨1, 1⟩)).offset ≠ 0 := by
  decide

/-- C9 amended: `is_boundary(e)` is true iff the face of `e` or the face
of `e`'s twin fails to resolve through `get` — the offset-0 invalid
handle is one such case (second conjunct), but a stale non-zero face
handle, or an `e` that itself fails to resolve (whose face lookup then
falls back to the default invalid handle), also make `is_boundary` true. -/
theorem C9_is_boundary_iff_faces_unresolved (k : Hedge.Kernel) (i : Hedge.Index) :
    (Hedge.EdgeFn.is_boundary k i = true ↔
      (k.face_buffer.get (Hedge.EdgeFn.faceIndex k i) = none ∨
       k.face_buffer.get (Hedge.EdgeFn.faceIndex k (Hedge.EdgeFn.twinIndex k i)) = none)) ∧
    ((Hedge.EdgeFn.faceIndex k i).offset = 0 → Hedge.EdgeFn.is_boundary k i = true) := by
  constructor
  · rcases hA : k.face_buffer.get (Hedge.EdgeFn.faceIndex k i) with _ | fa <;>
      rcases hB : k.face_buffer.get
          (Hedge.EdgeFn.faceIndex k (Hedge.EdgeFn.twinIndex k i)) with _ | fb <;>
      simp [Hedge.EdgeFn.is_boundary, Hedge.FaceFn.is_valid, hA, hB]
  · intro h0
    have hnone : k.face_buffer.get (Hedge.EdgeFn.faceIndex k i) = none := by
      have hv : (Hedge.EdgeFn.faceIndex k i).is_valid = false := by
        simp [Hedge.Index.is_valid, h0]
      rw [Hedge.ElementBuffer.get, Hedge.bufGet, hv]
      simp
    simp [Hedge.EdgeFn.is_boundary, Hedge.FaceFn.is_valid, hnone]

/-- C9 witness: the amended statement applied at `exKC9` and the
unresolvable edge handle (5, 1), whose face lookup yields the default
handle of offset 0. -/
theorem C9_is_boundary_iff_faces_unresolved_witness :
    (Hedge.EdgeFn.faceIndex Hedge.exKC9 ⟨5, 1⟩).offset = 0 ∧
    Hedge.EdgeFn.is_boundary Hedge.exKC9 ⟨5, 1⟩ = true :=
  ⟨by decide, (C9_is_boundary_iff_faces_unresolved Hedge.exKC9 ⟨5, 1⟩).2 (by decide)⟩

/-! ## C5 -/

/-- C5 counterexample: the kernel arena's `ensure_matching_generation`
treats a handle generation of 0 as a wildcard.  On a buffer with one
active element of generation 1, `get (1, 0)` returns the stored payload
although the slot's generation (1) differs from the handle's (0) — the
claim demands the empty option whenever the generations differ. -/
theorem C5_generation_zero_wildcard :
    Hedge.ElementBuffer.get Hedge.exB5 ⟨1, 0⟩ = some Hedge.exEl5 ∧
    Hedge.exEl5.generation ≠ Hedge.Index.generation ⟨1, 0⟩ := by
  decide

/-- C5 amended: for handles with non-zero offset *and non-zero
generation*, the kernel arena's `get` returns the stored payload iff the
slot is active and the generations match, and otherwise returns the empty
option (a generation-0 handle instead skips the generation check); the
standalone arena has no wildcard and satisfies the same equivalence for
every in-bounds handle (out of bounds its `get` panics rather than
returning the empty option). -/
theorem C5_get_payload_iff_active_and_matching (D : Type) :
    (∀ (b : Hedge.ElementBuffer D) (h : Hedge.Index) (e : Hedge.MeshElement D),
        h.offset ≠ 0 → h.generation ≠ 0 →
        (b.get h = some e ↔ b.buffer[h.offset]? = some e ∧
          e.status = .ACTIVE ∧ e.generation = h.generation)) ∧
    (∀ (hb : HedgeElementBuffer.ElementBuffer D) (h : HedgeElementBuffer.Handle) (d : D),
        h.offset ≠ 0 → h.offset < hb.generations.length →
        (hb.get h = .ok (some d) ↔ hb.buffer[h.offset]? = some d ∧
          (h.offset ∉ hb.free_cells) ∧ hb.generations[h.offset]? = some h.generation)) := by
  constructor
  · intro b h e hoff hgen
    exact kernelGet_some_iff b h e hoff hgen
  · intro hb h d _ hlt
    rw [HedgeElementBuffer.ElementBuffer.get]
    by_cases hmem : h.offset ∈ hb.free_cells
    · rw [if_pos (by simp [HedgeElementBuffer.ElementBuffer.is_active_cell, hmem])]
      constructor
      · intro hok
        injection hok with h1
        exact Option.noConfusion h1
      · rintro ⟨_, habs, _⟩
        exact absurd hmem habs
    · rw [if_neg (by simp [HedgeElementBuffer.ElementBuffer.is_active_cell, hmem])]
      rcases hg : hb.generations[h.offset]? with _ | g
      · rw [List.getElem?_eq_none_iff] at hg
        omega
      · dsimp only
        by_cases hgeq : g = h.generation
        · rw [if_neg (by simp [hgeq])]
          constructor
          · intro hok
            injection hok with h1
            exact ⟨h1, hmem, by rw [hgeq]⟩
          · rintro ⟨hbuf, _, _⟩
            rw [hbuf]
        · rw [if_pos (by simp [hgeq])]
          constructor
          · intro hok
            injection hok with h1
            exact Option.noConfusion h1
          · rintro ⟨_, _, hg2⟩
            injection hg2 with hg3
            exact absurd hg3 hgeq

/-- C5 witness: the amended statement applied at the one-element states of
both arenas with the matching generation-1 handle. -/
theorem C5_get_payload_iff_active_and_matching_witness :
    (Hedge.ElementBuffer.get Hedge.exB5 ⟨1, 1⟩ = some Hedge.exEl5 ↔
      Hedge.exB5.buffer[(⟨1, 1⟩ : Hedge.Index).offset]? = some Hedge.exEl5 ∧
        Hedge.exEl5.status = .ACTIVE ∧ Hedge.exEl5.generation = (⟨1, 1⟩ : Hedge.Index).generation) ∧
    (HedgeElementBuffer.ElementBuffer.get HedgeElementBuffer.exH0 ⟨1, 1⟩ = .ok (some 7) ↔
      HedgeElementBuffer.exH0.buffer[(⟨1, 1⟩ : HedgeElementBuffer.Handle).offset]? = some 7 ∧
        ((⟨1, 1⟩ : HedgeElementBuffer.Handle).offset ∉ HedgeElementBuffer.exH0.free_cells) ∧
        HedgeElementBuffer.exH0.generations[(⟨1, 1⟩ : HedgeElementBuffer.Handle).offset]? =
          some (⟨1, 1⟩ : HedgeElementBuffer.Handle).generation) :=
  ⟨(C5_get_payload_iff_active_and_matching Nat).1 Hedge.exB5 ⟨1, 1⟩ Hedge.exEl5
      (by decide) (by decide),
   (C5_get_payload_iff_active_and_matching Nat).2 HedgeElementBuffer.exH0 ⟨1, 1⟩ 7
      (by decide) (by decide)⟩

/-! ## C3 -/

/-- C3: after `defrag` on a kernel whose only hole is one removed point,
the point arena's free set is *not* empty and the inactive ex-point is
still inside the live prefix: `defrag_points` ends by truncating the
vertex buffer instead of the point buffer (kernel.rs line 354), so the
point arena keeps its free list and its inactive slot.  This evaluates
the code at the failing input. -/
theorem C3_point_free_set_survives_defrag :
    (Hedge.Kernel.defrag Hedge.exKC3).point_buffer.free_cells = [⟨1, 2⟩] ∧
    (Hedge.Kernel.defrag Hedge.exKC3).point_buffer.buffer.length = 3 ∧
    ((Hedge.Kernel.defrag Hedge.exKC3).point_buffer.buffer[2]?.map
      (fun e => e.is_active)) = some false ∧
    Hedge.ElementBuffer.len (Hedge.Kernel.defrag Hedge.exKC3).point_buffer = 2 := by
  decide

/-! ## C1 -/

/-- C1 counterexample: compaction moves generations with the cells and
never bumps them, so a handle to a previously live element can resolve to
a *different* element after `defragment`.  In `exKC1`, handle (2, 1)
names live face A before defrag; after defrag the same handle resolves to
face B (which slid from offset 3 to offset 2 and also has generation 1) —
neither the empty option nor the element the handle originally named. -/
theorem C1_stale_handle_resolves_to_wrong_element :
    Hedge.ElementBuffer.get Hedge.exKC1.face_buffer ⟨2, 1⟩ = some Hedge.exFaceA ∧
    Hedge.ElementBuffer.get (Hedge.Kernel.defrag Hedge.exKC1).face_buffer ⟨2, 1⟩ =
      some Hedge.exFaceB ∧
    Hedge.exFaceB ≠ Hedge.exFaceA := by
  refine ⟨by decide, by decide, by decide⟩

/-- C1 amended: what `get` does guarantee across `defragment` is the
generation check itself: for any handle of non-zero generation, `get`
after `defrag` returns either the empty option or an element whose
generation equals the handle's.  Because compaction relocates cells
together with their generations, that element may be a different one than
the handle originally named (see the counterexample), which is why the
spec's lifecycle rule forbids retaining handles across a defragment. -/
theorem C1_defrag_get_respects_generation (k : Hedge.Kernel) (h : Hedge.Index)
    (e : Hedge.Face) (hgen : h.generation ≠ 0) :
    Hedge.ElementBuffer.get k.defrag.face_buffer h = some e →
    e.generation = h.generation :=
  kernelGet_some_generation _ h e hgen

/-- C1 witness: the amended statement applied to the counterexample state:
the handle (2, 1) resolves after defrag to face B, whose generation is
indeed the handle's generation 1. -/
theorem C1_defrag_get_respects_generation_witness :
    Hedge.exFaceB.generation = Hedge.Index.generation ⟨2, 1⟩ :=
  C1_defrag_get_respects_generation Hedge.exKC1 ⟨2, 1⟩ Hedge.exFaceB
    (by decide) (by decide)

/-! ## C8 helper lemmas: the two-pointer rectify plan -/

theorem mem_takeWhile_pred {α : Type} {p : α → Bool} :
    ∀ {l : List α} {a : α}, a ∈ l.takeWhile p → p a = true := by
  intro l
  induction l with
  | nil => intro a h; cases h
  | cons b t ih =>
    intro a h
    rw [List.takeWhile_cons] at h
    by_cases hb : p b
    · rw [if_pos hb] at h
      rcases List.mem_cons.mp h with rfl | h2
      · exact hb
      · exact ih h2
    · rw [if_neg hb] at h
      cases h

theorem lt_length_takeWhile {α : Type} (p : α → Bool) :
    ∀ (l : List α) (j : ℕ), j < l.length →
      (∀ i (hi : i < l.length), i ≤ j → p (l.get ⟨i, hi⟩) = true) →
      j < (l.takeWhile p).length := by
  intro l
  induction l with
  | nil => intro j hj _; simp at hj
  | cons b t ih =>
    intro j hj hall
    have hb : p b = true := hall 0 (by simp) (Nat.zero_le j)
    rw [List.takeWhile_cons, if_pos hb]
    cases j with
    | zero => simp
    | succ j' =>
      have hj' : j' < t.length := by simpa using hj
      have ht : j' < (t.takeWhile p).length := by
        apply ih j' hj'
        intro i hi hij
        have hstep := hall (i + 1) (by simpa using hi) (by omega)
        rwa [List.get_cons_succ] at hstep
      simpa using ht

theorem takeWhile_getElem? {α : Type} (p : α → Bool) :
    ∀ (l : List α) (j : ℕ), j < (l.takeWhile p).length →
      (l.takeWhile p)[j]? = l[j]? := by
  intro l
  induction l with
  | nil => intro j hj; simp [List.takeWhile] at hj
  | cons b t ih =>
    intro j hj
    rw [List.takeWhile_cons] at hj ⊢
    by_cases hb : p b
    · rw [if_pos hb] at hj ⊢
      cases j with
      | zero => simp
      | succ j' =>
        simp only [List.getElem?_cons_succ]
        exact ih j' (by simpa using hj)
    · rw [if_neg hb] at hj
      simp at hj

theorem pairwise_zip_lt_gt : ∀ {l1 l2 : List ℕ},
    l1.Pairwise (fun a b => a < b) → l2.Pairwise (fun a b => b < a) →
    (l1.zip l2).Pairwise (fun p q => p.1 < q.1 ∧ q.2 < p.2) := by
  intro l1
  induction l1 with
  | nil => intro l2 _ _; simp
  | cons a t1 ih =>
    intro l2 h1 h2
    cases l2 with
    | nil => simp
    | cons b t2 =>
      rw [List.zip_cons_cons]
      rw [List.pairwise_cons] at h1 h2
      rw [List.pairwise_cons]
      constructor
      · rintro ⟨q1, q2⟩ hq
        rcases List.of_mem_zip hq with ⟨hm1, hm2⟩
        exact ⟨h1.1 q1 hm1, h2.1 q2 hm2⟩
      · exact ih h1.2 h2.2

theorem filter_gt_getElem_of_desc :
    ∀ (l : List ℕ), l.Pairwise (fun a b => b < a) →
      ∀ (k : ℕ) (hk : k < l.length),
        l.filter (fun y => decide (l.get ⟨k, hk⟩ < y)) = l.take k := by
  intro l
  induction l with
  | nil => intro _ k hk; simp at hk
  | cons a t ih =>
    intro hp k hk
    rw [List.pairwise_cons] at hp
    cases k with
    | zero =>
      rw [List.take_zero]
      rw [List.filter_eq_nil_iff]
      intro z hz
      rcases List.mem_cons.mp hz with rfl | hzt
      · simp
      · have := hp.1 z hzt
        simp only [List.get]
        simp
        omega
    | succ k' =>
      have hk' : k' < t.length := by simpa using hk
      have hget : (a :: t).get ⟨k' + 1, hk⟩ = t.get ⟨k', hk'⟩ := rfl
      rw [hget, List.filter_cons]
      have ha : (decide (t.get ⟨k', hk'⟩ < a)) = true := by
        have := hp.1 _ (List.get_mem t k' hk')
        simpa using this
      rw [if_pos ha, List.take_succ_cons, ih hp.2 k' hk']

theorem filter_le_getElem_of_asc :
    ∀ (l : List ℕ), l.Pairwise (fun a b => a < b) →
      ∀ (j : ℕ) (hj : j < l.length),
        l.filter (fun y => decide (y ≤ l.get ⟨j, hj⟩)) = l.take (j + 1) := by
  intro l
  induction l with
  | nil => intro _ j hj; simp at hj
  | cons a t ih =>
    intro hp j hj
    rw [List.pairwise_cons] at hp
    cases j with
    | zero =>
      have h0 : (a :: t).get ⟨0, hj⟩ = a := rfl
      rw [h0, List.take_succ_cons, List.take_zero, List.filter_cons, if_pos (by simp)]
      congr 1
      rw [List.filter_eq_nil_iff]
      intro z hz
      have := hp.1 z hz
      simp
      omega
    | succ j' =>
      have hj' : j' < t.length := by simpa using hj
      have hget : (a :: t).get ⟨j' + 1, hj⟩ = t.get ⟨j', hj'⟩ := rfl
      rw [hget, List.filter_cons]
      have ha : (decide (a ≤ t.get ⟨j', hj'⟩)) = true := by
        have hlt := hp.1 _ (List.get_mem t j' hj')
        rw [decide_eq_true_eq]
        omega
      rw [if_pos ha, List.take_succ_cons, ih hp.2 j' hj']

theorem nodup_subset_length_le {l1 l2 : List ℕ} (h1 : l1.Nodup) (hsub : l1 ⊆ l2) :
    l1.length ≤ l2.length := by
  rw [← List.toFinset_card_of_nodup h1]
  refine le_trans (Finset.card_le_card ?_) (List.toFinset_card_le l2)
  intro z hz
  rw [List.mem_toFinset] at hz ⊢
  exact hsub hz

theorem range_filter_le_eq (x : ℕ) :
    ∀ (n : ℕ), x < n →
      (List.range n).filter (fun z => decide (z ≤ x)) = List.range (x + 1) := by
  intro n
  induction n with
  | zero => omega
  | succ m ih =>
    intro hx
    rw [List.range_succ, List.filter_append]
    by_cases hxm : x = m
    · subst hxm
      have h1 : (List.range x).filter (fun z => decide (z ≤ x)) = List.range x := by
        rw [List.filter_eq_self]
        intro z hz
        rw [List.mem_range] at hz
        simp
        omega
      rw [h1]
      simp [List.range_succ]
    · have hxlt : x < m := by omega
      rw [ih hxlt]
      have h2 : (List.filter (fun z => decide (z ≤ x)) [m]) = [] := by
        simp
        omega
      rw [h2, List.append_nil]

theorem descList_eq (n : ℕ) :
    (List.range' 1 n).map (fun idx => n - idx) = (List.range n).reverse := by
  apply List.ext_getElem
  · simp
  · intro i h1 h2
    rw [List.getElem_map, List.getElem_reverse, List.getElem_range, List.getElem_range'_1]
    simp only [List.length_map, List.length_range'] at h1
    simp only [List.length_range]
    omega

theorem applyPlanFree_mem (plan : List (ℕ × ℕ)) (s : Finset ℕ)
    (H : ∀ p ∈ plan, ∀ q ∈ plan, p.2 ≠ q.1) (x : ℕ) :
    (x ∈ HedgeElementBuffer.applyPlanFree s plan ↔
      x ∈ plan.map Prod.snd ∨ (x ∈ s ∧ x ∉ plan.map Prod.fst)) := by
  induction plan generalizing s with
  | nil => simp [HedgeElementBuffer.applyPlanFree]
  | cons hd tl ih =>
    obtain ⟨f, a⟩ := hd
    have hane : a ∉ tl.map Prod.fst := by
      intro hmem
      obtain ⟨q, hq, hq2⟩ := List.mem_map.mp hmem
      exact H (f, a) (by simp) q (List.mem_cons_of_mem _ hq) hq2.symm
    have haf : a ≠ f := H (f, a) (by simp) (f, a) (by simp)
    have ih' := ih (insert a (s.erase f))
      (fun p hp q hq => H p (List.mem_cons_of_mem _ hp) q (List.mem_cons_of_mem _ hq))
    have hstep : HedgeElementBuffer.applyPlanFree s ((f, a) :: tl) =
        HedgeElementBuffer.applyPlanFree (insert a (s.erase f)) tl := rfl
    rw [hstep, ih']
    simp only [List.map_cons, List.mem_cons, Finset.mem_insert, Finset.mem_erase]
    by_cases hxa : x = a
    · subst hxa
      simp [hane]
    · constructor
      · rintro (h1 | ⟨(h2 | ⟨h3, h4⟩), h5⟩)
        · exact Or.inl (Or.inr h1)
        · exact absurd h2 hxa
        · exact Or.inr ⟨h4, by rintro (rfl | hc); exact h3 rfl; exact h5 hc⟩
      · rintro ((rfl | h1) | ⟨h2, h3⟩)
        · exact absurd rfl hxa
        · exact Or.inl h1
        · refine Or.inr ⟨Or.inr ⟨fun hf => h3 (Or.inl hf), h2⟩, fun hc => h3 (Or.inr hc)⟩

theorem acts_eq_reverse (n : ℕ) (F : Finset ℕ) :
    ((List.range' 1 n).map (fun idx => n - idx)).filter (fun z => decide (z ∉ F)) =
      ((List.range n).filter (fun z => !(decide (z ∈ F)))).reverse := by
  rw [descList_eq, List.filter_reverse]
  congr 1
  exact List.filter_congr (fun z _ => by simp [decide_not])

theorem acts_pairwise_desc (n : ℕ) (F : Finset ℕ) :
    (((List.range' 1 n).map (fun idx => n - idx)).filter
      (fun z => decide (z ∉ F))).Pairwise (fun a b => b < a) := by
  rw [acts_eq_reverse, List.pairwise_reverse]
  exact (List.pairwise_lt_range n).filter _

theorem acts_nodup (n : ℕ) (F : Finset ℕ) :
    (((List.range' 1 n).map (fun idx => n - idx)).filter
      (fun z => decide (z ∉ F))).Nodup := by
  rw [acts_eq_reverse]
  exact List.nodup_reverse.mpr (List.Nodup.filter _ (List.nodup_range n))

theorem acts_filter_gt_length (n : ℕ) (F : Finset ℕ) (x : ℕ) :
    ((((List.range' 1 n).map (fun idx => n - idx)).filter
        (fun z => decide (z ∉ F))).filter (fun y => decide (x < y))).length =
      (((List.range n).filter (fun z => !(decide (z ∈ F)))).filter
        (fun z => !(decide (z ≤ x)))).length := by
  rw [acts_eq_reverse, List.filter_reverse, List.length_reverse]
  congr 1
  exact List.filter_congr (fun z _ => by
    rw [← decide_not]
    exact decide_eq_decide.mpr (by constructor <;> omega))

theorem range_split_counts (n x : ℕ) (F : Finset ℕ) (hxn : x < n) :
    ((List.range n).filter (fun z => decide (z ∈ F))).length +
      ((List.range n).filter (fun z => !(decide (z ∈ F)))).length = n ∧
    ((List.range n).filter (fun z => decide (z ∈ F))).length ≤ F.card ∧
    (((List.range n).filter (fun z => !(decide (z ∈ F)))).filter
        (fun z => decide (z ≤ x))).length +
      (((List.range n).filter (fun z => !(decide (z ∈ F)))).filter
        (fun z => !(decide (z ≤ x)))).length =
      ((List.range n).filter (fun z => !(decide (z ∈ F)))).length ∧
    (((List.range n).filter (fun z => decide (z ∈ F))).filter
        (fun z => decide (z ≤ x))).length +
      (((List.range n).filter (fun z => !(decide (z ∈ F)))).filter
        (fun z => decide (z ≤ x))).length = x + 1 := by
  refine ⟨?_, ?_, ?_, ?_⟩
  · have h := length_filter_add_length_filter_not (List.range n) (fun z => decide (z ∈ F))
    simpa using h
  · have hnd : ((List.range n).filter (fun z => decide (z ∈ F))).Nodup :=
      List.Nodup.filter _ (List.nodup_range n)
    rw [← List.toFinset_card_of_nodup hnd]
    apply Finset.card_le_card
    intro z hz
    rw [List.mem_toFinset, List.mem_filter, decide_eq_true_eq] at hz
    exact hz.2
  · exact length_filter_add_length_filter_not _ _
  · have hL : ((List.range n).filter (fun z => decide (z ≤ x))).length = x + 1 := by
      rw [range_filter_le_eq x n hxn, List.length_range]
    have hsplit := length_filter_add_length_filter_not
      ((List.range n).filter (fun z => decide (z ≤ x))) (fun z => decide (z ∈ F))
    rw [hL, List.filter_filter, List.filter_filter] at hsplit
    rw [List.filter_filter, List.filter_filter]
    have e1 : (List.range n).filter (fun a => decide (a ≤ x) && decide (a ∈ F)) =
        (List.range n).filter (fun a => decide (a ∈ F) && decide (a ≤ x)) :=
      List.filter_congr (fun z _ => Bool.and_comm _ _)
    have e2 : (List.range n).filter (fun a => decide (a ≤ x) && !(decide (a ∈ F))) =
        (List.range n).filter (fun a => !(decide (a ∈ F)) && decide (a ≤ x)) :=
      List.filter_congr (fun z _ => Bool.and_comm _ _)
    rw [e1, e2]
    exact hsplit

theorem take_count_into {l l2 : List ℕ} (hasc : l.Pairwise (fun a b => a < b))
    (hnd : l.Nodup) {i : ℕ} (hi : i < l.length)
    (hsub : ∀ z ∈ l, z ≤ l.get ⟨i, hi⟩ → z ∈ l2) :
    i + 1 ≤ l2.length := by
  have hfilter := filter_le_getElem_of_asc l hasc i hi
  have hlen : (l.filter (fun y => decide (y ≤ l.get ⟨i, hi⟩))).length = i + 1 := by
    rw [hfilter, List.length_take]
    omega
  have hndf : (l.filter (fun y => decide (y ≤ l.get ⟨i, hi⟩))).Nodup :=
    List.Nodup.filter _ hnd
  have hss : (l.filter (fun y => decide (y ≤ l.get ⟨i, hi⟩))) ⊆ l2 := by
    intro z hz
    rw [List.mem_filter, decide_eq_true_eq] at hz
    exact hsub z hz.1 hz.2
  calc i + 1 = (l.filter (fun y => decide (y ≤ l.get ⟨i, hi⟩))).length := hlen.symm
    _ ≤ l2.length := nodup_subset_length_le hndf hss

theorem frees_lt_acts (n : ℕ) (F : Finset ℕ) (i fi : ℕ)
    (hfi : ((List.range' 1 n).filter (fun z => decide (z ∈ F)))[i]? = some fi)
    (hle : fi + F.card + 1 ≤ n) :
    ∃ ai, (((List.range' 1 n).map (fun idx => n - idx)).filter
        (fun z => decide (z ∉ F)))[i]? = some ai ∧ fi < ai := by
  obtain ⟨hi, hgetv⟩ := List.getElem?_eq_some.mp hfi
  have hfi_mem : fi ∈ (List.range' 1 n).filter (fun z => decide (z ∈ F)) := by
    rw [← hgetv]
    exact List.getElem_mem hi
  have hfi1 : 1 ≤ fi ∧ fi ≤ n ∧ fi ∈ F := by
    rw [List.mem_filter, List.mem_range'_1, decide_eq_true_eq] at hfi_mem
    exact ⟨hfi_mem.1.1, by omega, hfi_mem.2⟩
  have hfin : fi < n := by omega
  have hC1 : i + 1 ≤ (((List.range n).filter (fun z => decide (z ∈ F))).filter
      (fun z => decide (z ≤ fi))).length := by
    apply take_count_into ((List.pairwise_lt_range' 1 n).filter _)
      ((List.nodup_range' 1 n).filter _) hi
    intro z hz hzle
    rw [List.get_eq_getElem, hgetv] at hzle
    rw [List.mem_filter, List.mem_range'_1] at hz
    rw [List.mem_filter, List.mem_filter, List.mem_range]
    refine ⟨⟨by omega, hz.2⟩, by rw [decide_eq_true_eq]; omega⟩
  obtain ⟨hA, hA1card, hB, hC⟩ := range_split_counts n fi F hfin
  have hB2 : i + 1 ≤ (((List.range n).filter (fun z => !(decide (z ∈ F)))).filter
      (fun z => !(decide (z ≤ fi)))).length := by omega
  have hconv := acts_filter_gt_length n F fi
  set acts := ((List.range' 1 n).map (fun idx => n - idx)).filter
    (fun z => decide (z ∉ F)) with hacts
  have hflen : i + 1 ≤ (acts.filter (fun y => decide (fi < y))).length := by
    rw [hconv]
    exact hB2
  have hilen : i < acts.length := by
    have hfl := List.length_filter_le (fun y => decide (fi < y)) acts
    omega
  have hgt : fi < acts.get ⟨i, hilen⟩ := by
    by_contra hc
    push_neg at hc
    have hdesc : acts.Pairwise (fun a b => b < a) := acts_pairwise_desc n F
    have htake := filter_gt_getElem_of_desc acts hdesc i hilen
    have hsub2 : acts.filter (fun y => decide (fi < y)) ⊆
        acts.filter (fun y => decide (acts.get ⟨i, hilen⟩ < y)) := by
      intro z hz
      rw [List.mem_filter, decide_eq_true_eq] at hz
      rw [List.mem_filter, decide_eq_true_eq]
      exact ⟨hz.1, by omega⟩
    have hnd2 : (acts.filter (fun y => decide (fi < y))).Nodup :=
      List.Nodup.filter _ (acts_nodup n F)
    have hle2 := nodup_subset_length_le hnd2 hsub2
    rw [htake, List.length_take] at hle2
    omega
  refine ⟨acts[i], List.getElem?_eq_getElem hilen, ?_⟩
  rw [List.get_eq_getElem] at hgt
  exact hgt

/-! ## C8 -/

/-- C8: correctness of the rectify plan.  The apply step is modelled from
the spec as `applyPlanFree` (the source's `compact()` builds the plan and
discards it); the plan itself is the source's `build_rectify_plan`.
Every emitted pair `(f, a)` has `f < a` with `f` free and `a` active (a
real, non-sentinel slot); the `f` components strictly increase while the
`a` components strictly decrease; and applying every swap of the plan to
the free set leaves all offsets `1..=len()` active. -/
theorem C8_rectify_plan_correct (D : Type) (b : HedgeElementBuffer.ElementBuffer D) :
    (∀ p ∈ b.build_rectify_plan,
        p.1 < p.2 ∧ p.1 ∈ b.free_cells ∧ p.2 ∉ b.free_cells ∧
        1 ≤ p.1 ∧ p.2 < b.buffer.length) ∧
    b.build_rectify_plan.Pairwise (fun p q => p.1 < q.1 ∧ q.2 < p.2) ∧
    (∀ x, 1 ≤ x → x ≤ b.len →
        x ∉ HedgeElementBuffer.applyPlanFree b.free_cells b.build_rectify_plan) := by
  classical
  set n := b.buffer.length with hn
  set F := b.free_cells with hF
  set frees := (List.range' 1 n).filter (fun z => decide (z ∈ F)) with hfrees
  set acts := ((List.range' 1 n).map (fun idx => n - idx)).filter
    (fun z => decide (z ∉ F)) with hacts
  have hplan : b.build_rectify_plan =
      (frees.zip acts).takeWhile (fun p => decide (p.1 < p.2)) := rfl
  have hfreesasc : frees.Pairwise (fun a b => a < b) := by
    rw [hfrees]
    exact (List.pairwise_lt_range' 1 n).filter _
  have hfreesnd : frees.Nodup := by
    rw [hfrees]
    exact (List.nodup_range' 1 n).filter _
  have hactsdesc : acts.Pairwise (fun a b => b < a) := by
    rw [hacts]
    exact acts_pairwise_desc n F
  have hmemfact : ∀ p ∈ b.build_rectify_plan,
      p.1 < p.2 ∧ p.1 ∈ F ∧ p.2 ∉ F ∧ 1 ≤ p.1 ∧ p.2 < n := by
    intro p hp
    rw [hplan] at hp
    have hpred := mem_takeWhile_pred hp
    rw [decide_eq_true_eq] at hpred
    have hz := (List.takeWhile_sublist _).subset hp
    obtain ⟨h1, h2⟩ := List.of_mem_zip hz
    rw [hfrees, List.mem_filter, List.mem_range'_1, decide_eq_true_eq] at h1
    rw [hacts, List.mem_filter, decide_eq_true_eq] at h2
    obtain ⟨hmapmem, hnotfree⟩ := h2
    rw [List.mem_map] at hmapmem
    obtain ⟨idx, hidx, hval⟩ := hmapmem
    rw [List.mem_range'_1] at hidx
    exact ⟨hpred, h1.2, hnotfree, h1.1.1, by omega⟩
  have hpw : b.build_rectify_plan.Pairwise (fun p q => p.1 < q.1 ∧ q.2 < p.2) := by
    rw [hplan]
    exact List.Pairwise.sublist (List.takeWhile_sublist _)
      (pairwise_zip_lt_gt hfreesasc hactsdesc)
  refine ⟨hmemfact, hpw, ?_⟩
  intro x hx1 hxle hmem
  have hH : ∀ p ∈ b.build_rectify_plan, ∀ q ∈ b.build_rectify_plan, p.2 ≠ q.1 := by
    intro p hp q hq heq
    exact (hmemfact p hp).2.2.1 (heq ▸ (hmemfact q hq).2.1)
  rw [applyPlanFree_mem _ _ hH] at hmem
  have hlendef : b.len = (n - 1) - F.card := rfl
  have hcard : x + F.card ≤ n - 1 := by omega
  rcases hmem with hsnd | ⟨hxF, hxfst⟩
  · rw [List.mem_map] at hsnd
    obtain ⟨p, hp, hpx⟩ := hsnd
    have hfacts := hmemfact p hp
    have hxn : x < n := hpx ▸ hfacts.2.2.2.2
    rw [hplan] at hp
    have hz := (List.takeWhile_sublist _).subset hp
    rw [List.mem_iff_getElem] at hz
    obtain ⟨k, hk, hzk⟩ := hz
    have hklen := hk
    rw [List.length_zip] at hklen
    have hkf : k < frees.length := (lt_min_iff.mp hklen).1
    have hka : k < acts.length := (lt_min_iff.mp hklen).2
    rw [List.getElem_zip] at hzk
    have hp1 : frees[k] = p.1 := congrArg Prod.fst hzk
    have hp2 : acts[k] = p.2 := congrArg Prod.snd hzk
    have hC1 : k + 1 ≤ (((List.range n).filter (fun z => decide (z ∈ F))).filter
        (fun z => decide (z ≤ x))).length := by
      apply take_count_into hfreesasc hfreesnd hkf
      intro z hz2 hzle
      rw [List.get_eq_getElem, hp1] at hzle
      rw [hfrees, List.mem_filter, List.mem_range'_1] at hz2
      rw [List.mem_filter, List.mem_filter, List.mem_range]
      have hzx : z ≤ x := by
        have := hfacts.1
        omega
      refine ⟨⟨by omega, hz2.2⟩, by rw [decide_eq_true_eq]; omega⟩
    have htake := filter_gt_getElem_of_desc acts hactsdesc k hka
    have hax : acts.get ⟨k, hka⟩ = x := by
      rw [List.get_eq_getElem, hp2, hpx]
    rw [hax] at htake
    have hB2 : (((List.range n).filter (fun z => !(decide (z ∈ F)))).filter
        (fun z => !(decide (z ≤ x)))).length = k := by
      rw [← acts_filter_gt_length n F x, ← hacts, htake, List.length_take]
      omega
    obtain ⟨hA, hA1card, hB, hC⟩ := range_split_counts n x F hxn
    omega
  · apply hxfst
    have hxmem : x ∈ frees := by
      rw [hfrees, List.mem_filter, List.mem_range'_1, decide_eq_true_eq]
      exact ⟨⟨hx1, by omega⟩, hxF⟩
    rw [List.mem_iff_getElem] at hxmem
    obtain ⟨j, hj, hfj⟩ := hxmem
    have hstep : ∀ i (hi2 : i < frees.length), i ≤ j →
        ∃ ai, acts[i]? = some ai ∧ frees[i] < ai := by
      intro i hi2 hij
      have hfile : frees[i] ≤ x := by
        rcases Nat.lt_or_ge i j with hlt | hge
        · have := List.pairwise_iff_getElem.mp hfreesasc i j hi2 hj hlt
          rw [hfj] at this
          omega
        · have hieq : i = j := by omega
          subst hieq
          rw [hfj]
      have hfla := frees_lt_acts n F i frees[i]
        (by rw [← hfrees]; exact List.getElem?_eq_getElem hi2) (by omega)
      rw [← hacts] at hfla
      exact hfla
    have hja : j < acts.length := by
      obtain ⟨ai, hai, _⟩ := hstep j hj (le_refl j)
      exact (List.getElem?_eq_some.mp hai).1
    have hjz : j < (frees.zip acts).length := by
      rw [List.length_zip]
      exact lt_min_iff.mpr ⟨hj, hja⟩
    have hjp : j < (b.build_rectify_plan).length := by
      rw [hplan]
      apply lt_length_takeWhile _ _ j hjz
      intro i hi hij
      have hiz := hi
      rw [List.length_zip] at hiz
      have hif : i < frees.length := (lt_min_iff.mp hiz).1
      obtain ⟨ai, hai, hlt⟩ := hstep i hif hij
      have hia : i < acts.length := (List.getElem?_eq_some.mp hai).1
      have hgz : (frees.zip acts).get ⟨i, hi⟩ = (frees[i], acts[i]) := by
        rw [List.get_eq_getElem, List.getElem_zip]
      rw [hgz, decide_eq_true_eq]
      have hav : acts[i] = ai := by
        have := List.getElem?_eq_getElem hia
        rw [hai] at this
        injection this with hv
        exact hv.symm
      rw [hav]
      exact hlt
    have hpj : (b.build_rectify_plan)[j]? = (frees.zip acts)[j]? := by
      rw [hplan]
      exact takeWhile_getElem? _ _ j (by rw [← hplan]; exact hjp)
    rw [List.getElem?_eq_getElem hjz, List.getElem_zip] at hpj
    have hpmem : (frees[j], acts[j]) ∈ b.build_rectify_plan := by
      obtain ⟨hlt2, hval2⟩ := List.getElem?_eq_some.mp hpj
      rw [← hval2]
      exact List.getElem_mem hlt2
    rw [List.mem_map]
    exact ⟨(frees[j], acts[j]), hpmem, hfj⟩

/-- C8 witness: the plan-correctness statement applied at a six-slot
buffer with free offsets {1, 4}, whose plan is [(1, 5)]: the pair is
checked, and offset 2 of the live prefix is active after applying the
plan. -/
theorem C8_rectify_plan_correct_witness :
    ((1, 5).1 < (1, 5).2 ∧ (1, 5).1 ∈ HedgeElementBuffer.exH8.free_cells ∧
      (1, 5).2 ∉ HedgeElementBuffer.exH8.free_cells ∧ 1 ≤ (1, 5).1 ∧
      (1, 5).2 < HedgeElementBuffer.exH8.buffer.length) ∧
    2 ∉ HedgeElementBuffer.applyPlanFree HedgeElementBuffer.exH8.free_cells
        HedgeElementBuffer.exH8.build_rectify_plan :=
  ⟨(C8_rectify_plan_correct Nat HedgeElementBuffer.exH8).1 (1, 5) (by decide),
   (C8_rectify_plan_correct Nat HedgeElementBuffer.exH8).2.2 2 (by decide) (by decide)⟩

/-! ## C4: helper lemmas and counterexample -/

theorem liveAt_lt_length {D : Type} [Inhabited D] {buffer : List (Hedge.MeshElement D)}
    {o : Nat} (h : Hedge.liveAt buffer o = true) : o < buffer.length := by
  rw [Hedge.liveAt] at h
  simp only [Bool.and_eq_true, decide_eq_true_eq] at h
  exact h.1.2

/-- C4 counterexample: a mesh satisfying all four §3 invariants — twin
involution, next/prev involution, face-loop closure and vertex origin —
on which `defragment` breaks the next/prev involution.  The mesh's full
edge consists of two half-edges that are each their own `next`/`prev`
(a one-edge face loop and a one-edge boundary loop); when `defrag_edges`
swaps the face-side half-edge from offset 3 into the hole at offset 1,
the moved edge's own `next`/`prev` handles still name offset 3, the
rewrite `get`s on those handles find an inactive slot and are skipped,
and after truncation the edge at offset 1 points at the removed offset 3:
its `next` no longer resolves at all. -/
theorem C4_self_next_breaks_involution :
    Hedge.TwinInvolution Hedge.exKC4.edge_buffer.buffer ∧
    Hedge.NextPrevInvolution Hedge.exKC4.edge_buffer.buffer ∧
    Hedge.FaceLoopsOK Hedge.exKC4.edge_buffer.buffer Hedge.exKC4.face_buffer.buffer ∧
    Hedge.VertexOriginOK Hedge.exKC4.edge_buffer.buffer Hedge.exKC4.vertex_buffer.buffer ∧
    ¬ Hedge.NextPrevInvolution (Hedge.Kernel.defrag Hedge.exKC4).edge_buffer.buffer := by
  refine ⟨?_, ?_, ?_, ?_, ?_⟩
  · intro o ho
    have hlt : o < 4 := liveAt_lt_length ho
    interval_cases o <;> revert ho <;> decide
  · intro o ho
    have hlt : o < 4 := liveAt_lt_length ho
    interval_cases o <;> revert ho <;> decide
  · intro o ho
    have hlt : o < 2 := liveAt_lt_length ho
    interval_cases o
    · exact absurd ho (by decide)
    · refine ⟨[3], ⟨by decide, by decide, by decide, by decide, ?_⟩, by decide⟩
      intro i hi
      have hi0 : i = 0 := by simpa using hi
      subst hi0
      decide
  · intro o ho hv
    have hlt : o < 2 := liveAt_lt_length ho
    interval_cases o
    · exact absurd ho (by decide)
    · exact ⟨by decide, by decide⟩
  · intro h
    have h1 := (h 1 (by decide)).1
    exact absurd h1 (by decide)


theorem Hedge.liveAt_iff {D : Type} [Inhabited D] (B : List (Hedge.MeshElement D)) (o : Nat) :
    Hedge.liveAt B o = true ↔
      1 ≤ o ∧ o < B.length ∧ (Hedge.elemAt B o).is_active = true := by
  simp [Hedge.liveAt, Bool.and_eq_true, and_assoc]

theorem Hedge.elemAt_set {D : Type} [Inhabited D] (B : List (Hedge.MeshElement D))
    (o : Nat) (e : Hedge.MeshElement D) (z : Nat) :
    Hedge.elemAt (B.set o e) z = if z = o ∧ o < B.length then e else Hedge.elemAt B z := by
  unfold Hedge.elemAt
  rw [List.getElem?_set]
  by_cases h1 : o = z
  · subst h1
    by_cases h2 : o < B.length
    · simp [h2]
    · have h3 : B[o]? = none := List.getElem?_eq_none (by omega)
      simp [h2, h3]
  · have h1' : ¬ z = o := fun h => h1 h.symm
    simp [h1, h1']

theorem Hedge.elemAt_of_lt {D : Type} [Inhabited D] {B : List (Hedge.MeshElement D)}
    {o : Nat} (h : o < B.length) : B[o]? = some (Hedge.elemAt B o) := by
  rw [List.getElem?_eq_getElem h]
  unfold Hedge.elemAt
  rw [List.getElem?_eq_getElem h]
  rfl

theorem Hedge.resolvesAt_iff {D : Type} [Inhabited D] (B : List (Hedge.MeshElement D))
    (i : Hedge.Index) :
    Hedge.resolvesAt B i = true ↔
      Hedge.liveAt B i.offset = true ∧ i = Hedge.handleAt B i.offset ∧ 1 ≤ i.generation := by
  simp [Hedge.resolvesAt, Bool.and_eq_true, and_assoc]

theorem Hedge.bufGet_eq_some {D : Type} [Inhabited D] (B : List (Hedge.MeshElement D))
    (i : Hedge.Index) (hl : Hedge.liveAt B i.offset = true)
    (hg : i.generation = 0 ∨ i.generation = (Hedge.elemAt B i.offset).generation) :
    Hedge.bufGet B i = some (Hedge.elemAt B i.offset) := by
  obtain ⟨h1, h2, h3⟩ := (Hedge.liveAt_iff B i.offset).1 hl
  unfold Hedge.bufGet Hedge.getElem?
  rw [if_pos (by simp [Hedge.Index.is_valid]; omega)]
  rw [Hedge.elemAt_of_lt h2]
  simp only [h3, if_pos]
  rcases hg with hg | hg
  · rw [hg]; rfl
  · by_cases h0 : i.generation > 0
    · simp [h0, hg.symm]
    · simp [h0]

theorem Hedge.bufGet_resolves {D : Type} [Inhabited D] {B : List (Hedge.MeshElement D)}
    {i : Hedge.Index} (h : Hedge.resolvesAt B i = true) :
    Hedge.bufGet B i = some (Hedge.elemAt B i.offset) := by
  obtain ⟨h1, h2, h3⟩ := (Hedge.resolvesAt_iff B i).1 h
  exact Hedge.bufGet_eq_some B i h1 (Or.inr (by rw [h2]; rfl))

theorem Hedge.handleAt_offset {D : Type} [Inhabited D] (B : List (Hedge.MeshElement D))
    (o : Nat) : (Hedge.handleAt B o).offset = o := rfl

theorem Hedge.handleAt_generation {D : Type} [Inhabited D] (B : List (Hedge.MeshElement D))
    (o : Nat) : (Hedge.handleAt B o).generation = (Hedge.elemAt B o).generation := rfl

/-! ### Transfer of the invariants across `SameCore` -/

theorem Hedge.sameCore_refl (E : List Hedge.Edge) : Hedge.SameCore E E :=
  ⟨rfl, fun _ => ⟨rfl, rfl, rfl, rfl, rfl⟩⟩

theorem Hedge.sameCore_trans {E1 E2 E3 : List Hedge.Edge}
    (h12 : Hedge.SameCore E1 E2) (h23 : Hedge.SameCore E2 E3) : Hedge.SameCore E1 E3 := by
  obtain ⟨hl12, hf12⟩ := h12
  obtain ⟨hl23, hf23⟩ := h23
  refine ⟨hl23.trans hl12, fun o => ?_⟩
  obtain ⟨a1, a2, a3, a4, a5⟩ := hf12 o
  obtain ⟨b1, b2, b3, b4, b5⟩ := hf23 o
  exact ⟨b1.trans a1, b2.trans a2, b3.trans a3, b4.trans a4, b5.trans a5⟩

theorem Hedge.liveAt_sameCore {E E' : List Hedge.Edge} (h : Hedge.SameCore E E') (o : Nat) :
    Hedge.liveAt E' o = Hedge.liveAt E o := by
  obtain ⟨hl, hf⟩ := h
  unfold Hedge.liveAt MeshElement.is_active
  rw [hl, (hf o).1]

theorem Hedge.handleAt_sameCore {E E' : List Hedge.Edge} (h : Hedge.SameCore E E') (o : Nat) :
    Hedge.handleAt E' o = Hedge.handleAt E o := by
  unfold Hedge.handleAt
  rw [(h.2 o).2.1]

theorem Hedge.resolvesAt_sameCore {E E' : List Hedge.Edge} (h : Hedge.SameCore E E')
    (i : Hedge.Index) : Hedge.resolvesAt E' i = Hedge.resolvesAt E i := by
  unfold Hedge.resolvesAt
  rw [Hedge.liveAt_sameCore h, Hedge.handleAt_sameCore h]

theorem Hedge.twinInvolution_sameCore {E E' : List Hedge.Edge} (h : Hedge.SameCore E E')
    (ht : Hedge.TwinInvolution E) : Hedge.TwinInvolution E' := by
  intro o ho
  rw [Hedge.liveAt_sameCore h] at ho
  obtain ⟨a1, a2, a3⟩ := ht o ho
  rw [(h.2 o).2.2.1, Hedge.resolvesAt_sameCore h, Hedge.handleAt_sameCore h,
    (h.2 _).2.2.1]
  exact ⟨a1, a2, a3⟩

theorem Hedge.nextPrev_sameCore {E E' : List Hedge.Edge} (h : Hedge.SameCore E E')
    (ht : Hedge.NextPrevInvolution E) : Hedge.NextPrevInvolution E' := by
  intro o ho
  rw [Hedge.liveAt_sameCore h] at ho
  obtain ⟨a1, a2, a3, a4⟩ := ht o ho
  rw [(h.2 o).2.2.2.1, (h.2 o).2.2.2.2, Hedge.resolvesAt_sameCore h,
    Hedge.resolvesAt_sameCore h, Hedge.handleAt_sameCore h,
    (h.2 _).2.2.2.2, (h.2 _).2.2.2.1]
  exact ⟨a1, a2, a3, a4⟩

theorem Hedge.noSelfNext_sameCore {E E' : List Hedge.Edge} (h : Hedge.SameCore E E')
    (ht : Hedge.NoSelfNext E) : Hedge.NoSelfNext E' := by
  intro o ho
  rw [Hedge.liveAt_sameCore h] at ho
  rw [(h.2 o).2.2.2.1]
  exact ht o ho

theorem Hedge.nextCycle_sameCore {E E' : List Hedge.Edge} (h : Hedge.SameCore E E')
    {root : Hedge.Index} {l : List Nat} (hc : Hedge.NextCycle E root l) :
    Hedge.NextCycle E' root l := by
  obtain ⟨h1, h2, h3, h4, h5⟩ := hc
  refine ⟨h1, h2, fun o ho => ?_, ?_, fun i hi => ?_⟩
  · rw [Hedge.liveAt_sameCore h]; exact h3 o ho
  · rw [Hedge.handleAt_sameCore h]; exact h4
  · rw [(h.2 _).2.2.2.1, Hedge.handleAt_sameCore h]
    exact h5 i hi


/-! ### The face-stamping walk of `defrag_faces` -/

theorem Hedge.length_stampFace (fh : Hedge.Index) (E : List Hedge.Edge) (o : Nat) :
    (Hedge.stampFace fh E o).length = E.length := by
  unfold Hedge.stampFace
  exact List.length_set E o _

theorem Hedge.elemAt_stampFace (fh : Hedge.Index) (E : List Hedge.Edge) (o z : Nat) :
    Hedge.elemAt (Hedge.stampFace fh E o) z =
      if z = o ∧ o < E.length then
        { Hedge.elemAt E o with
          data := { (Hedge.elemAt E o).data with face_index := fh } }
      else Hedge.elemAt E z := by
  unfold Hedge.stampFace
  exact Hedge.elemAt_set E o _ z

theorem Hedge.sameCore_stampFace (fh : Hedge.Index) (E : List Hedge.Edge) (o : Nat) :
    Hedge.SameCore E (Hedge.stampFace fh E o) := by
  refine ⟨Hedge.length_stampFace fh E o, fun z => ?_⟩
  rw [Hedge.elemAt_stampFace]
  by_cases h : z = o ∧ o < E.length
  · rw [if_pos h]
    obtain ⟨h1, h2⟩ := h
    subst h1
    exact ⟨rfl, rfl, rfl, rfl, rfl⟩
  · rw [if_neg h]
    exact ⟨rfl, rfl, rfl, rfl, rfl⟩

theorem Hedge.sameFaceField_refl (E : List Hedge.Edge) : Hedge.SameFaceField E E :=
  fun _ => rfl

theorem Hedge.sameFaceField_trans {E1 E2 E3 : List Hedge.Edge}
    (h12 : Hedge.SameFaceField E1 E2) (h23 : Hedge.SameFaceField E2 E3) :
    Hedge.SameFaceField E1 E3 :=
  fun o => (h23 o).trans (h12 o)

theorem Hedge.faceLoopsOK_sameCore {E E' : List Hedge.Edge} {FB : List Hedge.Face}
    (h : Hedge.SameCore E E') (hf : Hedge.SameFaceField E E')
    (hfl : Hedge.FaceLoopsOK E FB) : Hedge.FaceLoopsOK E' FB := by
  intro o ho
  obtain ⟨l, hc, hface⟩ := hfl o ho
  refine ⟨l, Hedge.nextCycle_sameCore h hc, fun z hz => ?_⟩
  rw [hf z]
  exact hface z hz

theorem Hedge.sameCore_stampAll (fh : Hedge.Index) (l : List Nat) :
    ∀ E : List Hedge.Edge, Hedge.SameCore E (Hedge.stampAll fh E l) := by
  induction l with
  | nil => exact fun E => Hedge.sameCore_refl E
  | cons a t ih =>
    intro E
    exact Hedge.sameCore_trans (Hedge.sameCore_stampFace fh E a) (ih _)

theorem Hedge.length_stampAll (fh : Hedge.Index) (l : List Nat) (E : List Hedge.Edge) :
    (Hedge.stampAll fh E l).length = E.length :=
  (Hedge.sameCore_stampAll fh l E).1

theorem Hedge.face_stampAll (fh : Hedge.Index) (l : List Nat) :
    ∀ (E : List Hedge.Edge) (z : Nat),
    (Hedge.elemAt (Hedge.stampAll fh E l) z).data.face_index =
      if z ∈ l ∧ z < E.length then fh else (Hedge.elemAt E z).data.face_index := by
  induction l with
  | nil => intro E z; simp [Hedge.stampAll]
  | cons a t ih =>
    intro E z
    have hstep : Hedge.stampAll fh E (a :: t) = Hedge.stampAll fh (Hedge.stampFace fh E a) t := rfl
    rw [hstep, ih, Hedge.length_stampFace, Hedge.elemAt_stampFace]
    by_cases h1 : z ∈ t ∧ z < E.length
    · rw [if_pos h1, if_pos ⟨List.mem_cons_of_mem a h1.1, h1.2⟩]
    · rw [if_neg h1]
      by_cases h2 : z = a ∧ a < E.length
      · rw [if_pos h2]
        rw [if_pos ⟨by rw [h2.1]; exact List.mem_cons_self a t, h2.1 ▸ h2.2⟩]
      · rw [if_neg h2, if_neg ?_]
        intro ⟨hm, hz⟩
        rcases List.mem_cons.1 hm with h | h
        · exact h2 ⟨h, h ▸ hz⟩
        · exact h1 ⟨h, hz⟩

theorem Hedge.getD_eq_getElem {α : Type} [Inhabited α] (l : List α) (i : Nat)
    (h : i < l.length) : l.getD i default = l.get ⟨i, h⟩ := by
  rw [List.getD_eq_getElem?_getD, List.getElem?_eq_getElem h]
  rfl

theorem Hedge.nodup_not_mem_take {α : Type} {l : List α} (hnd : l.Nodup) {i : Nat}
    (hi : i < l.length) : l.get ⟨i, hi⟩ ∉ l.take i := by
  intro hmem
  obtain ⟨j, hj, hje⟩ := List.mem_iff_getElem.1 hmem
  have hjlen : j < i := by
    have := hj
    simp [List.length_take] at this
    omega
  have hji : j < l.length := by omega
  rw [List.getElem_take] at hje
  have hgg : l.get ⟨j, hji⟩ = l.get ⟨i, hi⟩ := hje
  have : (⟨j, hji⟩ : Fin l.length) = ⟨i, hi⟩ := (List.Nodup.get_inj_iff hnd).1 hgg
  have : j = i := congrArg Fin.val this
  omega

/-- The `defrag_faces` edge-loop walk, entered at position `i` of a
`next`-cycle whose first `i` edges are already stamped, stamps the rest of
the cycle and stops at the wrap-around: it computes exactly `stampAll`. -/
theorem Hedge.faceRewriteLoop_eq_stampAll (fh : Hedge.Index) (l : List Nat)
    (B : List Hedge.Edge) (root : Hedge.Index)
    (hc : Hedge.NextCycle B root l)
    (hne : ∀ o ∈ l, (Hedge.elemAt B o).data.face_index ≠ fh) :
    ∀ (fuel i : Nat), i < l.length → l.length - i ≤ fuel →
    Hedge.faceRewriteLoop fuel (Hedge.stampAll fh B (l.take i)) fh root
        (Hedge.handleAt B (l.getD i 0)) =
      Hedge.stampAll fh B l := by
  obtain ⟨hne', hnd, hlive, hroot, hnext⟩ := hc
  intro fuel
  induction fuel with
  | zero => intro i hi hfuel; omega
  | succ fuel ih =>
    intro i hi hfuel
    set x := l.getD i 0 with hx
    have hxget : x = l.get ⟨i, hi⟩ := Hedge.getD_eq_getElem l i hi
    have hxmem : x ∈ l := hxget ▸ List.get_mem l i hi
    have hxnotake : x ∉ l.take i := hxget ▸ Hedge.nodup_not_mem_take hnd hi
    have hxlt : x < B.length := ((Hedge.liveAt_iff B x).1 (hlive x hxmem)).2.1
    set B' := Hedge.stampAll fh B (l.take i) with hB'
    have hlenB' : B'.length = B.length := Hedge.length_stampAll fh _ B
    rw [Hedge.faceRewriteLoop]
    have hedge : B'[(Hedge.handleAt B x).offset]?.getD MeshElement.defaultElem =
        Hedge.elemAt B' x := rfl
    rw [hedge]
    have hface : (Hedge.elemAt B' x).data.face_index = (Hedge.elemAt B x).data.face_index := by
      rw [hB', Hedge.face_stampAll, if_neg (fun h => hxnotake h.1)]
    rw [hface, if_neg (hne x hxmem)]
    have htake1 : l.take (i + 1) = l.take i ++ [x] := by
      rw [List.take_succ, List.getElem?_eq_getElem hi, hxget]
      rfl
    have hstamp : Hedge.stampFace fh B' x = Hedge.stampAll fh B (l.take (i + 1)) := by
      rw [htake1]
      unfold Hedge.stampAll
      rw [List.foldl_append]
      rfl
    have hnextval : (Hedge.elemAt B' x).data.next_index =
        (if i + 1 = l.length then root else Hedge.handleAt B (l.getD (i + 1) 0)) := by
      rw [(Hedge.sameCore_stampAll fh (l.take i) B).2 x |>.2.2.2.1]
      exact hnext i hi
    by_cases hlast : i + 1 = l.length
    · rw [hnextval, if_pos hlast, if_pos rfl]
      have h3 : Hedge.stampAll fh B (l.take (i + 1)) = Hedge.stampAll fh B l := by
        rw [hlast, List.take_length]
      rw [← h3, ← hstamp]
      rfl
    · have hi1 : i + 1 < l.length := by omega
      have hne0 : Hedge.handleAt B (l.getD (i + 1) 0) ≠ root := by
        rw [hroot]
        intro hcon
        have hoff : l.getD (i + 1) 0 = l.getD 0 0 := congrArg Hedge.Index.offset hcon
        have h0 : (0 : Nat) < l.length := by omega
        have e1 : l.getD (i + 1) 0 = l.get ⟨i + 1, hi1⟩ := Hedge.getD_eq_getElem l (i + 1) hi1
        have e2 : l.getD 0 0 = l.get ⟨0, h0⟩ := Hedge.getD_eq_getElem l 0 h0
        rw [e1, e2] at hoff
        have : (⟨i + 1, hi1⟩ : Fin l.length) = ⟨0, h0⟩ := (List.Nodup.get_inj_iff hnd).1 hoff
        have : i + 1 = 0 := congrArg Fin.val this
        omega
      rw [hnextval, if_neg hlast, if_neg hne0]
      have hih := ih (i + 1) hi1 (by omega)
      have hbuf : Hedge.stampFace fh B' x = Hedge.stampAll fh B (l.take (i + 1)) := hstamp
      rw [← hbuf] at hih
      convert hih using 2


theorem Hedge.getDzero_mem {l : List Nat} (h : l ≠ []) : l.getD 0 0 ∈ l := by
  have hpos : 0 < l.length := List.length_pos.2 h
  have e : l.getD 0 0 = l.get ⟨0, hpos⟩ := Hedge.getD_eq_getElem l 0 hpos
  rw [e]
  exact List.get_mem l 0 hpos

theorem Hedge.nextCycle_length_le {B : List Hedge.Edge} {root : Hedge.Index}
    {l : List Nat} (hc : Hedge.NextCycle B root l) : l.length ≤ B.length := by
  obtain ⟨hne', hnd, hlive, _, _⟩ := hc
  have hBpos : 1 ≤ B.length := by
    have := (Hedge.liveAt_iff B _).1 (hlive _ (Hedge.getDzero_mem hne'))
    omega
  have hsub : l ⊆ List.range' 1 (B.length - 1) := by
    intro o ho
    have := (Hedge.liveAt_iff B o).1 (hlive o ho)
    rw [List.mem_range'_1]
    omega
  have := nodup_subset_length_le hnd hsub
  rw [List.length_range'] at this
  omega

/-- Over the filtered, enumerated face list, the `defrag_faces` fold
stamps each face's loop with the face's post-sort handle, leaves the
`face_index` of every edge outside the listed loops unchanged, and never
touches length, status, generation or the `twin`/`next`/`prev` fields. -/
theorem Hedge.defragFacesFold (L : Nat → List Nat) :
    ∀ (ps : List (Nat × Hedge.Face)) (B : List Hedge.Edge),
    ps.Pairwise (fun p q => p.1 ≠ q.1) →
    (∀ p ∈ ps, Hedge.NextCycle B (p.2.data.edge_index) (L p.1)) →
    (∀ p ∈ ps, ∀ o1 ∈ L p.1, ∀ o2 ∈ L p.1,
        (Hedge.elemAt B o1).data.face_index = (Hedge.elemAt B o2).data.face_index) →
    (∀ p ∈ ps, ∀ q ∈ ps, p.1 ≠ q.1 → ∀ o ∈ L p.1, o ∉ L q.1) →
    Hedge.SameCore B (ps.foldl Hedge.faceFoldStep B) ∧
    (∀ o, (∀ p ∈ ps, o ∉ L p.1) →
       (Hedge.elemAt (ps.foldl Hedge.faceFoldStep B) o).data.face_index =
         (Hedge.elemAt B o).data.face_index) ∧
    (∀ p ∈ ps, ∀ o ∈ L p.1,
       (Hedge.elemAt (ps.foldl Hedge.faceFoldStep B) o).data.face_index =
         (⟨p.1, p.2.generation⟩ : Hedge.Index)) := by
  intro ps
  induction ps with
  | nil =>
    intro B _ _ _ _
    exact ⟨Hedge.sameCore_refl B, fun o _ => rfl, fun p hp => absurd hp (List.not_mem_nil p)⟩
  | cons p ps' ih =>
    intro B hpw hcyc huni hdisj
    have hpB : p ∈ p :: ps' := List.mem_cons_self p ps'
    have hc := hcyc p hpB
    obtain ⟨hne', hnd, hlive, hroot, hnext⟩ := hc
    set head := (L p.1).getD 0 0 with hhead
    have hheadmem : head ∈ L p.1 := Hedge.getDzero_mem hne'
    have hheadlive := hlive head hheadmem
    have hsome : Hedge.bufGet B (p.2.data.edge_index) = some (Hedge.elemAt B head) := by
      rw [hroot]
      exact Hedge.bufGet_eq_some B _ hheadlive (Or.inr rfl)
    have hfold : (p :: ps').foldl Hedge.faceFoldStep B =
        ps'.foldl Hedge.faceFoldStep (Hedge.faceFoldStep B p) := rfl
    have hstep : Hedge.faceFoldStep B p =
        (if (⟨p.1, p.2.generation⟩ : Hedge.Index) ≠ (Hedge.elemAt B head).data.face_index then
          Hedge.faceRewriteLoop (B.length + 1) B ⟨p.1, p.2.generation⟩
            (p.2.data.edge_index) (p.2.data.edge_index)
        else B) := by
      unfold Hedge.faceFoldStep
      rw [hsome]
    have hpw' : ps'.Pairwise (fun p q => p.1 ≠ q.1) := (List.pairwise_cons.1 hpw).2
    have hpne : ∀ q ∈ ps', p.1 ≠ q.1 := (List.pairwise_cons.1 hpw).1
    by_cases hguard : (⟨p.1, p.2.generation⟩ : Hedge.Index) = (Hedge.elemAt B head).data.face_index
    · -- the face's loop already carries the post-sort handle: no walk
      have hB1 : Hedge.faceFoldStep B p = B := by
        rw [hstep, if_neg (by simpa using hguard)]
      rw [hfold, hB1]
      obtain ⟨ihc, ihf, ihs⟩ := ih B hpw'
        (fun q hq => hcyc q (List.mem_cons_of_mem p hq))
        (fun q hq => huni q (List.mem_cons_of_mem p hq))
        (fun q hq r hr => hdisj q (List.mem_cons_of_mem p hq) r (List.mem_cons_of_mem p hr))
      refine ⟨ihc, fun o hno => ihf o (fun q hq => hno q (List.mem_cons_of_mem p hq)), ?_⟩
      intro q hq o ho
      rcases List.mem_cons.1 hq with hq | hq
      · subst hq
        have hfr : (Hedge.elemAt (ps'.foldl Hedge.faceFoldStep B) o).data.face_index =
            (Hedge.elemAt B o).data.face_index := by
          refine ihf o (fun r hr => hdisj q hpB r (List.mem_cons_of_mem q hr) (hpne r hr) o ho)
        rw [hfr, huni q hpB o ho head hheadmem, ← hguard]
      · exact ihs q hq o ho
    · -- the guard fires: the walk stamps the whole loop
      set fh : Hedge.Index := ⟨p.1, p.2.generation⟩ with hfh
      have hneq : ∀ o ∈ L p.1, (Hedge.elemAt B o).data.face_index ≠ fh := by
        intro o ho hcon
        exact hguard (by rw [huni p hpB head hheadmem o ho, hcon])
      have hlen := Hedge.nextCycle_length_le ⟨hne', hnd, hlive, hroot, hnext⟩
      have hlenpos : 0 < (L p.1).length := List.length_pos.2 hne'
      have hwalk := Hedge.faceRewriteLoop_eq_stampAll fh (L p.1) B (p.2.data.edge_index)
        ⟨hne', hnd, hlive, hroot, hnext⟩ hneq (B.length + 1) 0 hlenpos (by omega)
      have hB1 : Hedge.faceFoldStep B p = Hedge.stampAll fh B (L p.1) := by
        rw [hstep, if_pos (by simpa using hguard)]
        nth_rewrite 2 [hroot]
        exact hwalk
      rw [hfold, hB1]
      set B1 := Hedge.stampAll fh B (L p.1) with hB1d
      have hSC1 : Hedge.SameCore B B1 := Hedge.sameCore_stampAll fh (L p.1) B
      have hface1 : ∀ o, (Hedge.elemAt B1 o).data.face_index =
          if o ∈ L p.1 ∧ o < B.length then fh else (Hedge.elemAt B o).data.face_index :=
        fun o => Hedge.face_stampAll fh (L p.1) B o
      obtain ⟨ihc, ihf, ihs⟩ := ih B1 hpw'
        (fun q hq => Hedge.nextCycle_sameCore hSC1 (hcyc q (List.mem_cons_of_mem p hq)))
        (fun q hq o1 ho1 o2 ho2 => by
          have h1 : o1 ∉ L p.1 := hdisj q (List.mem_cons_of_mem p hq) p hpB (hpne q hq).symm o1 ho1
          have h2 : o2 ∉ L p.1 := hdisj q (List.mem_cons_of_mem p hq) p hpB (hpne q hq).symm o2 ho2
          rw [hface1 o1, hface1 o2, if_neg (fun h => h1 h.1), if_neg (fun h => h2 h.1)]
          exact huni q (List.mem_cons_of_mem p hq) o1 ho1 o2 ho2)
        (fun q hq r hr => hdisj q (List.mem_cons_of_mem p hq) r (List.mem_cons_of_mem p hr))
      refine ⟨Hedge.sameCore_trans hSC1 ihc, ?_, ?_⟩
      · intro o hno
        have h1 := ihf o (fun q hq => hno q (List.mem_cons_of_mem p hq))
        rw [h1, hface1 o, if_neg (fun h => hno p hpB h.1)]
      · intro q hq o ho
        rcases List.mem_cons.1 hq with hq | hq
        · subst hq
          have hfr := ihf o (fun r hr => hdisj q hpB r (List.mem_cons_of_mem q hr) (hpne r hr) o ho)
          rw [hfr, hface1 o]
          have holt : o < B.length := ((Hedge.liveAt_iff B o).1 (hlive o ho)).2.1
          rw [if_pos ⟨ho, holt⟩]
        · exact ihs q hq o ho


/-! ### The stable partition of `ElementBuffer::sort` seen by the defrag folds -/

theorem Hedge.elemAt_eq_get {D : Type} [Inhabited D] {l : List (Hedge.MeshElement D)}
    {o : Nat} (h : o < l.length) : Hedge.elemAt l o = l.get ⟨o, h⟩ := by
  have h1 := Hedge.elemAt_of_lt h
  rw [List.getElem?_eq_getElem h] at h1
  exact (Option.some.inj h1).symm

theorem Hedge.enumFrom_filter_false {α : Type} (q : α → Bool) :
    ∀ (l : List α) (k : Nat), (∀ e ∈ l, q e = false) →
    (List.enumFrom k l).filter (fun p => q p.2) = [] := by
  intro l
  induction l with
  | nil => intro k _; rfl
  | cons a t ih =>
    intro k hall
    rw [List.enumFrom_cons, List.filter_cons_of_neg (by simp [hall a (List.mem_cons_self a t)])]
    exact ih (k + 1) (fun e he => hall e (List.mem_cons_of_mem a he))

theorem Hedge.enumFrom_filter_partition {α : Type} (q : α → Bool) :
    ∀ (acts : List α) (inacts : List α) (k : Nat),
    (∀ e ∈ acts, q e = true) → (∀ e ∈ inacts, q e = false) →
    (List.enumFrom k (acts ++ inacts)).filter (fun p => q p.2) =
      (List.range' k acts.length).zip acts := by
  intro acts
  induction acts with
  | nil =>
    intro inacts k _ hin
    simp only [List.nil_append, List.length_nil, List.range'_zero, List.zip_nil_left]
    exact Hedge.enumFrom_filter_false q inacts k hin
  | cons a t ih =>
    intro inacts k hacts hin
    rw [List.cons_append, List.enumFrom_cons,
      List.filter_cons_of_pos (by simp [hacts a (List.mem_cons_self a t)])]
    have hr : List.range' k (a :: t).length = k :: List.range' (k + 1) t.length := by
      rw [List.length_cons, List.range'_succ]
    rw [hr, List.zip_cons_cons]
    rw [ih inacts (k + 1) (fun e he => hacts e (List.mem_cons_of_mem a he)) hin]

theorem Hedge.countP_congr_pointwise {α : Type} (q : α → Bool) :
    ∀ (l1 l2 : List α), l1.length = l2.length →
    (∀ (i : Nat) (h1 : i < l1.length) (h2 : i < l2.length), q (l1.get ⟨i, h1⟩) = q (l2.get ⟨i, h2⟩)) →
    l1.countP q = l2.countP q := by
  intro l1
  induction l1 with
  | nil =>
    intro l2 hlen _
    have : l2 = [] := List.eq_nil_of_length_eq_zero hlen.symm
    rw [this]
  | cons a t ih =>
    intro l2 hlen hq
    match l2 with
    | [] => exact absurd hlen (by simp)
    | b :: t2 =>
      rw [List.countP_cons, List.countP_cons]
      have hlen' : t.length = t2.length := by
        simp only [List.length_cons] at hlen
        omega
      have hhead := hq 0 (by simp) (by simp)
      simp only [List.get] at hhead
      rw [ih t2 hlen' (fun i hi1 hi2 => hq (i + 1) (by simpa using hi1) (by simpa using hi2)),
        hhead]


theorem Hedge.isActive_sameCore {E E' : List Hedge.Edge} (h : Hedge.SameCore E E') (o : Nat) :
    (Hedge.elemAt E' o).is_active = (Hedge.elemAt E o).is_active := by
  unfold Hedge.MeshElement.is_active
  rw [(h.2 o).1]

theorem Hedge.elemAt_cons_succ {D : Type} [Inhabited D] (s : Hedge.MeshElement D)
    (l : List (Hedge.MeshElement D)) (o : Nat) :
    Hedge.elemAt (s :: l) (o + 1) = Hedge.elemAt l o := by
  unfold Hedge.elemAt
  rw [List.getElem?_cons_succ]

theorem Hedge.inactiveCount_congr {D : Type} [Inhabited D]
    {l1 l2 : List (Hedge.MeshElement D)} (hlen : l1.length = l2.length)
    (hst : ∀ o, (Hedge.elemAt l2 o).is_active = (Hedge.elemAt l1 o).is_active) :
    ((l2.drop 1).filter (fun e => !(e.is_active))).length =
      ((l1.drop 1).filter (fun e => !(e.is_active))).length := by
  rw [← List.countP_eq_length_filter, ← List.countP_eq_length_filter]
  refine Hedge.countP_congr_pointwise _ (l2.drop 1) (l1.drop 1) (by simp [hlen]) ?_
  intro i h1 h2
  have e1 : (l2.drop 1).get ⟨i, h1⟩ = Hedge.elemAt l2 (1 + i) := by
    rw [Hedge.elemAt_eq_get (by simp at h1 ⊢; omega)]
    exact List.getElem_drop l2
  have e2 : (l1.drop 1).get ⟨i, h2⟩ = Hedge.elemAt l1 (1 + i) := by
    rw [Hedge.elemAt_eq_get (by simp at h2 ⊢; omega)]
    exact List.getElem_drop l1
  rw [e1, e2, hst (1 + i)]

/-- `Kernel::defrag_faces` restamps every live face's loop with the face's
post-compaction handle: the `twin`/`next`/`prev` structure of the edge
buffer is untouched, the edge free list is untouched, both buffers stay
free-list consistent, and face-loop closure holds between the rewritten
edge buffer and the compacted face buffer. -/
theorem Hedge.defrag_faces_topo (k : Hedge.Kernel)
    (hbe : Hedge.BufferConsistent k.edge_buffer)
    (hbf : Hedge.BufferConsistent k.face_buffer)
    (hfl : Hedge.FaceLoopsOK k.edge_buffer.buffer k.face_buffer.buffer) :
    Hedge.SameCore k.edge_buffer.buffer k.defrag_faces.edge_buffer.buffer ∧
    k.defrag_faces.edge_buffer.free_cells = k.edge_buffer.free_cells ∧
    Hedge.BufferConsistent k.defrag_faces.edge_buffer ∧
    Hedge.BufferConsistent k.defrag_faces.face_buffer ∧
    Hedge.FaceLoopsOK k.defrag_faces.edge_buffer.buffer k.defrag_faces.face_buffer.buffer ∧
    k.defrag_faces.vertex_buffer = k.vertex_buffer ∧
    k.defrag_faces.point_buffer = k.point_buffer := by
  by_cases hgate : k.face_buffer.has_inactive_cells = true
  case neg =>
    have hkf : k.defrag_faces = k := by
      unfold Hedge.Kernel.defrag_faces
      rw [if_neg hgate]
    rw [hkf]
    exact ⟨Hedge.sameCore_refl _, rfl, hbe, hbf, hfl, rfl, rfl⟩
  case pos =>
  obtain ⟨hfb_ne, hfb_sent, hfb_free⟩ := hbf
  obtain ⟨s, rest, hrest⟩ : ∃ s rest, k.face_buffer.buffer = s :: rest := by
    cases hC : k.face_buffer.buffer with
    | nil => exact absurd hC hfb_ne
    | cons a b => exact ⟨a, b, rfl⟩
  have hsort : (k.face_buffer.sort).buffer =
      s :: (rest.filter (fun e => e.is_active) ++ rest.filter (fun e => ¬ e.is_active)) := by
    unfold Hedge.ElementBuffer.sort
    rw [hrest]
  have hin_eq : rest.filter (fun e => ¬ e.is_active) = rest.filter (fun e => !(e.is_active)) :=
    List.filter_congr (fun e _ => by cases h : e.is_active <;> simp [h])
  have hsort' : (k.face_buffer.sort).buffer =
      s :: (rest.filter (fun e => e.is_active) ++ rest.filter (fun e => !(e.is_active))) := by
    rw [hsort, hin_eq]
  have hsent : s.is_active = false := by
    have h0 : k.face_buffer.buffer[0]? = some s := by
      rw [hrest, List.getElem?_cons_zero]
    have := hfb_sent s h0
    unfold Hedge.MeshElement.is_active
    rw [this]
    rfl
  have hacts_mem : ∀ e ∈ rest.filter (fun e => e.is_active), e.is_active = true := by
    intro e he
    exact (List.mem_filter.1 he).2
  have hin_mem : ∀ e ∈ rest.filter (fun e => !(e.is_active)), e.is_active = false := by
    intro e he
    have := (List.mem_filter.1 he).2
    simpa using this
  have hfree_len : k.face_buffer.free_cells.length =
      (rest.filter (fun e => !(e.is_active))).length := by
    rw [hfb_free, hrest]
    rfl
  have henum : ((k.face_buffer.sort).buffer.enum.filter (fun p => p.2.is_active)) =
      (List.range' 1 (rest.filter (fun e => e.is_active)).length).zip
        (rest.filter (fun e => e.is_active)) := by
    rw [hsort', List.enum_cons, List.filter_cons_of_neg (by simp [hsent])]
    exact Hedge.enumFrom_filter_partition (fun (e : Hedge.Face) => e.is_active) _ _ 1 hacts_mem hin_mem
  obtain ⟨iss, hacts_eq, his_lt⟩ :=
    List.sublist_eq_map_get (List.filter_sublist (p := fun e => e.is_active) rest)
  set acts := rest.filter (fun e => e.is_active) with hacts_def
  have his_len : iss.length = acts.length := by
    rw [hacts_eq, List.length_map]
  choose Lf hLf using hfl
  set js := iss.map Fin.val with hjs_def
  have hjs_len : js.length = acts.length := by rw [hjs_def, List.length_map, his_len]
  set L : Nat → List Nat := fun n =>
    if hn : Hedge.liveAt k.face_buffer.buffer (js.getD (n - 1) 0 + 1) = true
    then Lf (js.getD (n - 1) 0 + 1) hn else [] with hLdef
  set ps := (List.range' 1 acts.length).zip acts with hps_def
  have hps_len : ps.length = acts.length := by
    rw [hps_def, List.length_zip, List.length_range', Nat.min_self]
  have hjs_get : ∀ t (ht : t < acts.length),
      js.getD t 0 = (iss.get ⟨t, by omega⟩).val := by
    intro t ht
    have h1 : t < iss.length := by omega
    have h2 : js[t]? = some ((iss.get ⟨t, h1⟩).val) := by
      rw [hjs_def, List.getElem?_map, List.getElem?_eq_getElem h1]
      rfl
    rw [List.getD_eq_getElem?_getD, h2]
    rfl
  have hacts_get : ∀ t (ht : t < acts.length),
      acts.get ⟨t, ht⟩ = rest.get (iss.get ⟨t, by omega⟩) := by
    intro t ht
    have h1 : t < iss.length := by omega
    have h2 : acts[t]? = some (rest.get (iss.get ⟨t, h1⟩)) := by
      conv_lhs => rw [hacts_eq]
      rw [List.getElem?_map, List.getElem?_eq_getElem h1]
      rfl
    have h3 : acts[t]? = some (acts.get ⟨t, ht⟩) := List.getElem?_eq_getElem ht
    rw [h3] at h2
    exact Option.some.inj h2
  have hold : ∀ t (ht : t < acts.length),
      Hedge.elemAt k.face_buffer.buffer (js.getD t 0 + 1) = acts.get ⟨t, ht⟩ ∧
      Hedge.liveAt k.face_buffer.buffer (js.getD t 0 + 1) = true := by
    intro t ht
    have hjv := hjs_get t ht
    have hlt : (iss.get ⟨t, by omega⟩).val < rest.length := (iss.get ⟨t, by omega⟩).isLt
    have helem : Hedge.elemAt k.face_buffer.buffer (js.getD t 0 + 1) = acts.get ⟨t, ht⟩ := by
      rw [hjv, hrest, Hedge.elemAt_cons_succ, Hedge.elemAt_eq_get hlt, hacts_get t ht]
    refine ⟨helem, ?_⟩
    rw [Hedge.liveAt_iff]
    refine ⟨by omega, ?_, ?_⟩
    · rw [hrest, hjv]
      simp only [List.length_cons]
      omega
    · rw [helem]
      exact hacts_mem _ (List.get_mem acts t ht)
  have hps_getE : ∀ t (ht : t < acts.length),
      ps[t]? = some (1 + t, acts.get ⟨t, ht⟩) := by
    intro t ht
    have hzt : t < ((List.range' 1 acts.length).zip acts).length := by
      rw [List.length_zip, List.length_range', Nat.min_self]
      omega
    rw [hps_def, List.getElem?_eq_getElem hzt, List.getElem_zip, List.getElem_range'_1]
    rfl
  have hmem_char : ∀ p ∈ ps, ∃ t, ∃ ht : t < acts.length,
      p = (1 + t, acts.get ⟨t, ht⟩) := by
    intro p hp
    obtain ⟨t, hget⟩ := List.mem_iff_getElem?.1 hp
    have ht : t < acts.length := by
      obtain ⟨hlt, _⟩ := List.getElem?_eq_some.1 hget
      omega
    refine ⟨t, ht, ?_⟩
    rw [hps_getE t ht] at hget
    exact (Option.some.inj hget).symm
  have hL_spec : ∀ t (ht : t < acts.length),
      Hedge.IsFaceLoopOf k.edge_buffer.buffer
        (Hedge.handleAt k.face_buffer.buffer (js.getD t 0 + 1))
        ((acts.get ⟨t, ht⟩).data.edge_index) (L (1 + t)) := by
    intro t ht
    obtain ⟨helem, hlive⟩ := hold t ht
    have harith : 1 + t - 1 = t := by omega
    have hLval : L (1 + t) = Lf (js.getD t 0 + 1) hlive := by
      rw [hLdef]
      dsimp only
      rw [harith, dif_pos hlive]
    rw [hLval, ← helem]
    exact hLf (js.getD t 0 + 1) hlive
  have hpw : ps.Pairwise (fun p q => p.1 ≠ q.1) := by
    have hmap : ps.map Prod.fst = List.range' 1 acts.length := by
      rw [hps_def]
      exact List.map_fst_zip _ _ (by rw [List.length_range'])
    have hrg : (List.range' 1 acts.length).Pairwise (· < ·) := List.pairwise_lt_range' 1 _
    have hnp : (ps.map Prod.fst).Pairwise (· ≠ ·) := by
      rw [hmap]
      exact hrg.imp (fun h => Nat.ne_of_lt h)
    rw [List.pairwise_map] at hnp
    exact hnp
  have hcyc : ∀ p ∈ ps, Hedge.NextCycle k.edge_buffer.buffer (p.2.data.edge_index) (L p.1) := by
    intro p hp
    obtain ⟨t, ht, hpe⟩ := hmem_char p hp
    rw [hpe]
    exact (hL_spec t ht).1
  have huni : ∀ p ∈ ps, ∀ o1 ∈ L p.1, ∀ o2 ∈ L p.1,
      (Hedge.elemAt k.edge_buffer.buffer o1).data.face_index =
        (Hedge.elemAt k.edge_buffer.buffer o2).data.face_index := by
    intro p hp o1 ho1 o2 ho2
    obtain ⟨t, ht, hpe⟩ := hmem_char p hp
    rw [hpe] at ho1 ho2
    rw [(hL_spec t ht).2 o1 ho1, (hL_spec t ht).2 o2 ho2]
  have hdisj : ∀ p ∈ ps, ∀ q ∈ ps, p.1 ≠ q.1 → ∀ o ∈ L p.1, o ∉ L q.1 := by
    intro p hp q hq hne o ho hoq
    obtain ⟨t, ht, hpe⟩ := hmem_char p hp
    obtain ⟨u, hu, hqe⟩ := hmem_char q hq
    have hp1 : p.1 = 1 + t := by rw [hpe]
    have hq1 : q.1 = 1 + u := by rw [hqe]
    have htu : t ≠ u := by
      intro h
      apply hne
      rw [hp1, hq1, h]
    rw [hpe] at ho
    rw [hqe] at hoq
    have h1 := (hL_spec t ht).2 o ho
    have h2 := (hL_spec u hu).2 o hoq
    have hoff : js.getD t 0 + 1 = js.getD u 0 + 1 :=
      congrArg Hedge.Index.offset (h1.symm.trans h2)
    have hvals : (iss.get ⟨t, by omega⟩).val = (iss.get ⟨u, by omega⟩).val := by
      rw [hjs_get t ht, hjs_get u hu] at hoff
      omega
    have hlt' : ∀ a b (ha : a < iss.length) (hb : b < iss.length), a < b →
        iss.get ⟨a, ha⟩ < iss.get ⟨b, hb⟩ := by
      intro a b ha hb hab
      exact List.pairwise_iff_get.1 his_lt ⟨a, ha⟩ ⟨b, hb⟩ hab
    rcases Nat.lt_or_ge t u with h | h
    · have hc := hlt' t u (by omega) (by omega) h
      have : (iss.get ⟨t, by omega⟩).val < (iss.get ⟨u, by omega⟩).val := hc
      omega
    · have hut : u < t := by omega
      have hc := hlt' u t (by omega) (by omega) hut
      have : (iss.get ⟨u, by omega⟩).val < (iss.get ⟨t, by omega⟩).val := hc
      omega
  obtain ⟨hSC, hframe, hstamp⟩ :=
    Hedge.defragFacesFold L ps k.edge_buffer.buffer hpw hcyc huni hdisj
  have hkf : k.defrag_faces = { k with
      face_buffer := (k.face_buffer.sort).truncate_inactive,
      edge_buffer := { k.edge_buffer with
        buffer := ((k.face_buffer.sort).buffer.enum.filter
            (fun p => p.2.is_active)).foldl Hedge.faceFoldStep k.edge_buffer.buffer } } := by
    unfold Hedge.Kernel.defrag_faces
    rw [if_pos hgate]
    rfl
  have hEfinal : k.defrag_faces.edge_buffer.buffer =
      ps.foldl Hedge.faceFoldStep k.edge_buffer.buffer := by
    rw [hkf]
    dsimp only
    rw [henum]
  have hFB' : k.defrag_faces.face_buffer = ⟨[], s :: acts⟩ := by
    rw [hkf]
    dsimp only
    unfold Hedge.ElementBuffer.truncate_inactive
    have hfreeS : (k.face_buffer.sort).free_cells = k.face_buffer.free_cells := rfl
    have hlen : (k.face_buffer.sort).buffer.length =
        acts.length + (rest.filter (fun e => !(e.is_active))).length + 1 := by
      rw [hsort']
      simp [List.length_append]
    have harith : (k.face_buffer.sort).buffer.length -
        (k.face_buffer.sort).free_cells.length = acts.length + 1 := by
      rw [hlen, hfreeS, hfree_len]
      omega
    rw [harith, hsort']
    have htk : (s :: (acts ++ rest.filter (fun e => !(e.is_active)))).take (acts.length + 1) =
        s :: acts := by
      rw [List.take_succ_cons]
      congr 1
      exact List.take_left acts _
    rw [htk]
  have hSC' : Hedge.SameCore k.edge_buffer.buffer k.defrag_faces.edge_buffer.buffer := by
    rw [hEfinal]; exact hSC
  have hfree' : k.defrag_faces.edge_buffer.free_cells = k.edge_buffer.free_cells := by
    rw [hkf]
  have hbe' : Hedge.BufferConsistent k.defrag_faces.edge_buffer := by
    obtain ⟨he1, he2, he3⟩ := hbe
    refine ⟨?_, ?_, ?_⟩
    · intro hcon
      have hl := hSC'.1
      rw [hcon] at hl
      exact he1 (List.eq_nil_of_length_eq_zero (by simpa using hl.symm))
    · intro e he
      have h0 : 0 < k.edge_buffer.buffer.length := List.length_pos.2 he1
      have h0' : 0 < k.defrag_faces.edge_buffer.buffer.length := by
        rw [hSC'.1]; exact h0
      have he' : Hedge.elemAt k.defrag_faces.edge_buffer.buffer 0 = e := by
        have hx := Hedge.elemAt_of_lt h0'
        rw [he] at hx
        exact (Option.some.inj hx).symm
      have hs := (hSC'.2 0).1
      rw [he'] at hs
      rw [hs]
      exact he2 _ (Hedge.elemAt_of_lt h0)
    · rw [hfree', he3]
      exact (Hedge.inactiveCount_congr hSC'.1.symm (fun o => Hedge.isActive_sameCore hSC' o)).symm
  have hbf' : Hedge.BufferConsistent k.defrag_faces.face_buffer := by
    rw [hFB']
    refine ⟨by simp, ?_, ?_⟩
    · intro e he
      have hse : e = s := by
        rw [show ((⟨[], s :: acts⟩ : Hedge.ElementBuffer Hedge.FaceData)).buffer = s :: acts
          from rfl, List.getElem?_cons_zero] at he
        exact (Option.some.inj he).symm
      rw [hse]
      exact hfb_sent s (by rw [hrest, List.getElem?_cons_zero])
    · show (0 : Nat) = _
      have hnil : ((s :: acts).drop 1).filter (fun e => !(e.is_active)) = [] := by
        rw [List.filter_eq_nil]
        intro a ha
        have := hacts_mem a (by simpa using ha)
        simp [this]
      show (0 : Nat) = (((s :: acts).drop 1).filter (fun e => !(e.is_active))).length
      rw [hnil]
      rfl
  have hflB : Hedge.FaceLoopsOK k.defrag_faces.edge_buffer.buffer
      k.defrag_faces.face_buffer.buffer := by
    intro o ho
    rw [hFB'] at ho ⊢
    obtain ⟨ho1, ho2, ho3⟩ := (Hedge.liveAt_iff _ o).1 ho
    simp only [List.length_cons] at ho2
    obtain ⟨o', rfl⟩ : ∃ o', o = o' + 1 := ⟨o - 1, by omega⟩
    have ht' : o' < acts.length := by omega
    have helemo : Hedge.elemAt (s :: acts) (o' + 1) = acts.get ⟨o', ht'⟩ := by
      rw [Hedge.elemAt_cons_succ, Hedge.elemAt_eq_get ht']
    have hpmem : (1 + o', acts.get ⟨o', ht'⟩) ∈ ps :=
      List.mem_iff_getElem?.2 ⟨o', hps_getE o' ht'⟩
    refine ⟨L (o' + 1), ⟨?_, ?_⟩⟩
    · have hcy := hcyc _ hpmem
      have ho1t : 1 + o' = o' + 1 := by omega
      rw [ho1t] at hcy
      rw [helemo]
      exact Hedge.nextCycle_sameCore hSC' hcy
    · intro z hz
      have ho1t : 1 + o' = o' + 1 := by omega
      have hz' : z ∈ L (1 + o') := by rw [ho1t]; exact hz
      have hst := hstamp _ hpmem z hz'
      rw [hEfinal, hst]
      show (⟨1 + o', (acts.get ⟨o', ht'⟩).generation⟩ : Hedge.Index) = _
      unfold Hedge.handleAt
      rw [helemo, ho1t]
  exact ⟨hSC', hfree', hbe', hbf', hflB, by rw [hkf], by rw [hkf]⟩


theorem Hedge.bufGet_eq_elemAt {D : Type} [Inhabited D] {B : List (Hedge.MeshElement D)}
    {i : Hedge.Index} {e : Hedge.MeshElement D} (h : Hedge.bufGet B i = some e) :
    e = Hedge.elemAt B i.offset ∧ i.offset < B.length := by
  unfold Hedge.bufGet at h
  by_cases hv : i.is_valid
  · rw [if_pos hv] at h
    unfold Hedge.getElem? at h
    cases hB : B[i.offset]? with
    | none => rw [hB] at h; cases h
    | some e0 =>
      rw [hB] at h
      dsimp only at h
      have hlt : i.offset < B.length := by
        by_contra hc
        rw [List.getElem?_eq_none (by omega)] at hB
        cases hB
      have he0 : e0 = Hedge.elemAt B i.offset := by
        have := Hedge.elemAt_of_lt hlt
        rw [hB] at this
        exact Option.some.inj this
      refine ⟨?_, hlt⟩
      by_cases ha : e0.is_active
      · rw [if_pos ha] at h
        by_cases hg : i.generation > 0
        · rw [if_pos hg] at h
          by_cases hge : e0.generation = i.generation
          · rw [if_pos hge] at h
            rw [← he0]
            exact (Option.some.inj h).symm
          · rw [if_neg hge] at h; cases h
        · rw [if_neg hg] at h
          rw [← he0]
          exact (Option.some.inj h).symm
      · rw [if_neg ha] at h; cases h
  · rw [if_neg hv] at h; cases h

theorem Hedge.vertFoldStep_frame (B : List Hedge.Edge) (p : Nat × Hedge.Vertex) :
    Hedge.SameCore B (Hedge.vertFoldStep B p) ∧
    Hedge.SameFaceField B (Hedge.vertFoldStep B p) := by
  unfold Hedge.vertFoldStep
  cases hb : Hedge.bufGet B p.2.data.edge_index with
  | none => exact ⟨Hedge.sameCore_refl B, Hedge.sameFaceField_refl B⟩
  | some e =>
    dsimp only
    obtain ⟨he, hlt⟩ := Hedge.bufGet_eq_elemAt hb
    by_cases hg : (⟨p.1, p.2.generation⟩ : Hedge.Index) ≠ e.data.vertex_index
    · rw [if_pos hg]
      constructor
      · refine ⟨List.length_set B _ _, fun z => ?_⟩
        rw [Hedge.elemAt_set]
        by_cases hz : z = p.2.data.edge_index.offset ∧ p.2.data.edge_index.offset < B.length
        · rw [if_pos hz, he]
          obtain ⟨hz1, _⟩ := hz
          subst hz1
          exact ⟨rfl, rfl, rfl, rfl, rfl⟩
        · rw [if_neg hz]
          exact ⟨rfl, rfl, rfl, rfl, rfl⟩
      · intro z
        rw [Hedge.elemAt_set]
        by_cases hz : z = p.2.data.edge_index.offset ∧ p.2.data.edge_index.offset < B.length
        · rw [if_pos hz, he]
          obtain ⟨hz1, _⟩ := hz
          subst hz1
          rfl
        · rw [if_neg hz]
    · rw [if_neg hg]
      exact ⟨Hedge.sameCore_refl B, Hedge.sameFaceField_refl B⟩

theorem Hedge.vertFold_frame (ps : List (Nat × Hedge.Vertex)) :
    ∀ B : List Hedge.Edge,
    Hedge.SameCore B (ps.foldl Hedge.vertFoldStep B) ∧
    Hedge.SameFaceField B (ps.foldl Hedge.vertFoldStep B) := by
  induction ps with
  | nil => exact fun B => ⟨Hedge.sameCore_refl B, Hedge.sameFaceField_refl B⟩
  | cons p t ih =>
    intro B
    have h1 := Hedge.vertFoldStep_frame B p
    have h2 := ih (Hedge.vertFoldStep B p)
    exact ⟨Hedge.sameCore_trans h1.1 h2.1, Hedge.sameFaceField_trans h1.2 h2.2⟩

/-- `Kernel::defrag_verts` rewrites only `vertex_index` fields of edges
(and the vertex buffer itself): the edge core and `face_index` fields, the
edge free list, and the face and point buffers are untouched. -/
theorem Hedge.defrag_verts_topo (k : Hedge.Kernel) :
    Hedge.SameCore k.edge_buffer.buffer k.defrag_verts.edge_buffer.buffer ∧
    Hedge.SameFaceField k.edge_buffer.buffer k.defrag_verts.edge_buffer.buffer ∧
    k.defrag_verts.edge_buffer.free_cells = k.edge_buffer.free_cells ∧
    k.defrag_verts.face_buffer = k.face_buffer ∧
    k.defrag_verts.point_buffer = k.point_buffer := by
  by_cases hgate : k.vertex_buffer.has_inactive_cells = true
  case neg =>
    have hkv : k.defrag_verts = k := by
      unfold Hedge.Kernel.defrag_verts
      rw [if_neg hgate]
    rw [hkv]
    exact ⟨Hedge.sameCore_refl _, Hedge.sameFaceField_refl _, rfl, rfl, rfl⟩
  case pos =>
  have hkv : k.defrag_verts = { k with
      vertex_buffer := (k.vertex_buffer.sort).truncate_inactive,
      edge_buffer := { k.edge_buffer with
        buffer := ((k.vertex_buffer.sort).buffer.enum.filter
            (fun p => p.2.is_active)).foldl Hedge.vertFoldStep k.edge_buffer.buffer } } := by
    unfold Hedge.Kernel.defrag_verts
    rw [if_pos hgate]
    rfl
  rw [hkv]
  have := Hedge.vertFold_frame
    ((k.vertex_buffer.sort).buffer.enum.filter (fun p => p.2.is_active)) k.edge_buffer.buffer
  exact ⟨this.1, this.2, rfl, rfl, rfl⟩

/-- `Kernel::defrag_points` never touches the edge or face buffers (its
final truncation bug hits the vertex buffer). -/
theorem Hedge.defrag_points_frame (k : Hedge.Kernel) :
    k.defrag_points.edge_buffer = k.edge_buffer ∧
    k.defrag_points.face_buffer = k.face_buffer := by
  unfold Hedge.Kernel.defrag_points
  by_cases h : k.point_buffer.has_inactive_cells = true
  · rw [if_pos h]
    exact ⟨rfl, rfl⟩
  · rw [if_neg h]
    exact ⟨rfl, rfl⟩


/-! ### The swap-pair search of `next_swap_pair` -/

theorem Hedge.findIdxAux_spec {α : Type} (p : α → Bool) :
    ∀ (l : List α) (k j : Nat), l.findIdx? p k = some j →
      k ≤ j ∧ j - k < l.length ∧
      (∀ x, l[j - k]? = some x → p x = true) ∧
      (∀ i, i < j - k → ∀ x, l[i]? = some x → p x = false) := by
  intro l
  induction l with
  | nil => intro k j h; cases h
  | cons a t ih =>
    intro k j h
    rw [List.findIdx?_cons] at h
    by_cases hpa : p a = true
    · rw [if_pos hpa] at h
      have hj : j = k := (Option.some.inj h).symm
      subst hj
      refine ⟨le_refl _, by simp, ?_, ?_⟩
      · intro x hx
        simp only [Nat.sub_self, List.getElem?_cons_zero] at hx
        rw [← Option.some.inj hx]
        exact hpa
      · intro i hi
        omega
    · rw [if_neg hpa] at h
      obtain ⟨h1, h2, h3, h4⟩ := ih (k + 1) j h
      refine ⟨by omega, by simp; omega, ?_, ?_⟩
      · intro x hx
        have hsub : j - k = (j - (k + 1)) + 1 := by omega
        rw [hsub, List.getElem?_cons_succ] at hx
        exact h3 x hx
      · intro i hi x hx
        match i with
        | 0 =>
          rw [List.getElem?_cons_zero] at hx
          rw [← Option.some.inj hx]
          simpa using hpa
        | i + 1 =>
          rw [List.getElem?_cons_succ] at hx
          exact h4 i (by omega) x hx

theorem Hedge.findIdxAux_none {α : Type} (p : α → Bool) :
    ∀ (l : List α) (k : Nat), l.findIdx? p k = none → ∀ x ∈ l, p x = false := by
  intro l
  induction l with
  | nil => intro k _ x hx; cases hx
  | cons a t ih =>
    intro k h x hx
    rw [List.findIdx?_cons] at h
    by_cases hpa : p a = true
    · rw [if_pos hpa] at h; cases h
    · rw [if_neg hpa] at h
      rcases List.mem_cons.1 hx with hx | hx
      · rw [hx]; simpa using hpa
      · exact ih (k + 1) h x hx

theorem Hedge.drop_one_getElem? {α : Type} (l : List α) (i : Nat) :
    (l.drop 1)[i]? = l[i + 1]? := by
  rcases l with _ | ⟨a, t⟩
  · simp
  · rw [List.getElem?_cons_succ]
    rfl

theorem Hedge.firstInactive_spec {D : Type} [Inhabited D] {B : List (Hedge.MeshElement D)}
    {lo : Nat} (h : Hedge.firstInactiveOffset B = some lo) :
    1 ≤ lo ∧ lo < B.length ∧ (Hedge.elemAt B lo).is_active = false ∧
    ∀ o, 1 ≤ o → o < lo → (Hedge.elemAt B o).is_active = true := by
  unfold Hedge.firstInactiveOffset at h
  cases hf : (B.drop 1).findIdx? (fun e => ¬ e.is_active) with
  | none => rw [hf] at h; cases h
  | some j =>
    rw [hf] at h
    have hlo : lo = j + 1 := (Option.some.inj h).symm
    obtain ⟨_, h2, h3, h4⟩ := Hedge.findIdxAux_spec _ _ 0 j hf
    simp only [Nat.sub_zero] at h2 h3 h4
    have hjlt : j < B.length - 1 := by simpa using h2
    have hjB : B[j + 1]? = some (Hedge.elemAt B (j + 1)) :=
      Hedge.elemAt_of_lt (by omega)
    refine ⟨by omega, by omega, ?_, ?_⟩
    · rw [hlo]
      have := h3 (Hedge.elemAt B (j + 1)) (by rw [Hedge.drop_one_getElem?]; exact hjB)
      simpa using this
    · intro o ho1 ho2
      rw [hlo] at ho2
      have hoB : B[o]? = some (Hedge.elemAt B o) := Hedge.elemAt_of_lt (by omega)
      obtain ⟨o', rfl⟩ : ∃ o', o = o' + 1 := ⟨o - 1, by omega⟩
      have := h4 o' (by omega) (Hedge.elemAt B (o' + 1))
        (by rw [Hedge.drop_one_getElem?]; exact hoB)
      by_contra hc
      rw [show (Hedge.elemAt B (o' + 1)).is_active = false by
        cases hai : (Hedge.elemAt B (o' + 1)).is_active
        · rfl
        · exact absurd hai hc] at this
      simp at this


theorem Hedge.firstInactive_none {D : Type} [Inhabited D] {B : List (Hedge.MeshElement D)}
    (h : Hedge.firstInactiveOffset B = none) :
    ∀ o, 1 ≤ o → o < B.length → (Hedge.elemAt B o).is_active = true := by
  unfold Hedge.firstInactiveOffset at h
  cases hf : (B.drop 1).findIdx? (fun e => ¬ e.is_active) with
  | some j => rw [hf] at h; cases h
  | none =>
    intro o ho1 ho2
    obtain ⟨o', rfl⟩ : ∃ o', o = o' + 1 := ⟨o - 1, by omega⟩
    have hmem : Hedge.elemAt B (o' + 1) ∈ B.drop 1 := by
      rw [List.mem_iff_getElem?]
      exact ⟨o', by rw [Hedge.drop_one_getElem?]; exact Hedge.elemAt_of_lt (by omega)⟩
    have := Hedge.findIdxAux_none _ _ 0 hf _ hmem
    by_contra hc
    rw [show (Hedge.elemAt B (o' + 1)).is_active = false by
      cases hai : (Hedge.elemAt B (o' + 1)).is_active
      · rfl
      · exact absurd hai hc] at this
    simp at this

theorem Hedge.reverse_getElem? {α : Type} (l : List α) (j : Nat) (hj : j < l.length) :
    l.reverse[j]? = l[l.length - 1 - j]? := by
  rw [List.getElem?_eq_getElem (by simpa using hj),
    List.getElem?_eq_getElem (by omega)]
  congr 1
  rw [List.getElem_reverse]

theorem Hedge.lastActive_spec {D : Type} [Inhabited D] {B : List (Hedge.MeshElement D)}
    {a : Nat} (h : Hedge.lastActiveOffset B = some a) :
    1 ≤ a ∧ a < B.length ∧ (Hedge.elemAt B a).is_active = true ∧
    ∀ o, a < o → o < B.length → (Hedge.elemAt B o).is_active = false := by
  unfold Hedge.lastActiveOffset at h
  cases hf : (B.drop 1).reverse.findIdx? (fun e => e.is_active) with
  | none => rw [hf] at h; cases h
  | some j =>
    rw [hf] at h
    have ha : a = B.length - 1 - j := (Option.some.inj h).symm
    obtain ⟨_, h2, h3, h4⟩ := Hedge.findIdxAux_spec _ _ 0 j hf
    simp only [Nat.sub_zero] at h2 h3 h4
    have hjlt : j < B.length - 1 := by simpa using h2
    have hgetrel : ∀ i, i < B.length - 1 →
        (B.drop 1).reverse[i]? = B[B.length - 1 - i]? := by
      intro i hi
      rw [Hedge.reverse_getElem? _ i (by simpa using hi)]
      rw [List.length_drop]
      rw [Hedge.drop_one_getElem?]
      congr 1
      omega
    have haB : B[a]? = some (Hedge.elemAt B a) := Hedge.elemAt_of_lt (by omega)
    refine ⟨by omega, by omega, ?_, ?_⟩
    · have := h3 (Hedge.elemAt B a) (by rw [hgetrel j hjlt, ← ha]; exact haB)
      exact this
    · intro o ho1 ho2
      have hoidx : o = B.length - 1 - (B.length - 1 - o) := by omega
      have hi : B.length - 1 - o < j := by omega
      have hoB : B[o]? = some (Hedge.elemAt B o) := Hedge.elemAt_of_lt (by omega)
      have := h4 (B.length - 1 - o) hi (Hedge.elemAt B o)
        (by rw [hgetrel _ (by omega)]; rw [← hoidx]; exact hoB)
      exact this

theorem Hedge.lastActive_none {D : Type} [Inhabited D] {B : List (Hedge.MeshElement D)}
    (h : Hedge.lastActiveOffset B = none) :
    ∀ o, 1 ≤ o → o < B.length → (Hedge.elemAt B o).is_active = false := by
  unfold Hedge.lastActiveOffset at h
  cases hf : (B.drop 1).reverse.findIdx? (fun e => e.is_active) with
  | some j => rw [hf] at h; cases h
  | none =>
    intro o ho1 ho2
    have hmem : Hedge.elemAt B o ∈ (B.drop 1).reverse := by
      rw [List.mem_reverse, List.mem_iff_getElem?]
      refine ⟨o - 1, ?_⟩
      rw [Hedge.drop_one_getElem?, show o - 1 + 1 = o by omega]
      exact Hedge.elemAt_of_lt (by omega)
    exact Hedge.findIdxAux_none _ _ 0 hf _ hmem

theorem Hedge.nextSwapPair_some {D : Type} [Inhabited D] {B : List (Hedge.MeshElement D)}
    {lo hi : Nat} (h : Hedge.nextSwapPair B = some (lo, hi)) :
    1 ≤ lo ∧ lo < hi ∧ hi < B.length ∧
    (Hedge.elemAt B lo).is_active = false ∧ (Hedge.elemAt B hi).is_active = true ∧
    (∀ o, 1 ≤ o → o < lo → (Hedge.elemAt B o).is_active = true) ∧
    (∀ o, hi < o → o < B.length → (Hedge.elemAt B o).is_active = false) := by
  unfold Hedge.nextSwapPair at h
  cases h1 : Hedge.firstInactiveOffset B with
  | none => rw [h1] at h; cases h
  | some i0 =>
    cases h2 : Hedge.lastActiveOffset B with
    | none => rw [h1, h2] at h; cases h
    | some a0 =>
      rw [h1, h2] at h
      dsimp only at h
      by_cases hlt : a0 < i0
      · rw [if_pos hlt] at h; cases h
      · rw [if_neg hlt] at h
        have hpair : lo = i0 ∧ hi = a0 := by
          have := Option.some.inj h
          exact ⟨(congrArg Prod.fst this).symm, (congrArg Prod.snd this).symm⟩
        obtain ⟨rfl, rfl⟩ : lo = i0 ∧ hi = a0 := hpair
        obtain ⟨hf1, hf2, hf3, hf4⟩ := Hedge.firstInactive_spec h1
        obtain ⟨hl1, hl2, hl3, hl4⟩ := Hedge.lastActive_spec h2
        have hne : lo ≠ hi := by
          intro hcon
          rw [hcon] at hf3
          rw [hf3] at hl3
          cases hl3
        refine ⟨hf1, by omega, hl2, hf3, hl3, hf4, hl4⟩

theorem Hedge.nextSwapPair_none {D : Type} [Inhabited D] {B : List (Hedge.MeshElement D)}
    (h : Hedge.nextSwapPair B = none) :
    ∀ i a, 1 ≤ i → i ≤ a → a < B.length → (Hedge.elemAt B a).is_active = true →
      (Hedge.elemAt B i).is_active = true := by
  intro i a hi1 hia haB hact
  unfold Hedge.nextSwapPair at h
  cases h1 : Hedge.firstInactiveOffset B with
  | none => exact Hedge.firstInactive_none h1 i hi1 (by omega)
  | some i0 =>
    cases h2 : Hedge.lastActiveOffset B with
    | none => exact absurd hact (by rw [Hedge.lastActive_none h2 a (by omega) haB]; simp)
    | some a0 =>
      rw [h1, h2] at h
      dsimp only at h
      by_cases hlt : a0 < i0
      · obtain ⟨hf1, hf2, hf3, hf4⟩ := Hedge.firstInactive_spec h1
        obtain ⟨hl1, hl2, hl3, hl4⟩ := Hedge.lastActive_spec h2
        have haa0 : a ≤ a0 := by
          by_contra hc
          rw [hl4 a (by omega) haB] at hact
          cases hact
        exact hf4 i hi1 (by omega)
      · rw [if_neg hlt] at h
        cases h


/-- `edgeSwapStep` is the swap followed by the five redirections. -/
theorem Hedge.edgeSwapStep_eq (st : Hedge.EdgeSwapState) (lo hi : Nat) :
    Hedge.edgeSwapStep st lo hi =
      ⟨Hedge.redirectTwin
        (Hedge.redirectNext
          (Hedge.redirectPrev (Hedge.listSwap st.ebuf lo hi)
            (Hedge.elemAt (Hedge.listSwap st.ebuf lo hi) lo).data.next_index
            ⟨lo, (Hedge.elemAt (Hedge.listSwap st.ebuf lo hi) lo).generation⟩)
          (Hedge.elemAt (Hedge.listSwap st.ebuf lo hi) lo).data.prev_index
          ⟨lo, (Hedge.elemAt (Hedge.listSwap st.ebuf lo hi) lo).generation⟩)
        (Hedge.elemAt (Hedge.listSwap st.ebuf lo hi) lo).data.twin_index
        ⟨lo, (Hedge.elemAt (Hedge.listSwap st.ebuf lo hi) lo).generation⟩,
      Hedge.redirectFaceRoot st.fbuf
        (Hedge.elemAt (Hedge.listSwap st.ebuf lo hi) lo).data.face_index
        ⟨lo, (Hedge.elemAt (Hedge.listSwap st.ebuf lo hi) lo).generation⟩ hi,
      Hedge.redirectVertexEdge st.vbuf
        (Hedge.elemAt (Hedge.listSwap st.ebuf lo hi) lo).data.vertex_index
        ⟨lo, (Hedge.elemAt (Hedge.listSwap st.ebuf lo hi) lo).generation⟩ hi⟩ := by
  unfold Hedge.edgeSwapStep Hedge.redirectPrev Hedge.redirectNext Hedge.redirectTwin
    Hedge.redirectFaceRoot Hedge.redirectVertexEdge
  rfl

theorem Hedge.elemAt_listSwap {D : Type} [Inhabited D] (l : List (Hedge.MeshElement D))
    (i j : Nat) (hi : i < l.length) (hj : j < l.length) (z : Nat) :
    Hedge.elemAt (Hedge.listSwap l i j) z =
      if z = j then Hedge.elemAt l i else if z = i then Hedge.elemAt l j
      else Hedge.elemAt l z := by
  rw [show Hedge.listSwap l i j =
    (l.set i (Hedge.elemAt l j)).set j (Hedge.elemAt l i) from rfl]
  rw [Hedge.elemAt_set, List.length_set]
  by_cases h1 : z = j
  · rw [if_pos ⟨h1, hj⟩, if_pos h1]
  · rw [if_neg (fun h => h1 h.1), if_neg h1, Hedge.elemAt_set]
    by_cases h2 : z = i
    · rw [if_pos ⟨h2, hi⟩, if_pos h2]
    · rw [if_neg (fun h => h2 h.1), if_neg h2]

theorem Hedge.length_listSwap {α : Type} [Inhabited α] (l : List α) (i j : Nat) :
    (Hedge.listSwap l i j).length = l.length := by
  unfold Hedge.listSwap
  rw [List.length_set, List.length_set]

theorem Hedge.countP_set {α : Type} (q : α → Bool) :
    ∀ (l : List α) (i : Nat) (a : α) (h : i < l.length),
    (l.set i a).countP q + (if q (l.get ⟨i, h⟩) then 1 else 0) =
      l.countP q + (if q a then 1 else 0) := by
  intro l
  induction l with
  | nil => intro i a h; cases h
  | cons b t ih =>
    intro i a h
    match i with
    | 0 =>
      rw [List.set_cons_zero, List.countP_cons, List.countP_cons]
      dsimp only [List.get]
      omega
    | i + 1 =>
      rw [List.set_cons_succ, List.countP_cons, List.countP_cons]
      dsimp only [List.get]
      have := ih i a (by simpa using h)
      omega

theorem Hedge.countP_ge_of_prefix {α : Type} (q : α → Bool) :
    ∀ (l : List α) (k : Nat), k ≤ l.length →
    (∀ i (h : i < l.length), i < k → q (l.get ⟨i, h⟩) = true) →
    k ≤ l.countP q := by
  intro l
  induction l with
  | nil => intro k hk _; simpa using hk
  | cons b t ih =>
    intro k hk hall
    match k with
    | 0 => omega
    | k + 1 =>
      rw [List.countP_cons]
      have hb : q b = true := hall 0 (by simp) (by omega)
      have := ih k (by simpa using hk)
        (fun i h hik => hall (i + 1) (by simpa using h) (by omega))
      rw [hb, show (if (true : Bool) = true then (1 : Nat) else 0) = 1 from rfl]
      omega

theorem Hedge.countP_le_of_suffix {α : Type} (q : α → Bool) :
    ∀ (l : List α) (k : Nat),
    (∀ i (h : i < l.length), k ≤ i → q (l.get ⟨i, h⟩) = false) →
    l.countP q ≤ k := by
  intro l
  induction l with
  | nil => intro k _; simp
  | cons b t ih =>
    intro k hall
    match k with
    | 0 =>
      rw [List.countP_cons]
      have hb : q b = false := hall 0 (by simp) (by omega)
      have := ih 0 (fun i h _ => hall (i + 1) (by simpa using h) (by omega))
      rw [hb, show (if (false : Bool) = true then (1 : Nat) else 0) = 0 from rfl]
      omega
    | k + 1 =>
      rw [List.countP_cons]
      have := ih k (fun i h hik => hall (i + 1) (by simpa using h) (by omega))
      by_cases hb : q b = true
      · rw [hb, show (if (true : Bool) = true then (1 : Nat) else 0) = 1 from rfl]
        omega
      · rw [show q b = false by cases hqb : q b; rfl; exact absurd hqb hb,
          show (if (false : Bool) = true then (1 : Nat) else 0) = 0 from rfl]
        omega


theorem Hedge.redirectPrev_some {B : List Hedge.Edge} {i : Hedge.Index} {e : Hedge.Edge}
    (v : Hedge.Index) (h : Hedge.bufGet B i = some e) :
    Hedge.redirectPrev B i v =
      B.set i.offset { e with data := { e.data with prev_index := v } } := by
  unfold Hedge.redirectPrev
  rw [h]

theorem Hedge.redirectNext_some {B : List Hedge.Edge} {i : Hedge.Index} {e : Hedge.Edge}
    (v : Hedge.Index) (h : Hedge.bufGet B i = some e) :
    Hedge.redirectNext B i v =
      B.set i.offset { e with data := { e.data with next_index := v } } := by
  unfold Hedge.redirectNext
  rw [h]

theorem Hedge.redirectTwin_some {B : List Hedge.Edge} {i : Hedge.Index} {e : Hedge.Edge}
    (v : Hedge.Index) (h : Hedge.bufGet B i = some e) :
    Hedge.redirectTwin B i v =
      B.set i.offset { e with data := { e.data with twin_index := v } } := by
  unfold Hedge.redirectTwin
  rw [h]

theorem Hedge.swapPerm_invol (lo hi z : Nat) :
    Hedge.swapPerm lo hi (Hedge.swapPerm lo hi z) = z := by
  unfold Hedge.swapPerm
  by_cases h1 : z = lo
  · by_cases h2 : hi = lo <;> simp [h1, h2]
  · by_cases h2 : z = hi
    · simp [h1, h2]
    · simp [h1, h2]

theorem Hedge.swapPerm_fix (lo hi z : Nat) (h1 : z ≠ lo) (h2 : z ≠ hi) :
    Hedge.swapPerm lo hi z = z := by
  unfold Hedge.swapPerm
  rw [if_neg h1, if_neg h2]

theorem Hedge.swapPerm_lo (lo hi : Nat) : Hedge.swapPerm lo hi lo = hi := by
  unfold Hedge.swapPerm
  rw [if_pos rfl]

theorem Hedge.swapPerm_hi (lo hi : Nat) (hne : lo ≠ hi) : Hedge.swapPerm lo hi hi = lo := by
  unfold Hedge.swapPerm
  rw [if_neg (fun h => hne h.symm), if_pos rfl]

theorem Hedge.liveAt_congr_elem {D : Type} [Inhabited D]
    {B B' : List (Hedge.MeshElement D)} (hlen : B'.length = B.length) {z z' : Nat}
    (hzz : z = z') (helem : Hedge.elemAt B' z = Hedge.elemAt B z') :
    Hedge.liveAt B' z = Hedge.liveAt B z' := by
  unfold Hedge.liveAt
  rw [hlen, helem, hzz]


theorem Hedge.redirectFaceRoot_len (F : List Hedge.Face) (i v : Hedge.Index) (ao : Nat) :
    (Hedge.redirectFaceRoot F i v ao).length = F.length := by
  unfold Hedge.redirectFaceRoot
  cases h : Hedge.bufGet F i with
  | none => rfl
  | some f =>
    dsimp only
    by_cases hc : f.data.edge_index.offset = ao
    · rw [if_pos hc, List.length_set]
    · rw [if_neg hc]

theorem Hedge.redirectFaceRoot_statgen (F : List Hedge.Face) (i v : Hedge.Index) (ao : Nat) :
    ∀ o, (Hedge.elemAt (Hedge.redirectFaceRoot F i v ao) o).status =
        (Hedge.elemAt F o).status ∧
      (Hedge.elemAt (Hedge.redirectFaceRoot F i v ao) o).generation =
        (Hedge.elemAt F o).generation := by
  intro o
  unfold Hedge.redirectFaceRoot
  cases h : Hedge.bufGet F i with
  | none => exact ⟨rfl, rfl⟩
  | some f =>
    dsimp only
    by_cases hc : f.data.edge_index.offset = ao
    · rw [if_pos hc, Hedge.elemAt_set]
      by_cases ho : o = i.offset ∧ i.offset < F.length
      · rw [if_pos ho]
        obtain ⟨hf, _⟩ := Hedge.bufGet_eq_elemAt h
        rw [ho.1, hf]
        exact ⟨rfl, rfl⟩
      · rw [if_neg ho]
        exact ⟨rfl, rfl⟩
    · rw [if_neg hc]
      exact ⟨rfl, rfl⟩

theorem Hedge.redirectFaceRoot_live (F : List Hedge.Face) (i v : Hedge.Index) (ao : Nat) :
    ∀ o, Hedge.liveAt (Hedge.redirectFaceRoot F i v ao) o = Hedge.liveAt F o := by
  intro o
  unfold Hedge.liveAt Hedge.MeshElement.is_active
  rw [(Hedge.redirectFaceRoot_statgen F i v ao o).1, Hedge.redirectFaceRoot_len F i v ao]

theorem Hedge.redirectFaceRoot_handle (F : List Hedge.Face) (i v : Hedge.Index) (ao : Nat) :
    ∀ o, Hedge.handleAt (Hedge.redirectFaceRoot F i v ao) o = Hedge.handleAt F o := by
  intro o
  unfold Hedge.handleAt
  rw [(Hedge.redirectFaceRoot_statgen F i v ao o).2]

theorem Hedge.redirectFaceRoot_elem_ne (F : List Hedge.Face) (i v : Hedge.Index) (ao : Nat) :
    ∀ o, (Hedge.elemAt F o).data.edge_index.offset ≠ ao →
      Hedge.elemAt (Hedge.redirectFaceRoot F i v ao) o = Hedge.elemAt F o := by
  intro o hne
  unfold Hedge.redirectFaceRoot
  cases h : Hedge.bufGet F i with
  | none => rfl
  | some f =>
    dsimp only
    by_cases hc : f.data.edge_index.offset = ao
    · rw [if_pos hc, Hedge.elemAt_set]
      by_cases ho : o = i.offset ∧ i.offset < F.length
      · obtain ⟨hf, _⟩ := Hedge.bufGet_eq_elemAt h
        rw [← ho.1] at hf
        rw [hf] at hc
        exact absurd hc hne
      · rw [if_neg ho]
    · rw [if_neg hc]

theorem Hedge.redirectFaceRoot_fire {F : List Hedge.Face} {i : Hedge.Index}
    {f : Hedge.Face} (v : Hedge.Index) (ao : Nat) (h : Hedge.bufGet F i = some f)
    (hc : f.data.edge_index.offset = ao) :
    Hedge.redirectFaceRoot F i v ao =
      F.set i.offset { f with data := { f.data with edge_index := v } } := by
  unfold Hedge.redirectFaceRoot
  rw [h]
  dsimp only
  rw [if_pos hc]

theorem Hedge.nodup_set_of_not_mem {l : List Nat} {a : Nat} (ha : a ∉ l) :
    ∀ {j : Nat}, l.Nodup → (l.set j a).Nodup := by
  induction l with
  | nil => intro j _; simp
  | cons b t ih =>
    intro j hnd
    match j with
    | 0 =>
      rw [List.set_cons_zero]
      rw [List.nodup_cons] at hnd ⊢
      exact ⟨fun hc => ha (List.mem_cons_of_mem b hc), hnd.2⟩
    | j + 1 =>
      rw [List.set_cons_succ]
      rw [List.nodup_cons] at hnd ⊢
      refine ⟨?_, ih (fun hc => ha (List.mem_cons_of_mem b hc)) hnd.2⟩
      intro hc
      rcases List.mem_or_eq_of_mem_set hc with hc | hc
      · exact hnd.1 hc
      · exact ha (by rw [← hc]; exact List.mem_cons_self b t)

theorem Hedge.getD_set_nat (l : List Nat) (j a i : Nat) (hj : j < l.length) :
    (l.set j a).getD i 0 = if i = j then a else l.getD i 0 := by
  rw [List.getD_eq_getElem?_getD, List.getD_eq_getElem?_getD, List.getElem?_set]
  by_cases h : i = j
  · rw [if_pos h, if_pos h.symm, if_pos (by omega)]
    rfl
  · rw [if_neg h, if_neg (fun hh => h hh.symm)]

theorem Hedge.mem_getD_pos {l : List Nat} {x : Nat} (h : x ∈ l) :
    ∃ j, j < l.length ∧ l.getD j 0 = x := by
  obtain ⟨j, hj⟩ := List.mem_iff_getElem?.1 h
  have hlt : j < l.length := (List.getElem?_eq_some.1 hj).1
  refine ⟨j, hlt, ?_⟩
  rw [List.getD_eq_getElem?_getD, hj]
  rfl

theorem Hedge.getD_mem {l : List Nat} {j : Nat} (h : j < l.length) : l.getD j 0 ∈ l := by
  rw [List.getD_eq_getElem?_getD, List.getElem?_eq_getElem h]
  exact List.getElem_mem h

theorem Hedge.nodup_getD_inj {l : List Nat} (hnd : l.Nodup) {i j : Nat}
    (hi : i < l.length) (hj : j < l.length) (h : l.getD i 0 = l.getD j 0) : i = j := by
  have e1 : l.getD i 0 = l.get ⟨i, hi⟩ := Hedge.getD_eq_getElem l i hi
  have e2 : l.getD j 0 = l.get ⟨j, hj⟩ := Hedge.getD_eq_getElem l j hj
  rw [e1, e2] at h
  have := (List.Nodup.get_inj_iff hnd).1 h
  exact congrArg Fin.val this


set_option maxHeartbeats 1600000

/-- One swap of `defrag_edges` preserves the twin and next/prev
involutions, the absence of self-`next` edges, and face-loop closure, and
permutes the statuses of the two swapped slots while fixing everything
else (in particular the sentinel and the total active count). -/
theorem Hedge.edgeSwapStep_inv (st : Hedge.EdgeSwapState) (lo hi : Nat)
    (hpair : Hedge.nextSwapPair st.ebuf = some (lo, hi))
    (htw : Hedge.TwinInvolution st.ebuf)
    (hnp : Hedge.NextPrevInvolution st.ebuf)
    (hns : Hedge.NoSelfNext st.ebuf)
    (hflo : Hedge.FaceLoopsOK st.ebuf st.fbuf) :
    Hedge.TwinInvolution (Hedge.edgeSwapStep st lo hi).ebuf ∧
    Hedge.NextPrevInvolution (Hedge.edgeSwapStep st lo hi).ebuf ∧
    Hedge.NoSelfNext (Hedge.edgeSwapStep st lo hi).ebuf ∧
    Hedge.FaceLoopsOK (Hedge.edgeSwapStep st lo hi).ebuf (Hedge.edgeSwapStep st lo hi).fbuf ∧
    (Hedge.edgeSwapStep st lo hi).ebuf.length = st.ebuf.length ∧
    (∀ z, (Hedge.elemAt (Hedge.edgeSwapStep st lo hi).ebuf z).is_active =
        (Hedge.elemAt st.ebuf (Hedge.swapPerm lo hi z)).is_active) ∧
    Hedge.elemAt (Hedge.edgeSwapStep st lo hi).ebuf 0 = Hedge.elemAt st.ebuf 0 ∧
    (Hedge.edgeSwapStep st lo hi).ebuf.countP (fun e => e.is_active) =
      st.ebuf.countP (fun e => e.is_active) := by
  obtain ⟨hlo1, hlohi, hhilen, hloin, hhiact, hpre, hsuf⟩ := Hedge.nextSwapPair_some hpair
  set E := st.ebuf with hEdef
  have hlolen : lo < E.length := by omega
  have hlonehi : lo ≠ hi := by omega
  have hlive_hi : Hedge.liveAt E hi = true := (Hedge.liveAt_iff E hi).2 ⟨by omega, hhilen, hhiact⟩
  have hlive_lo_false : ¬ Hedge.liveAt E lo = true := by
    intro hc
    rw [(Hedge.liveAt_iff E lo).1 hc |>.2.2] at hloin
    cases hloin
  obtain ⟨hrn, hrp, hbn, hbp⟩ := hnp hi hlive_hi
  obtain ⟨hrt, htne, hbt⟩ := htw hi hlive_hi
  set ehi := Hedge.elemAt E hi with h_ehi
  set g := ehi.generation with hgdef
  set n := ehi.data.next_index.offset with hndef
  set p := ehi.data.prev_index.offset with hpdef
  set t := ehi.data.twin_index.offset with htdef
  obtain ⟨hlive_n, hhn, _⟩ := (Hedge.resolvesAt_iff E _).1 hrn
  obtain ⟨hlive_p, hhp, _⟩ := (Hedge.resolvesAt_iff E _).1 hrp
  obtain ⟨hlive_t, hht, _⟩ := (Hedge.resolvesAt_iff E _).1 hrt
  -- the swapped-in element keeps a positive generation (it is the target
  -- of its twin's stored handle, which resolves)
  have hg1 : 1 ≤ g := by
    obtain ⟨hrt', _, _⟩ := htw t hlive_t
    rw [hbt] at hrt'
    exact ((Hedge.resolvesAt_iff E _).1 hrt').2.2
  have hn_hi : n ≠ hi := hns hi hlive_hi
  have hp_hi : p ≠ hi := by
    intro hcon
    rw [hcon] at hbp
    have : n = hi := congrArg Hedge.Index.offset hbp
    exact hn_hi this
  have ht_hi : t ≠ hi := htne
  have hactive_of_live : ∀ x, Hedge.liveAt E x = true → x ≠ lo := by
    intro x hx hcon
    rw [hcon] at hx
    exact hlive_lo_false hx
  have hn_lo : n ≠ lo := hactive_of_live n hlive_n
  have hp_lo : p ≠ lo := hactive_of_live p hlive_p
  have ht_lo : t ≠ lo := hactive_of_live t hlive_t
  have hnlen : n < E.length := ((Hedge.liveAt_iff E n).1 hlive_n).2.1
  have hplen : p < E.length := ((Hedge.liveAt_iff E p).1 hlive_p).2.1
  have htlen : t < E.length := ((Hedge.liveAt_iff E t).1 hlive_t).2.1
  have hn1 : 1 ≤ n := ((Hedge.liveAt_iff E n).1 hlive_n).1
  have hp1 : 1 ≤ p := ((Hedge.liveAt_iff E p).1 hlive_p).1
  have ht1 : 1 ≤ t := ((Hedge.liveAt_iff E t).1 hlive_t).1
  -- the three stages of the rewrite
  set E0 := Hedge.listSwap E lo hi with hE0_def
  have hswap : ∀ z, Hedge.elemAt E0 z = Hedge.elemAt E (Hedge.swapPerm lo hi z) := by
    intro z
    rw [hE0_def, Hedge.elemAt_listSwap E lo hi hlolen hhilen z]
    unfold Hedge.swapPerm
    split_ifs <;> first | rfl | omega
  have hlen0 : E0.length = E.length := Hedge.length_listSwap E lo hi
  have h_sw_lo : Hedge.elemAt E0 lo = ehi := by
    rw [hswap lo, Hedge.swapPerm_lo]
  have hlive0 : ∀ z, Hedge.liveAt E0 z = Hedge.liveAt E (Hedge.swapPerm lo hi z) := by
    intro z
    by_cases h1 : z = lo
    · rw [h1]
      unfold Hedge.liveAt
      rw [hswap lo, Hedge.swapPerm_lo, hlen0]
      simp [hlo1, hlolen, hhilen, show 1 ≤ hi by omega]
    · by_cases h2 : z = hi
      · rw [h2]
        unfold Hedge.liveAt
        rw [hswap hi, Hedge.swapPerm_hi lo hi hlonehi, hlen0]
        simp [hlo1, hlolen, hhilen, show 1 ≤ hi by omega]
      · rw [Hedge.swapPerm_fix lo hi z h1 h2]
        unfold Hedge.liveAt
        rw [hswap z, Hedge.swapPerm_fix lo hi z h1 h2, hlen0]
  -- stage 1: the moved edge's `next` neighbour gets its `prev` redirected
  have hbg1 : Hedge.bufGet E0 ehi.data.next_index = some (Hedge.elemAt E0 n) := by
    rw [hhn]
    have h1 : Hedge.liveAt E0 (Hedge.handleAt E n).offset = true := by
      rw [Hedge.handleAt_offset, hlive0 n, Hedge.swapPerm_fix lo hi n hn_lo hn_hi]
      exact hlive_n
    have h2 : (Hedge.handleAt E n).generation =
        (Hedge.elemAt E0 (Hedge.handleAt E n).offset).generation := by
      rw [Hedge.handleAt_offset, Hedge.handleAt_generation, hswap n,
        Hedge.swapPerm_fix lo hi n hn_lo hn_hi]
    exact Hedge.bufGet_eq_some E0 _ h1 (Or.inr h2)
  set A1 : Hedge.Edge := { Hedge.elemAt E0 n with
    data := { (Hedge.elemAt E0 n).data with prev_index := ⟨lo, g⟩ } } with hA1
  set E1 := E0.set n A1 with hE1_def
  have hred1 : Hedge.redirectPrev E0 ehi.data.next_index ⟨lo, g⟩ = E1 := by
    rw [Hedge.redirectPrev_some _ hbg1]
  have hlen1 : E1.length = E0.length := by rw [hE1_def, List.length_set]
  have hfields1 : ∀ z,
      (Hedge.elemAt E1 z).status = (Hedge.elemAt E0 z).status ∧
      (Hedge.elemAt E1 z).generation = (Hedge.elemAt E0 z).generation ∧
      (Hedge.elemAt E1 z).data.twin_index = (Hedge.elemAt E0 z).data.twin_index ∧
      (Hedge.elemAt E1 z).data.next_index = (Hedge.elemAt E0 z).data.next_index ∧
      (Hedge.elemAt E1 z).data.prev_index =
        (if z = n then (⟨lo, g⟩ : Hedge.Index) else (Hedge.elemAt E0 z).data.prev_index) ∧
      (Hedge.elemAt E1 z).data.face_index = (Hedge.elemAt E0 z).data.face_index ∧
      (Hedge.elemAt E1 z).data.vertex_index = (Hedge.elemAt E0 z).data.vertex_index := by
    intro z
    rw [hE1_def, Hedge.elemAt_set]
    by_cases h : z = n
    · rw [if_pos ⟨h, by omega⟩, if_pos h, h]
      exact ⟨rfl, rfl, rfl, rfl, rfl, rfl, rfl⟩
    · rw [if_neg (fun hh => h hh.1), if_neg h]
      exact ⟨rfl, rfl, rfl, rfl, rfl, rfl, rfl⟩
  have hlive1 : ∀ z, Hedge.liveAt E1 z = Hedge.liveAt E0 z := by
    intro z
    unfold Hedge.liveAt Hedge.MeshElement.is_active
    rw [(hfields1 z).1, hlen1]
  -- stage 2: the moved edge's `prev` neighbour gets its `next` redirected
  have hbg2 : Hedge.bufGet E1 ehi.data.prev_index = some (Hedge.elemAt E1 p) := by
    rw [hhp]
    have h1 : Hedge.liveAt E1 (Hedge.handleAt E p).offset = true := by
      rw [Hedge.handleAt_offset, hlive1 p, hlive0 p, Hedge.swapPerm_fix lo hi p hp_lo hp_hi]
      exact hlive_p
    have h2 : (Hedge.handleAt E p).generation =
        (Hedge.elemAt E1 (Hedge.handleAt E p).offset).generation := by
      rw [Hedge.handleAt_offset, Hedge.handleAt_generation, (hfields1 p).2.1, hswap p,
        Hedge.swapPerm_fix lo hi p hp_lo hp_hi]
    exact Hedge.bufGet_eq_some E1 _ h1 (Or.inr h2)
  set A2 : Hedge.Edge := { Hedge.elemAt E1 p with
    data := { (Hedge.elemAt E1 p).data with next_index := ⟨lo, g⟩ } } with hA2
  set E2 := E1.set p A2 with hE2_def
  have hred2 : Hedge.redirectNext E1 ehi.data.prev_index ⟨lo, g⟩ = E2 := by
    rw [Hedge.redirectNext_some _ hbg2]
  have hlen2 : E2.length = E1.length := by rw [hE2_def, List.length_set]
  have hfields2 : ∀ z,
      (Hedge.elemAt E2 z).status = (Hedge.elemAt E1 z).status ∧
      (Hedge.elemAt E2 z).generation = (Hedge.elemAt E1 z).generation ∧
      (Hedge.elemAt E2 z).data.twin_index = (Hedge.elemAt E1 z).data.twin_index ∧
      (Hedge.elemAt E2 z).data.next_index =
        (if z = p then (⟨lo, g⟩ : Hedge.Index) else (Hedge.elemAt E1 z).data.next_index) ∧
      (Hedge.elemAt E2 z).data.prev_index = (Hedge.elemAt E1 z).data.prev_index ∧
      (Hedge.elemAt E2 z).data.face_index = (Hedge.elemAt E1 z).data.face_index ∧
      (Hedge.elemAt E2 z).data.vertex_index = (Hedge.elemAt E1 z).data.vertex_index := by
    intro z
    rw [hE2_def, Hedge.elemAt_set]
    by_cases h : z = p
    · rw [if_pos ⟨h, by omega⟩, if_pos h, h]
      exact ⟨rfl, rfl, rfl, rfl, rfl, rfl, rfl⟩
    · rw [if_neg (fun hh => h hh.1), if_neg h]
      exact ⟨rfl, rfl, rfl, rfl, rfl, rfl, rfl⟩
  have hlive2 : ∀ z, Hedge.liveAt E2 z = Hedge.liveAt E1 z := by
    intro z
    unfold Hedge.liveAt Hedge.MeshElement.is_active
    rw [(hfields2 z).1, hlen2]
  -- stage 3: the moved edge's twin gets its `twin` redirected
  have hbg3 : Hedge.bufGet E2 ehi.data.twin_index = some (Hedge.elemAt E2 t) := by
    rw [hht]
    have h1 : Hedge.liveAt E2 (Hedge.handleAt E t).offset = true := by
      rw [Hedge.handleAt_offset, hlive2 t, hlive1 t, hlive0 t,
        Hedge.swapPerm_fix lo hi t ht_lo ht_hi]
      exact hlive_t
    have h2 : (Hedge.handleAt E t).generation =
        (Hedge.elemAt E2 (Hedge.handleAt E t).offset).generation := by
      rw [Hedge.handleAt_offset, Hedge.handleAt_generation, (hfields2 t).2.1,
        (hfields1 t).2.1, hswap t, Hedge.swapPerm_fix lo hi t ht_lo ht_hi]
    exact Hedge.bufGet_eq_some E2 _ h1 (Or.inr h2)
  set A3 : Hedge.Edge := { Hedge.elemAt E2 t with
    data := { (Hedge.elemAt E2 t).data with twin_index := ⟨lo, g⟩ } } with hA3
  set E3 := E2.set t A3 with hE3_def
  have hred3 : Hedge.redirectTwin E2 ehi.data.twin_index ⟨lo, g⟩ = E3 := by
    rw [Hedge.redirectTwin_some _ hbg3]
  have hlen3' : E3.length = E2.length := by rw [hE3_def, List.length_set]
  have hfields3 : ∀ z,
      (Hedge.elemAt E3 z).status = (Hedge.elemAt E2 z).status ∧
      (Hedge.elemAt E3 z).generation = (Hedge.elemAt E2 z).generation ∧
      (Hedge.elemAt E3 z).data.twin_index =
        (if z = t then (⟨lo, g⟩ : Hedge.Index) else (Hedge.elemAt E2 z).data.twin_index) ∧
      (Hedge.elemAt E3 z).data.next_index = (Hedge.elemAt E2 z).data.next_index ∧
      (Hedge.elemAt E3 z).data.prev_index = (Hedge.elemAt E2 z).data.prev_index ∧
      (Hedge.elemAt E3 z).data.face_index = (Hedge.elemAt E2 z).data.face_index ∧
      (Hedge.elemAt E3 z).data.vertex_index = (Hedge.elemAt E2 z).data.vertex_index := by
    intro z
    rw [hE3_def, Hedge.elemAt_set]
    by_cases h : z = t
    · rw [if_pos ⟨h, by omega⟩, if_pos h, h]
      exact ⟨rfl, rfl, rfl, rfl, rfl, rfl, rfl⟩
    · rw [if_neg (fun hh => h hh.1), if_neg h]
      exact ⟨rfl, rfl, rfl, rfl, rfl, rfl, rfl⟩
  -- combined pointwise description of the rewritten edge buffer
  have hlen3 : E3.length = E.length := by rw [hlen3', hlen2, hlen1, hlen0]
  have hstat3 : ∀ z, (Hedge.elemAt E3 z).status =
      (Hedge.elemAt E (Hedge.swapPerm lo hi z)).status := by
    intro z
    rw [(hfields3 z).1, (hfields2 z).1, (hfields1 z).1, hswap z]
  have hgen3 : ∀ z, (Hedge.elemAt E3 z).generation =
      (Hedge.elemAt E (Hedge.swapPerm lo hi z)).generation := by
    intro z
    rw [(hfields3 z).2.1, (hfields2 z).2.1, (hfields1 z).2.1, hswap z]
  have hface3 : ∀ z, (Hedge.elemAt E3 z).data.face_index =
      (Hedge.elemAt E (Hedge.swapPerm lo hi z)).data.face_index := by
    intro z
    rw [(hfields3 z).2.2.2.2.2.1, (hfields2 z).2.2.2.2.2.1, (hfields1 z).2.2.2.2.2.1, hswap z]
  have hnext3 : ∀ z, (Hedge.elemAt E3 z).data.next_index =
      (if z = p then (⟨lo, g⟩ : Hedge.Index)
       else (Hedge.elemAt E (Hedge.swapPerm lo hi z)).data.next_index) := by
    intro z
    rw [(hfields3 z).2.2.2.1, (hfields2 z).2.2.2.1, (hfields1 z).2.2.2.1, hswap z]
  have hprev3 : ∀ z, (Hedge.elemAt E3 z).data.prev_index =
      (if z = n then (⟨lo, g⟩ : Hedge.Index)
       else (Hedge.elemAt E (Hedge.swapPerm lo hi z)).data.prev_index) := by
    intro z
    rw [(hfields3 z).2.2.2.2.1, (hfields2 z).2.2.2.2.1, (hfields1 z).2.2.2.2.1, hswap z]
  have htwin3 : ∀ z, (Hedge.elemAt E3 z).data.twin_index =
      (if z = t then (⟨lo, g⟩ : Hedge.Index)
       else (Hedge.elemAt E (Hedge.swapPerm lo hi z)).data.twin_index) := by
    intro z
    rw [(hfields3 z).2.2.1, (hfields2 z).2.2.1, (hfields1 z).2.2.1, hswap z]
  have hlive3 : ∀ z, Hedge.liveAt E3 z = Hedge.liveAt E (Hedge.swapPerm lo hi z) := by
    intro z
    unfold Hedge.liveAt Hedge.MeshElement.is_active
    rw [hlen3', hlen2, hlen1, (hfields3 z).1, (hfields2 z).1, (hfields1 z).1]
    have := hlive0 z
    unfold Hedge.liveAt Hedge.MeshElement.is_active at this
    exact this
  have hstep_e : (Hedge.edgeSwapStep st lo hi).ebuf = E3 := by
    rw [Hedge.edgeSwapStep_eq]
    dsimp only
    rw [show Hedge.elemAt (Hedge.listSwap st.ebuf lo hi) lo = ehi from h_sw_lo]
    rw [show Hedge.listSwap st.ebuf lo hi = E0 from rfl]
    rw [hred1, hred2, hred3]
  have hstep_f : (Hedge.edgeSwapStep st lo hi).fbuf =
      Hedge.redirectFaceRoot st.fbuf ehi.data.face_index ⟨lo, g⟩ hi := by
    rw [Hedge.edgeSwapStep_eq]
    dsimp only
    rw [show Hedge.elemAt (Hedge.listSwap st.ebuf lo hi) lo = ehi from h_sw_lo]
  -- handle bookkeeping in the rewritten buffer
  have hhandle3 : ∀ z, z ≠ lo → z ≠ hi → Hedge.handleAt E3 z = Hedge.handleAt E z := by
    intro z h1 h2
    unfold Hedge.handleAt
    rw [hgen3 z, Hedge.swapPerm_fix lo hi z h1 h2]
  have hhandle3lo : Hedge.handleAt E3 lo = ⟨lo, g⟩ := by
    unfold Hedge.handleAt
    rw [hgen3 lo, Hedge.swapPerm_lo]
  have hres_fix : ∀ i : Hedge.Index, i.offset ≠ lo → i.offset ≠ hi →
      Hedge.resolvesAt E i = true → Hedge.resolvesAt E3 i = true := by
    intro i h1 h2 hr
    obtain ⟨hl, hh, hg⟩ := (Hedge.resolvesAt_iff E i).1 hr
    rw [Hedge.resolvesAt_iff]
    refine ⟨?_, ?_, hg⟩
    · rw [hlive3 i.offset, Hedge.swapPerm_fix lo hi i.offset h1 h2]
      exact hl
    · rw [hhandle3 i.offset h1 h2]
      exact hh
  have hres_lo : Hedge.resolvesAt E3 ⟨lo, g⟩ = true := by
    rw [Hedge.resolvesAt_iff]
    refine ⟨?_, ?_, hg1⟩
    · have hx : Hedge.liveAt E3 lo = true := by
        rw [hlive3 lo, Hedge.swapPerm_lo]
        exact hlive_hi
      exact hx
    · exact hhandle3lo.symm
  have hz_ne_hi_of_live : ∀ z, Hedge.liveAt E3 z = true → z ≠ hi := by
    intro z hz hcon
    rw [hcon, hlive3 hi, Hedge.swapPerm_hi lo hi hlonehi] at hz
    exact hlive_lo_false hz
  have hliveE_of : ∀ z, z ≠ lo → z ≠ hi → Hedge.liveAt E3 z = true →
      Hedge.liveAt E z = true := by
    intro z h1 h2 hz
    rw [hlive3 z, Hedge.swapPerm_fix lo hi z h1 h2] at hz
    exact hz
  -- uniqueness of the stored references into the moved slot
  have huniq_next : ∀ x, Hedge.liveAt E x = true →
      (Hedge.elemAt E x).data.next_index.offset = hi → x = p := by
    intro x hx hoff
    obtain ⟨_, _, hbnx, _⟩ := hnp x hx
    rw [hoff] at hbnx
    have h := hhp.symm.trans hbnx
    exact (congrArg Hedge.Index.offset h).symm
  have huniq_prev : ∀ x, Hedge.liveAt E x = true →
      (Hedge.elemAt E x).data.prev_index.offset = hi → x = n := by
    intro x hx hoff
    obtain ⟨_, _, _, hbpx⟩ := hnp x hx
    rw [hoff] at hbpx
    have h := hhn.symm.trans hbpx
    exact (congrArg Hedge.Index.offset h).symm
  have huniq_twin : ∀ x, Hedge.liveAt E x = true →
      (Hedge.elemAt E x).data.twin_index.offset = hi → x = t := by
    intro x hx hoff
    obtain ⟨_, _, hbtx⟩ := htw x hx
    rw [hoff] at hbtx
    have h := hht.symm.trans hbtx
    exact (congrArg Hedge.Index.offset h).symm
  -- twin involution survives
  have htw3 : Hedge.TwinInvolution E3 := by
    intro z hz3
    have hzhi : z ≠ hi := hz_ne_hi_of_live z hz3
    by_cases hzlo : z = lo
    · rw [hzlo]
      have htwv : (Hedge.elemAt E3 lo).data.twin_index = Hedge.handleAt E t := by
        rw [htwin3 lo, if_neg (fun h => ht_lo h.symm), Hedge.swapPerm_lo]
        exact hht
      refine ⟨?_, ?_, ?_⟩
      · rw [htwv]
        refine hres_fix (Hedge.handleAt E t) ?_ ?_ ?_
        · rw [Hedge.handleAt_offset]; exact ht_lo
        · rw [Hedge.handleAt_offset]; exact ht_hi
        · rw [← hht]; exact hrt
      · rw [htwv, Hedge.handleAt_offset]; exact ht_lo
      · rw [htwv, Hedge.handleAt_offset, htwin3 t, if_pos rfl, hhandle3lo]
    · have hzfix : Hedge.swapPerm lo hi z = z := Hedge.swapPerm_fix lo hi z hzlo hzhi
      have hzE : Hedge.liveAt E z = true := hliveE_of z hzlo hzhi hz3
      obtain ⟨hrz, hzne, hbz⟩ := htw z hzE
      by_cases hzt : z = t
      · have htwv : (Hedge.elemAt E3 z).data.twin_index = (⟨lo, g⟩ : Hedge.Index) := by
          rw [htwin3 z, if_pos hzt]
        refine ⟨?_, ?_, ?_⟩
        · rw [htwv]; exact hres_lo
        · rw [htwv]
          show lo ≠ z
          exact fun h => hzlo h.symm
        · rw [htwv]
          show (Hedge.elemAt E3 lo).data.twin_index = Hedge.handleAt E3 z
          rw [htwin3 lo, if_neg (fun h => ht_lo h.symm), Hedge.swapPerm_lo,
            hhandle3 z hzlo hzhi, hzt]
          exact hht
      · have htwv : (Hedge.elemAt E3 z).data.twin_index =
            (Hedge.elemAt E z).data.twin_index := by
          rw [htwin3 z, if_neg hzt, hzfix]
        have hwoff_ne_hi : (Hedge.elemAt E z).data.twin_index.offset ≠ hi := by
          intro hcon
          exact hzt (huniq_twin z hzE hcon)
        have hwoff_ne_lo : (Hedge.elemAt E z).data.twin_index.offset ≠ lo := by
          have := ((Hedge.resolvesAt_iff E _).1 hrz).1
          exact hactive_of_live _ this
        refine ⟨?_, ?_, ?_⟩
        · rw [htwv]; exact hres_fix _ hwoff_ne_lo hwoff_ne_hi hrz
        · rw [htwv]; exact hzne
        · rw [htwv]
          have hwt : (Hedge.elemAt E z).data.twin_index.offset ≠ t := by
            intro hcon
            rw [hcon] at hbz
            have h := hbt.symm.trans hbz
            exact hzhi (congrArg Hedge.Index.offset h).symm
          rw [htwin3 _, if_neg hwt,
            Hedge.swapPerm_fix lo hi _ hwoff_ne_lo hwoff_ne_hi, hhandle3 z hzlo hzhi]
          exact hbz
  -- no live edge becomes its own `next`
  have hns3 : Hedge.NoSelfNext E3 := by
    intro z hz3
    have hzhi : z ≠ hi := hz_ne_hi_of_live z hz3
    by_cases hzp : z = p
    · rw [hnext3 z, if_pos hzp]
      show lo ≠ z
      omega
    · rw [hnext3 z, if_neg hzp]
      by_cases hzlo : z = lo
      · rw [hzlo, Hedge.swapPerm_lo]
        show n ≠ lo
        exact hn_lo
      · rw [Hedge.swapPerm_fix lo hi z hzlo hzhi]
        exact hns z (hliveE_of z hzlo hzhi hz3)
  -- next/prev involution survives
  have hnextside : ∀ z, Hedge.liveAt E3 z = true →
      Hedge.resolvesAt E3 (Hedge.elemAt E3 z).data.next_index = true ∧
      (Hedge.elemAt E3 (Hedge.elemAt E3 z).data.next_index.offset).data.prev_index =
        Hedge.handleAt E3 z := by
    intro z hz3
    have hzhi : z ≠ hi := hz_ne_hi_of_live z hz3
    by_cases hzp : z = p
    · have hnv : (Hedge.elemAt E3 z).data.next_index = (⟨lo, g⟩ : Hedge.Index) := by
        rw [hnext3 z, if_pos hzp]
      have hzlo : z ≠ lo := by omega
      refine ⟨by rw [hnv]; exact hres_lo, ?_⟩
      rw [hnv]
      show (Hedge.elemAt E3 lo).data.prev_index = Hedge.handleAt E3 z
      rw [hprev3 lo, if_neg (fun h => hn_lo h.symm), Hedge.swapPerm_lo,
        hhandle3 z hzlo hzhi, hzp]
      exact hhp
    · by_cases hzlo : z = lo
      · have hnv : (Hedge.elemAt E3 z).data.next_index = Hedge.handleAt E n := by
          rw [hnext3 z, if_neg hzp, hzlo, Hedge.swapPerm_lo]
          exact hhn
        refine ⟨?_, ?_⟩
        · rw [hnv]
          refine hres_fix (Hedge.handleAt E n) ?_ ?_ ?_
          · rw [Hedge.handleAt_offset]; exact hn_lo
          · rw [Hedge.handleAt_offset]; exact hn_hi
          · rw [← hhn]; exact hrn
        · rw [hnv, Hedge.handleAt_offset, hprev3 n, if_pos rfl, hzlo, hhandle3lo]
      · have hzE : Hedge.liveAt E z = true := hliveE_of z hzlo hzhi hz3
        obtain ⟨hrzn, _, hbzn, _⟩ := hnp z hzE
        have hnv : (Hedge.elemAt E3 z).data.next_index =
            (Hedge.elemAt E z).data.next_index := by
          rw [hnext3 z, if_neg hzp, Hedge.swapPerm_fix lo hi z hzlo hzhi]
        have hwoff_ne_hi : (Hedge.elemAt E z).data.next_index.offset ≠ hi := by
          intro hcon
          exact hzp (huniq_next z hzE hcon)
        have hwoff_ne_lo : (Hedge.elemAt E z).data.next_index.offset ≠ lo := by
          have := ((Hedge.resolvesAt_iff E _).1 hrzn).1
          exact hactive_of_live _ this
        refine ⟨by rw [hnv]; exact hres_fix _ hwoff_ne_lo hwoff_ne_hi hrzn, ?_⟩
        rw [hnv]
        have hwn : (Hedge.elemAt E z).data.next_index.offset ≠ n := by
          intro hcon
          rw [hcon] at hbzn
          have h := hbn.symm.trans hbzn
          exact hzhi (congrArg Hedge.Index.offset h).symm
        rw [hprev3 _, if_neg hwn,
          Hedge.swapPerm_fix lo hi _ hwoff_ne_lo hwoff_ne_hi, hhandle3 z hzlo hzhi]
        exact hbzn
  have hprevside : ∀ z, Hedge.liveAt E3 z = true →
      Hedge.resolvesAt E3 (Hedge.elemAt E3 z).data.prev_index = true ∧
      (Hedge.elemAt E3 (Hedge.elemAt E3 z).data.prev_index.offset).data.next_index =
        Hedge.handleAt E3 z := by
    intro z hz3
    have hzhi : z ≠ hi := hz_ne_hi_of_live z hz3
    by_cases hzn : z = n
    · have hpv : (Hedge.elemAt E3 z).data.prev_index = (⟨lo, g⟩ : Hedge.Index) := by
        rw [hprev3 z, if_pos hzn]
      have hzlo : z ≠ lo := by omega
      refine ⟨by rw [hpv]; exact hres_lo, ?_⟩
      rw [hpv]
      show (Hedge.elemAt E3 lo).data.next_index = Hedge.handleAt E3 z
      rw [hnext3 lo, if_neg (fun h => hp_lo h.symm), Hedge.swapPerm_lo,
        hhandle3 z hzlo hzhi, hzn]
      exact hhn
    · by_cases hzlo : z = lo
      · have hpv : (Hedge.elemAt E3 z).data.prev_index = Hedge.handleAt E p := by
          rw [hprev3 z, if_neg hzn, hzlo, Hedge.swapPerm_lo]
          exact hhp
        refine ⟨?_, ?_⟩
        · rw [hpv]
          refine hres_fix (Hedge.handleAt E p) ?_ ?_ ?_
          · rw [Hedge.handleAt_offset]; exact hp_lo
          · rw [Hedge.handleAt_offset]; exact hp_hi
          · rw [← hhp]; exact hrp
        · rw [hpv, Hedge.handleAt_offset, hnext3 p, if_pos rfl, hzlo, hhandle3lo]
      · have hzE : Hedge.liveAt E z = true := hliveE_of z hzlo hzhi hz3
        obtain ⟨_, hrzp, _, hbzp⟩ := hnp z hzE
        have hpv : (Hedge.elemAt E3 z).data.prev_index =
            (Hedge.elemAt E z).data.prev_index := by
          rw [hprev3 z, if_neg hzn, Hedge.swapPerm_fix lo hi z hzlo hzhi]
        have hwoff_ne_hi : (Hedge.elemAt E z).data.prev_index.offset ≠ hi := by
          intro hcon
          exact hzn (huniq_prev z hzE hcon)
        have hwoff_ne_lo : (Hedge.elemAt E z).data.prev_index.offset ≠ lo := by
          have := ((Hedge.resolvesAt_iff E _).1 hrzp).1
          exact hactive_of_live _ this
        refine ⟨by rw [hpv]; exact hres_fix _ hwoff_ne_lo hwoff_ne_hi hrzp, ?_⟩
        rw [hpv]
        have hwp : (Hedge.elemAt E z).data.prev_index.offset ≠ p := by
          intro hcon
          rw [hcon] at hbzp
          have h := hbp.symm.trans hbzp
          exact hzhi (congrArg Hedge.Index.offset h).symm
        rw [hnext3 _, if_neg hwp,
          Hedge.swapPerm_fix lo hi _ hwoff_ne_lo hwoff_ne_hi, hhandle3 z hzlo hzhi]
        exact hbzp
  have hnp3 : Hedge.NextPrevInvolution E3 := by
    intro z hz3
    obtain ⟨ha1, ha2⟩ := hnextside z hz3
    obtain ⟨hb1, hb2⟩ := hprevside z hz3
    exact ⟨ha1, hb1, ha2, hb2⟩
  -- face-loop closure survives
  set F := st.fbuf with hFdef
  set F1 := Hedge.redirectFaceRoot F ehi.data.face_index ⟨lo, g⟩ hi with hF1def
  have hhandleF1 : ∀ o, Hedge.handleAt F1 o = Hedge.handleAt F o := by
    intro o
    rw [hF1def]
    exact Hedge.redirectFaceRoot_handle F _ _ hi o
  have hflo3 : Hedge.FaceLoopsOK E3 F1 := by
    intro o ho1
    have hoF : Hedge.liveAt F o = true := by
      rw [hF1def, Hedge.redirectFaceRoot_live] at ho1
      exact ho1
    obtain ⟨l, ⟨hlne, hlnd, hllive, hlroot, hlnext⟩, hlface⟩ := hflo o hoF
    have hlen_pos : 0 < l.length := List.length_pos.2 hlne
    have hl_ne_lo : ∀ x ∈ l, x ≠ lo := fun x hx => hactive_of_live x (hllive x hx)
    by_cases hhil : hi ∈ l
    case neg =>
      have hl_ne_hi : ∀ x ∈ l, x ≠ hi := fun x hx hc => hhil (hc ▸ hx)
      have hpnotin : p ∉ l := by
        intro hpmem
        obtain ⟨j, hj, hjv⟩ := Hedge.mem_getD_pos hpmem
        have hnj := hlnext j hj
        rw [hjv] at hnj
        by_cases hlast : j + 1 = l.length
        · rw [if_pos hlast] at hnj
          have h := hnj.symm.trans hbp
          rw [hlroot] at h
          have hoff : l.getD 0 0 = hi := congrArg Hedge.Index.offset h
          exact hhil (hoff ▸ Hedge.getD_mem hlen_pos)
        · rw [if_neg hlast] at hnj
          have h := hnj.symm.trans hbp
          have hoff : l.getD (j + 1) 0 = hi := congrArg Hedge.Index.offset h
          exact hhil (hoff ▸ Hedge.getD_mem (by omega))
      have hrootoff : (Hedge.elemAt F o).data.edge_index.offset ≠ hi := by
        rw [hlroot, Hedge.handleAt_offset]
        exact hl_ne_hi _ (Hedge.getD_mem hlen_pos)
      have hFo : Hedge.elemAt F1 o = Hedge.elemAt F o := by
        rw [hF1def]
        exact Hedge.redirectFaceRoot_elem_ne F _ _ hi o hrootoff
      refine ⟨l, ⟨hlne, hlnd, ?_, ?_, ?_⟩, ?_⟩
      · intro x hx
        rw [hlive3 x, Hedge.swapPerm_fix lo hi x (hl_ne_lo x hx) (hl_ne_hi x hx)]
        exact hllive x hx
      · rw [hFo, hlroot,
          hhandle3 _ (hl_ne_lo _ (Hedge.getD_mem hlen_pos)) (hl_ne_hi _ (Hedge.getD_mem hlen_pos))]
      · intro i hi2
        have hxm := Hedge.getD_mem (l := l) (by omega : i < l.length)
        have hxlo := hl_ne_lo _ hxm
        have hxhi := hl_ne_hi _ hxm
        have hxp : l.getD i 0 ≠ p := fun hc => hpnotin (hc ▸ hxm)
        rw [hnext3 (l.getD i 0), if_neg hxp, Hedge.swapPerm_fix lo hi _ hxlo hxhi,
          hlnext i hi2]
        by_cases hlast : i + 1 = l.length
        · rw [if_pos hlast, if_pos hlast, hFo]
        · rw [if_neg hlast, if_neg hlast,
            hhandle3 _ (hl_ne_lo _ (Hedge.getD_mem (by omega))) (hl_ne_hi _ (Hedge.getD_mem (by omega)))]
      · intro x hx
        rw [hface3 x, Hedge.swapPerm_fix lo hi x (hl_ne_lo x hx) (hl_ne_hi x hx),
          hlface x hx, hhandleF1]
    case pos =>
      obtain ⟨j, hjlen, hjv⟩ := Hedge.mem_getD_pos hhil
      have hlen2 : 2 ≤ l.length := by
        by_contra hc
        have hl1 : l.length = 1 := by omega
        have hx := hlnext j hjlen
        rw [hjv, if_pos (by omega), hlroot] at hx
        have hoff : n = l.getD 0 0 := congrArg Hedge.Index.offset hx
        have hj0 : j = 0 := by omega
        rw [hj0] at hjv
        rw [hjv] at hoff
        exact hn_hi hoff
      set jp := if j = 0 then l.length - 1 else j - 1 with hjp_def
      have hjplen : jp < l.length := by rw [hjp_def]; split_ifs <;> omega
      have hjpne : jp ≠ j := by rw [hjp_def]; split_ifs <;> omega
      have hpred : l.getD jp 0 = p := by
        have hnjp := hlnext jp hjplen
        have hrhs : (if jp + 1 = l.length then (Hedge.elemAt F o).data.edge_index
            else Hedge.handleAt E (l.getD (jp + 1) 0)) = Hedge.handleAt E hi := by
          by_cases hj0 : j = 0
          · rw [if_pos (by rw [hjp_def, if_pos hj0]; omega), hlroot]
            have hjv0 := hjv
            rw [hj0] at hjv0
            rw [hjv0]
          · rw [if_neg (by rw [hjp_def, if_neg hj0]; omega)]
            have hx : jp + 1 = j := by rw [hjp_def, if_neg hj0]; omega
            rw [hx, hjv]
        rw [hrhs] at hnjp
        have hlive_jp : Hedge.liveAt E (l.getD jp 0) = true :=
          hllive _ (Hedge.getD_mem hjplen)
        apply huniq_next _ hlive_jp
        rw [hnjp, Hedge.handleAt_offset]
      have huniq_pos : ∀ i, i < l.length → l.getD i 0 = hi → i = j :=
        fun i hi2 hv => Hedge.nodup_getD_inj hlnd hi2 hjlen (hv.trans hjv.symm)
      set lB := l.set j lo with hlBdef
      have hlBlen : lB.length = l.length := by rw [hlBdef, List.length_set]
      have hlBget : ∀ i, i < l.length → lB.getD i 0 = if i = j then lo else l.getD i 0 :=
        fun i hi2 => hlBdef ▸ Hedge.getD_set_nat l j lo i hjlen
      have hlonotin : lo ∉ l := fun hc => (hl_ne_lo lo hc) rfl
      have hlBnd : lB.Nodup := hlBdef ▸ Hedge.nodup_set_of_not_mem hlonotin hlnd
      have hlBne : lB ≠ [] := by
        intro hc
        have hx : l.length = 0 := by
          rw [← hlBlen, hc]
          rfl
        omega
      have hlBel : ∀ i, i < l.length → i ≠ j →
          lB.getD i 0 = l.getD i 0 ∧ l.getD i 0 ≠ hi ∧ l.getD i 0 ≠ lo := by
        intro i hi2 hij
        refine ⟨by rw [hlBget i hi2, if_neg hij], ?_, hl_ne_lo _ (Hedge.getD_mem hi2)⟩
        intro hc
        exact hij (huniq_pos i hi2 hc)
      have hroot'c : (Hedge.elemAt F1 o).data.edge_index =
          (if j = 0 then (⟨lo, g⟩ : Hedge.Index) else Hedge.handleAt E (l.getD 0 0)) := by
        by_cases hj0 : j = 0
        · rw [if_pos hj0]
          have hl0 : l.getD 0 0 = hi := by
            have hjv0 := hjv
            rw [hj0] at hjv0
            exact hjv0
          have hfhi : ehi.data.face_index = Hedge.handleAt F o := hlface hi hhil
          have hbf : Hedge.bufGet F ehi.data.face_index = some (Hedge.elemAt F o) := by
            rw [hfhi]
            refine Hedge.bufGet_eq_some F _ ?_ (Or.inr ?_)
            · rw [Hedge.handleAt_offset]; exact hoF
            · rw [Hedge.handleAt_offset, Hedge.handleAt_generation]
          have hcond : (Hedge.elemAt F o).data.edge_index.offset = hi := by
            rw [hlroot, Hedge.handleAt_offset, hl0]
          have hF1eq : F1 = F.set (ehi.data.face_index).offset
              { Hedge.elemAt F o with
                data := { (Hedge.elemAt F o).data with edge_index := ⟨lo, g⟩ } } := by
            rw [hF1def]
            exact Hedge.redirectFaceRoot_fire _ hi hbf hcond
          have hfo_off : ehi.data.face_index.offset = o := by
            rw [hfhi, Hedge.handleAt_offset]
          have hoFlen : o < F.length := ((Hedge.liveAt_iff F o).1 hoF).2.1
          rw [hF1eq, Hedge.elemAt_set, hfo_off, if_pos ⟨rfl, hoFlen⟩]
        · rw [if_neg hj0]
          have hrootoff : (Hedge.elemAt F o).data.edge_index.offset ≠ hi := by
            rw [hlroot, Hedge.handleAt_offset]
            intro hc
            exact hj0 (huniq_pos 0 (by omega) hc).symm
          have hFo : Hedge.elemAt F1 o = Hedge.elemAt F o := by
            rw [hF1def]
            exact Hedge.redirectFaceRoot_elem_ne F _ _ hi o hrootoff
          rw [hFo, hlroot]
      refine ⟨lB, ⟨hlBne, hlBnd, ?_, ?_, ?_⟩, ?_⟩
      · -- liveness along the relocated loop
        intro x hx
        obtain ⟨i, hi2', hiv⟩ := Hedge.mem_getD_pos hx
        rw [hlBlen] at hi2'
        by_cases hij : i = j
        · have hxv : x = lo := by rw [← hiv, hlBget i hi2', if_pos hij]
          rw [hxv, hlive3 lo, Hedge.swapPerm_lo]
          exact hlive_hi
        · obtain ⟨he1, he2, he3⟩ := hlBel i hi2' hij
          have hxv : x = l.getD i 0 := by rw [← hiv, he1]
          rw [hxv, hlive3 _, Hedge.swapPerm_fix lo hi _ he3 he2]
          exact hllive _ (Hedge.getD_mem hi2')
      · -- the stored root names the loop head
        rw [hroot'c]
        by_cases hj0 : j = 0
        · rw [if_pos hj0]
          have hx : lB.getD 0 0 = lo := by
            rw [hlBget 0 (by omega), if_pos hj0.symm]
          rw [hx, hhandle3lo]
        · rw [if_neg hj0]
          obtain ⟨he1, he2, he3⟩ := hlBel 0 (by omega) (fun hc => hj0 hc.symm)
          rw [he1, hhandle3 _ he3 he2]
      · -- the next-chain of the relocated loop
        intro i hi2
        rw [hlBlen] at hi2
        by_cases hij : i = j
        · have hxv : lB.getD i 0 = lo := by rw [hlBget i hi2, if_pos hij]
          rw [hxv, hnext3 lo, if_neg (fun h => hp_lo h.symm), Hedge.swapPerm_lo]
          have hnj := hlnext j hjlen
          rw [hjv] at hnj
          by_cases hlast : i + 1 = lB.length
          · rw [if_pos hlast]
            have hj1 : j + 1 = l.length := by rw [← hij, ← hlBlen]; exact hlast
            have hj0 : ¬ j = 0 := by omega
            rw [if_pos hj1] at hnj
            rw [hroot'c, if_neg hj0, ← hlroot]
            exact hnj
          · rw [if_neg hlast]
            have hj1 : ¬ j + 1 = l.length := by rw [← hij, ← hlBlen]; exact hlast
            rw [if_neg hj1] at hnj
            have hij1 : i + 1 ≠ j := by omega
            obtain ⟨he1, he2, he3⟩ := hlBel (i + 1) (by rw [hlBlen] at hlast; omega) hij1
            rw [he1, hhandle3 _ he3 he2, hij]
            exact hnj
        · obtain ⟨he1, he2, he3⟩ := hlBel i hi2 hij
          rw [he1]
          by_cases hijp : i = jp
          · have hxp : l.getD i 0 = p := by rw [hijp]; exact hpred
            rw [hxp, hnext3 p, if_pos rfl]
            by_cases hlast : i + 1 = lB.length
            · rw [if_pos hlast]
              have hj0 : j = 0 := by
                by_contra hc
                rw [hjp_def, if_neg hc] at hijp
                omega
              rw [hroot'c, if_pos hj0]
            · rw [if_neg hlast]
              have hj0 : ¬ j = 0 := by
                intro hc
                rw [hjp_def, if_pos hc] at hijp
                rw [hlBlen] at hlast
                omega
              have hij1 : i + 1 = j := by
                rw [hjp_def, if_neg hj0] at hijp
                omega
              rw [hlBget (i + 1) (by omega), if_pos hij1, hhandle3lo]
          · have hxp : l.getD i 0 ≠ p := by
              intro hc
              exact hijp (Hedge.nodup_getD_inj hlnd hi2 hjplen (hc.trans hpred.symm))
            rw [hnext3 _, if_neg hxp, Hedge.swapPerm_fix lo hi _ he3 he2,
              hlnext i hi2]
            by_cases hlast : i + 1 = lB.length
            · have hlast2 : i + 1 = l.length := by rw [← hlBlen]; exact hlast
              rw [if_pos hlast, if_pos hlast2]
              have hj0 : ¬ j = 0 := by
                intro hc
                apply hijp
                rw [hjp_def, if_pos hc]
                omega
              rw [hroot'c, if_neg hj0, hlroot]
            · have hlast2 : ¬ i + 1 = l.length := by rw [← hlBlen]; exact hlast
              rw [if_neg hlast, if_neg hlast2]
              have hij1 : i + 1 ≠ j := by
                intro hc
                apply hijp
                rw [hjp_def, if_neg (by omega)]
                omega
              obtain ⟨hf1, hf2, hf3⟩ := hlBel (i + 1) (by omega) hij1
              rw [hf1, hhandle3 _ hf3 hf2]
      · -- every edge of the relocated loop carries the face's handle
        intro x hx
        obtain ⟨i, hi2', hiv⟩ := Hedge.mem_getD_pos hx
        rw [hlBlen] at hi2'
        rw [hhandleF1]
        by_cases hij : i = j
        · have hxv : x = lo := by rw [← hiv, hlBget i hi2', if_pos hij]
          rw [hxv, hface3 lo, Hedge.swapPerm_lo]
          exact hlface hi hhil
        · obtain ⟨he1, he2, he3⟩ := hlBel i hi2' hij
          have hxv : x = l.getD i 0 := by rw [← hiv, he1]
          rw [hxv, hface3 _, Hedge.swapPerm_fix lo hi _ he3 he2]
          exact hlface _ (Hedge.getD_mem hi2')
  -- the swap permutes statuses; counts are unchanged
  have hc_swap : E0.countP (fun e => e.is_active) = E.countP (fun e => e.is_active) := by
    have hE0eq : E0 = (E.set lo ehi).set hi (Hedge.elemAt E lo) := rfl
    have s1 := Hedge.countP_set (fun e : Hedge.Edge => e.is_active) E lo ehi hlolen
    have hlen_set : hi < (E.set lo ehi).length := by rw [List.length_set]; exact hhilen
    have s2 := Hedge.countP_set (fun e : Hedge.Edge => e.is_active) (E.set lo ehi) hi (Hedge.elemAt E lo) hlen_set
    have hget2 : (E.set lo ehi).get ⟨hi, hlen_set⟩ = ehi := by
      have hx := List.getElem_set_ne (l := E) (i := lo) (j := hi) (by omega) (a := ehi) hlen_set
      exact hx.trans (Hedge.elemAt_eq_get hhilen).symm
    have hget1 : E.get ⟨lo, hlolen⟩ = (Hedge.elemAt E lo) := (Hedge.elemAt_eq_get hlolen).symm
    rw [hget1] at s1
    rw [hget2] at s2
    rw [hE0eq]
    omega
  have hc1 : E1.countP (fun e => e.is_active) = E0.countP (fun e => e.is_active) := by
    have hnlen0 : n < E0.length := by omega
    have s3 := Hedge.countP_set (fun e : Hedge.Edge => e.is_active) E0 n A1 hnlen0
    have hqA1 : A1.is_active = (Hedge.elemAt E0 n).is_active := rfl
    have hgetn : E0.get ⟨n, hnlen0⟩ = Hedge.elemAt E0 n := (Hedge.elemAt_eq_get hnlen0).symm
    rw [hgetn, hqA1] at s3
    rw [hE1_def]
    omega
  have hc2 : E2.countP (fun e => e.is_active) = E1.countP (fun e => e.is_active) := by
    have hplen1 : p < E1.length := by omega
    have s3 := Hedge.countP_set (fun e : Hedge.Edge => e.is_active) E1 p A2 hplen1
    have hqA2 : A2.is_active = (Hedge.elemAt E1 p).is_active := rfl
    have hgetp : E1.get ⟨p, hplen1⟩ = Hedge.elemAt E1 p := (Hedge.elemAt_eq_get hplen1).symm
    rw [hgetp, hqA2] at s3
    rw [hE2_def]
    omega
  have hc3 : E3.countP (fun e => e.is_active) = E2.countP (fun e => e.is_active) := by
    have htlen2 : t < E2.length := by omega
    have s3 := Hedge.countP_set (fun e : Hedge.Edge => e.is_active) E2 t A3 htlen2
    have hqA3 : A3.is_active = (Hedge.elemAt E2 t).is_active := rfl
    have hgett : E2.get ⟨t, htlen2⟩ = Hedge.elemAt E2 t := (Hedge.elemAt_eq_get htlen2).symm
    rw [hgett, hqA3] at s3
    rw [hE3_def]
    omega
  have hcount : E3.countP (fun e => e.is_active) = E.countP (fun e => e.is_active) := by
    rw [hc3, hc2, hc1, hc_swap]
  -- the sentinel slot is untouched
  have hsent0 : Hedge.elemAt E3 0 = Hedge.elemAt E 0 := by
    have h3 : Hedge.elemAt E3 0 = Hedge.elemAt E2 0 := by
      rw [hE3_def, Hedge.elemAt_set, if_neg (fun hh => (by omega : (0 : Nat) ≠ t) hh.1)]
    have h2 : Hedge.elemAt E2 0 = Hedge.elemAt E1 0 := by
      rw [hE2_def, Hedge.elemAt_set, if_neg (fun hh => (by omega : (0 : Nat) ≠ p) hh.1)]
    have h1 : Hedge.elemAt E1 0 = Hedge.elemAt E0 0 := by
      rw [hE1_def, Hedge.elemAt_set, if_neg (fun hh => (by omega : (0 : Nat) ≠ n) hh.1)]
    have h0 : Hedge.elemAt E0 0 = Hedge.elemAt E 0 := by
      rw [hswap 0, Hedge.swapPerm_fix lo hi 0 (by omega) (by omega)]
    rw [h3, h2, h1, h0]
  refine ⟨?_, ?_, ?_, ?_, ?_, ?_, ?_, ?_⟩
  · rw [hstep_e]; exact htw3
  · rw [hstep_e]; exact hnp3
  · rw [hstep_e]; exact hns3
  · rw [hstep_e, hstep_f]; exact hflo3
  · rw [hstep_e]; exact hlen3
  · intro z
    rw [hstep_e]
    unfold Hedge.MeshElement.is_active
    rw [hstat3 z]
  · rw [hstep_e]; exact hsent0
  · rw [hstep_e]; exact hcount


/-! ### The swap loop of `defrag_edges` and the final truncation -/

theorem Hedge.countP_cons_decomp {D : Type} [Inhabited D] (q : Hedge.MeshElement D → Bool)
    (B : List (Hedge.MeshElement D)) (hB : 0 < B.length) :
    B.countP q = (if q (Hedge.elemAt B 0) then 1 else 0) + (B.drop 1).countP q := by
  match B with
  | [] => simp at hB
  | b :: t =>
    rw [List.countP_cons]
    have h0 : Hedge.elemAt (b :: t) 0 = b := by
      unfold Hedge.elemAt
      rw [List.getElem?_cons_zero]
      rfl
    rw [h0]
    have h1 : (b :: t).drop 1 = t := rfl
    rw [h1]
    omega

theorem Hedge.nextSwapPair_none_partition {D : Type} [Inhabited D]
    {B : List (Hedge.MeshElement D)} (hnone : Hedge.nextSwapPair B = none) :
    ∀ o, Hedge.liveAt B o = true ↔
      1 ≤ o ∧ o ≤ (B.drop 1).countP (fun e => e.is_active) := by
  intro o
  constructor
  · intro ho
    obtain ⟨ho1, ho2, ho3⟩ := (Hedge.liveAt_iff B o).1 ho
    refine ⟨ho1, ?_⟩
    refine Hedge.countP_ge_of_prefix _ (B.drop 1) o (by simp; omega) ?_
    intro i h hik
    have hlt : 1 + i < B.length := by
      simp at h
      omega
    have he : (B.drop 1).get ⟨i, h⟩ = Hedge.elemAt B (1 + i) := by
      rw [Hedge.elemAt_eq_get hlt]
      exact List.getElem_drop B
    rw [he]
    exact Hedge.nextSwapPair_none hnone (1 + i) o (by omega) (by omega) ho2 ho3
  · intro ⟨ho1, ho2⟩
    have hAle : (B.drop 1).countP (fun e => e.is_active) ≤ B.length - 1 := by
      have := List.countP_le_length (p := fun (e : Hedge.MeshElement D) => e.is_active)
        (l := B.drop 1)
      simpa using this
    have holen : o < B.length := by omega
    rw [Hedge.liveAt_iff]
    refine ⟨ho1, holen, ?_⟩
    by_contra hc
    have hinact : ∀ a, o ≤ a → a < B.length → (Hedge.elemAt B a).is_active = false := by
      intro a ha1 ha2
      cases hq : (Hedge.elemAt B a).is_active
      · rfl
      · exact absurd (Hedge.nextSwapPair_none hnone o a ho1 ha1 ha2 hq) hc
    have hle : (B.drop 1).countP (fun e => e.is_active) ≤ o - 1 := by
      refine Hedge.countP_le_of_suffix _ (B.drop 1) (o - 1) ?_
      intro i h hik
      have hlt : 1 + i < B.length := by
        simp at h
        omega
      have he : (B.drop 1).get ⟨i, h⟩ = Hedge.elemAt B (1 + i) := by
        rw [Hedge.elemAt_eq_get hlt]
        exact List.getElem_drop B
      rw [he]
      exact hinact (1 + i) (by omega) hlt
    omega

theorem Hedge.invariants_take (E : List Hedge.Edge) (F : List Hedge.Face) (A : Nat)
    (hpart : ∀ o, Hedge.liveAt E o = true ↔ 1 ≤ o ∧ o ≤ A)
    (hAlen : A + 1 ≤ E.length)
    (htw : Hedge.TwinInvolution E) (hnp : Hedge.NextPrevInvolution E)
    (hflo : Hedge.FaceLoopsOK E F) :
    Hedge.TwinInvolution (E.take (A + 1)) ∧
    Hedge.NextPrevInvolution (E.take (A + 1)) ∧
    Hedge.FaceLoopsOK (E.take (A + 1)) F := by
  have hTlen : (E.take (A + 1)).length = A + 1 := by
    rw [List.length_take]
    omega
  have helem : ∀ o, o ≤ A → Hedge.elemAt (E.take (A + 1)) o = Hedge.elemAt E o := by
    intro o ho
    unfold Hedge.elemAt
    rw [List.getElem?_take, if_pos (by omega)]
  have hliveT : ∀ o, Hedge.liveAt (E.take (A + 1)) o = true ↔ Hedge.liveAt E o = true := by
    intro o
    constructor
    · intro h
      obtain ⟨h1, h2, h3⟩ := (Hedge.liveAt_iff _ o).1 h
      rw [hTlen] at h2
      rw [helem o (by omega)] at h3
      exact (Hedge.liveAt_iff E o).2 ⟨h1, by omega, h3⟩
    · intro h
      obtain ⟨h1, h2, h3⟩ := (Hedge.liveAt_iff E o).1 h
      have hoA : o ≤ A := ((hpart o).1 h).2
      exact (Hedge.liveAt_iff _ o).2 ⟨h1, by omega, by rw [helem o hoA]; exact h3⟩
  have hhandleT : ∀ o, o ≤ A → Hedge.handleAt (E.take (A + 1)) o = Hedge.handleAt E o := by
    intro o ho
    unfold Hedge.handleAt
    rw [helem o ho]
  have hresT : ∀ i, Hedge.resolvesAt E i = true → Hedge.resolvesAt (E.take (A + 1)) i = true := by
    intro i h
    obtain ⟨h1, h2, h3⟩ := (Hedge.resolvesAt_iff E i).1 h
    have hoA : i.offset ≤ A := ((hpart i.offset).1 h1).2
    rw [Hedge.resolvesAt_iff]
    exact ⟨(hliveT i.offset).2 h1, by rw [hhandleT i.offset hoA]; exact h2, h3⟩
  refine ⟨?_, ?_, ?_⟩
  · intro z hz
    have hzE : Hedge.liveAt E z = true := (hliveT z).1 hz
    have hzA : z ≤ A := ((hpart z).1 hzE).2
    obtain ⟨h1, h2, h3⟩ := htw z hzE
    have htA : (Hedge.elemAt E z).data.twin_index.offset ≤ A :=
      ((hpart _).1 ((Hedge.resolvesAt_iff E _).1 h1).1).2
    rw [helem z hzA]
    exact ⟨hresT _ h1, h2, by rw [helem _ htA, hhandleT z hzA]; exact h3⟩
  · intro z hz
    have hzE : Hedge.liveAt E z = true := (hliveT z).1 hz
    have hzA : z ≤ A := ((hpart z).1 hzE).2
    obtain ⟨h1, h2, h3, h4⟩ := hnp z hzE
    have hnA : (Hedge.elemAt E z).data.next_index.offset ≤ A :=
      ((hpart _).1 ((Hedge.resolvesAt_iff E _).1 h1).1).2
    have hpA : (Hedge.elemAt E z).data.prev_index.offset ≤ A :=
      ((hpart _).1 ((Hedge.resolvesAt_iff E _).1 h2).1).2
    rw [helem z hzA]
    exact ⟨hresT _ h1, hresT _ h2,
      by rw [helem _ hnA, hhandleT z hzA]; exact h3,
      by rw [helem _ hpA, hhandleT z hzA]; exact h4⟩
  · intro o ho
    obtain ⟨l, ⟨hlne, hlnd, hllive, hlroot, hlnext⟩, hlface⟩ := hflo o ho
    have hlA : ∀ x ∈ l, x ≤ A := fun x hx => ((hpart x).1 (hllive x hx)).2
    refine ⟨l, ⟨hlne, hlnd, ?_, ?_, ?_⟩, ?_⟩
    · intro x hx
      exact (hliveT x).2 (hllive x hx)
    · rw [hhandleT _ (hlA _ (Hedge.getD_mem (List.length_pos.2 hlne)))]
      exact hlroot
    · intro i hi
      rw [helem _ (hlA _ (Hedge.getD_mem (by omega)))]
      rw [hlnext i hi]
      by_cases hlast : i + 1 = l.length
      · rw [if_pos hlast, if_pos hlast]
      · rw [if_neg hlast, if_neg hlast,
          hhandleT _ (hlA _ (Hedge.getD_mem (by omega)))]
    · intro x hx
      rw [helem _ (hlA x hx)]
      exact hlface x hx

/-- The swap loop of `defrag_edges`, run with enough fuel, reaches the
fully partitioned state while preserving the topological invariants, the
buffer length, the sentinel and the active count. -/
theorem Hedge.defragEdgesLoop_inv :
    ∀ (fuel : Nat) (st : Hedge.EdgeSwapState),
    Hedge.TwinInvolution st.ebuf → Hedge.NextPrevInvolution st.ebuf →
    Hedge.NoSelfNext st.ebuf → Hedge.FaceLoopsOK st.ebuf st.fbuf →
    (∀ lo hi, Hedge.nextSwapPair st.ebuf = some (lo, hi) → st.ebuf.length - lo ≤ fuel) →
    Hedge.TwinInvolution (Hedge.defragEdgesLoop fuel st).ebuf ∧
    Hedge.NextPrevInvolution (Hedge.defragEdgesLoop fuel st).ebuf ∧
    Hedge.NoSelfNext (Hedge.defragEdgesLoop fuel st).ebuf ∧
    Hedge.FaceLoopsOK (Hedge.defragEdgesLoop fuel st).ebuf (Hedge.defragEdgesLoop fuel st).fbuf ∧
    (Hedge.defragEdgesLoop fuel st).ebuf.length = st.ebuf.length ∧
    Hedge.elemAt (Hedge.defragEdgesLoop fuel st).ebuf 0 = Hedge.elemAt st.ebuf 0 ∧
    (Hedge.defragEdgesLoop fuel st).ebuf.countP (fun e => e.is_active) =
      st.ebuf.countP (fun e => e.is_active) ∧
    Hedge.nextSwapPair (Hedge.defragEdgesLoop fuel st).ebuf = none := by
  intro fuel
  induction fuel with
  | zero =>
    intro st htw hnp hns hflo hfuel
    have hnone : Hedge.nextSwapPair st.ebuf = none := by
      cases hp : Hedge.nextSwapPair st.ebuf with
      | none => rfl
      | some pr =>
        obtain ⟨lo, hi⟩ := pr
        obtain ⟨h1, h2, h3, _⟩ := Hedge.nextSwapPair_some hp
        have := hfuel lo hi hp
        omega
    have hid : Hedge.defragEdgesLoop 0 st = st := rfl
    rw [hid]
    exact ⟨htw, hnp, hns, hflo, rfl, rfl, rfl, hnone⟩
  | succ fuel ih =>
    intro st htw hnp hns hflo hfuel
    cases hp : Hedge.nextSwapPair st.ebuf with
    | none =>
      have hid : Hedge.defragEdgesLoop (fuel + 1) st = st := by
        rw [Hedge.defragEdgesLoop, hp]
      rw [hid]
      exact ⟨htw, hnp, hns, hflo, rfl, rfl, rfl, hp⟩
    | some pr =>
      obtain ⟨lo, hi⟩ := pr
      obtain ⟨i1, i2, i3, i4, i5, i6, i7, i8⟩ := Hedge.edgeSwapStep_inv st lo hi hp htw hnp hns hflo
      obtain ⟨hlo1, hlohi, hhilen, hloin, hhiact, hpre, hsuf⟩ := Hedge.nextSwapPair_some hp
      have hstep : Hedge.defragEdgesLoop (fuel + 1) st =
          Hedge.defragEdgesLoop fuel (Hedge.edgeSwapStep st lo hi) := by
        rw [Hedge.defragEdgesLoop, hp]
      have hpref : ∀ o, 1 ≤ o → o ≤ lo →
          (Hedge.elemAt (Hedge.edgeSwapStep st lo hi).ebuf o).is_active = true := by
        intro o ho1 ho2
        rw [i6 o]
        by_cases holo : o = lo
        · rw [holo, Hedge.swapPerm_lo]
          exact hhiact
        · rw [Hedge.swapPerm_fix lo hi o holo (by omega)]
          exact hpre o ho1 (by omega)
      have hfuelB : ∀ lo' hi',
          Hedge.nextSwapPair (Hedge.edgeSwapStep st lo hi).ebuf = some (lo', hi') →
          (Hedge.edgeSwapStep st lo hi).ebuf.length - lo' ≤ fuel := by
        intro lo' hi' hp'
        obtain ⟨hl1, hl2, hl3, hl4, _⟩ := Hedge.nextSwapPair_some hp'
        have hlo'gt : lo < lo' := by
          by_contra hc
          rw [hpref lo' hl1 (by omega)] at hl4
          cases hl4
        have := hfuel lo hi hp
        rw [i5]
        omega
      obtain ⟨j1, j2, j3, j4, j5, j6, j7, j8⟩ :=
        ih (Hedge.edgeSwapStep st lo hi) i1 i2 i3 i4 hfuelB
      rw [hstep]
      exact ⟨j1, j2, j3, j4, j5.trans i5, j6.trans i7, j7.trans i8, j8⟩


theorem Hedge.bufferConsistent_edge_transfer (b1 b2 : Hedge.ElementBuffer Hedge.EdgeData)
    (hfree : b2.free_cells = b1.free_cells)
    (hsc : Hedge.SameCore b1.buffer b2.buffer)
    (hb : Hedge.BufferConsistent b1) : Hedge.BufferConsistent b2 := by
  obtain ⟨he1, he2, he3⟩ := hb
  refine ⟨?_, ?_, ?_⟩
  · intro hcon
    have hl := hsc.1
    rw [hcon] at hl
    exact he1 (List.eq_nil_of_length_eq_zero (by simpa using hl.symm))
  · intro e he
    have h0 : 0 < b1.buffer.length := List.length_pos.2 he1
    have h0' : 0 < b2.buffer.length := by rw [hsc.1]; exact h0
    have he' : Hedge.elemAt b2.buffer 0 = e := by
      have hx := Hedge.elemAt_of_lt h0'
      rw [he] at hx
      exact (Option.some.inj hx).symm
    have hs := (hsc.2 0).1
    rw [he'] at hs
    rw [hs]
    exact he2 _ (Hedge.elemAt_of_lt h0)
  · rw [hfree, he3]
    exact (Hedge.inactiveCount_congr hsc.1.symm (fun o => Hedge.isActive_sameCore hsc o)).symm

/-- `Kernel::defrag_edges` preserves twin/next-prev involutions and
face-loop closure (under free-list consistency and the no-self-`next`
side condition). -/
theorem Hedge.defrag_edges_topo (k : Hedge.Kernel)
    (hbe : Hedge.BufferConsistent k.edge_buffer)
    (htw : Hedge.TwinInvolution k.edge_buffer.buffer)
    (hnp : Hedge.NextPrevInvolution k.edge_buffer.buffer)
    (hns : Hedge.NoSelfNext k.edge_buffer.buffer)
    (hflo : Hedge.FaceLoopsOK k.edge_buffer.buffer k.face_buffer.buffer) :
    Hedge.TwinInvolution k.defrag_edges.edge_buffer.buffer ∧
    Hedge.NextPrevInvolution k.defrag_edges.edge_buffer.buffer ∧
    Hedge.FaceLoopsOK k.defrag_edges.edge_buffer.buffer k.defrag_edges.face_buffer.buffer := by
  by_cases hgate : k.edge_buffer.has_inactive_cells = true
  case neg =>
    have hkd : k.defrag_edges = k := by
      unfold Hedge.Kernel.defrag_edges
      rw [if_neg hgate]
    rw [hkd]
    exact ⟨htw, hnp, hflo⟩
  case pos =>
  set st0 : Hedge.EdgeSwapState :=
    ⟨k.edge_buffer.buffer, k.face_buffer.buffer, k.vertex_buffer.buffer⟩ with hst0
  have hst0e : st0.ebuf = k.edge_buffer.buffer := rfl
  have hfuelc : ∀ lo hi, Hedge.nextSwapPair st0.ebuf = some (lo, hi) →
      st0.ebuf.length - lo ≤ k.edge_buffer.buffer.length := by
    intro lo hi hp
    obtain ⟨h1, h2, h3, _⟩ := Hedge.nextSwapPair_some hp
    rw [hst0e] at h3
    rw [hst0e]
    omega
  obtain ⟨j1, j2, j3, j4, j5, j6, j7, j8⟩ :=
    Hedge.defragEdgesLoop_inv k.edge_buffer.buffer.length st0 htw hnp hns hflo hfuelc
  set stf := Hedge.defragEdgesLoop k.edge_buffer.buffer.length st0 with hstf
  rw [hst0e] at j5 j6 j7
  have hkd : k.defrag_edges = { k with
      edge_buffer := ⟨[], stf.ebuf.take (stf.ebuf.length - k.edge_buffer.free_cells.length)⟩,
      face_buffer := { k.face_buffer with buffer := stf.fbuf },
      vertex_buffer := { k.vertex_buffer with buffer := stf.vbuf } } := by
    unfold Hedge.Kernel.defrag_edges
    rw [if_pos hgate]
    rfl
  have hE0pos : 0 < k.edge_buffer.buffer.length := List.length_pos.2 hbe.1
  have hstfpos : 0 < stf.ebuf.length := by rw [j5]; exact hE0pos
  have hdecomp_st := Hedge.countP_cons_decomp (fun e => e.is_active) stf.ebuf hstfpos
  have hdecomp_E := Hedge.countP_cons_decomp (fun e => e.is_active) k.edge_buffer.buffer hE0pos
  rw [j6] at hdecomp_st
  have hcnt_drop : (stf.ebuf.drop 1).countP (fun e => e.is_active) =
      ((k.edge_buffer.buffer.drop 1)).countP (fun e => e.is_active) := by
    rw [j7] at hdecomp_st
    have h := hdecomp_st.symm.trans hdecomp_E
    exact Nat.add_left_cancel h
  have hfree_len : k.edge_buffer.free_cells.length =
      (k.edge_buffer.buffer.drop 1).length -
        (k.edge_buffer.buffer.drop 1).countP (fun e => e.is_active) := by
    have h1 := hbe.2.2
    have h2 := length_filter_add_length_filter_not (k.edge_buffer.buffer.drop 1)
      (fun e => e.is_active)
    rw [← List.countP_eq_length_filter] at h2
    omega
  have hcntE_le : (k.edge_buffer.buffer.drop 1).countP (fun e => e.is_active) ≤
      (k.edge_buffer.buffer.drop 1).length := List.countP_le_length _
  have hdlen : (k.edge_buffer.buffer.drop 1).length = k.edge_buffer.buffer.length - 1 := by
    simp
  have htrunc_idx : stf.ebuf.length - k.edge_buffer.free_cells.length =
      (stf.ebuf.drop 1).countP (fun e => e.is_active) + 1 := by
    rw [hcnt_drop, hfree_len, j5]
    omega
  have hpart := Hedge.nextSwapPair_none_partition j8
  have hAlen : (stf.ebuf.drop 1).countP (fun e => e.is_active) + 1 ≤ stf.ebuf.length := by
    have : (stf.ebuf.drop 1).countP (fun e => e.is_active) ≤ (stf.ebuf.drop 1).length :=
      List.countP_le_length _
    have h2 : (stf.ebuf.drop 1).length = stf.ebuf.length - 1 := by simp
    omega
  obtain ⟨t1, t2, t3⟩ := Hedge.invariants_take stf.ebuf stf.fbuf
    ((stf.ebuf.drop 1).countP (fun e => e.is_active)) hpart hAlen j1 j2 j4
  have hebuf : k.defrag_edges.edge_buffer.buffer =
      stf.ebuf.take ((stf.ebuf.drop 1).countP (fun e => e.is_active) + 1) := by
    rw [hkd]
    dsimp only
    rw [htrunc_idx]
  have hfbuf : k.defrag_edges.face_buffer.buffer = stf.fbuf := by
    rw [hkd]
  refine ⟨?_, ?_, ?_⟩
  · rw [hebuf]; exact t1
  · rw [hebuf]; exact t2
  · rw [hebuf, hfbuf]; exact t3


/-- C4 (amended): on a mesh whose arenas are free-list consistent and
whose edge buffer satisfies the twin and next/prev involutions, face-loop
closure and the additional no-self-`next` condition, `Kernel::defrag`
preserves the twin involution, the next/prev involution and face-loop
closure. -/
theorem C4_defrag_preserves_topology (k : Hedge.Kernel)
    (hbe : Hedge.BufferConsistent k.edge_buffer)
    (hbf : Hedge.BufferConsistent k.face_buffer)
    (htw : Hedge.TwinInvolution k.edge_buffer.buffer)
    (hnp : Hedge.NextPrevInvolution k.edge_buffer.buffer)
    (hns : Hedge.NoSelfNext k.edge_buffer.buffer)
    (hfl : Hedge.FaceLoopsOK k.edge_buffer.buffer k.face_buffer.buffer) :
    Hedge.TwinInvolution k.defrag.edge_buffer.buffer ∧
    Hedge.NextPrevInvolution k.defrag.edge_buffer.buffer ∧
    Hedge.FaceLoopsOK k.defrag.edge_buffer.buffer k.defrag.face_buffer.buffer := by
  by_cases hgate : k.inactive_element_count > 0
  case neg =>
    have hk : k.defrag = k := by
      unfold Hedge.Kernel.defrag
      rw [if_neg hgate]
    rw [hk]
    exact ⟨htw, hnp, hfl⟩
  case pos =>
  have hk : k.defrag = k.defrag_faces.defrag_verts.defrag_points.defrag_edges := by
    unfold Hedge.Kernel.defrag
    rw [if_pos hgate]
  obtain ⟨p1sc, p1free, p1be, p1bf, p1fl, p1v, p1p⟩ := Hedge.defrag_faces_topo k hbe hbf hfl
  have htw1 := Hedge.twinInvolution_sameCore p1sc htw
  have hnp1 := Hedge.nextPrev_sameCore p1sc hnp
  have hns1 := Hedge.noSelfNext_sameCore p1sc hns
  set k1 := k.defrag_faces with hk1
  obtain ⟨p2sc, p2ff, p2free, p2f, p2p⟩ := Hedge.defrag_verts_topo k1
  set k2 := k1.defrag_verts with hk2
  have htw2 := Hedge.twinInvolution_sameCore p2sc htw1
  have hnp2 := Hedge.nextPrev_sameCore p2sc hnp1
  have hns2 := Hedge.noSelfNext_sameCore p2sc hns1
  have hfl2 : Hedge.FaceLoopsOK k2.edge_buffer.buffer k2.face_buffer.buffer := by
    rw [p2f]
    exact Hedge.faceLoopsOK_sameCore p2sc p2ff p1fl
  have hbe2 : Hedge.BufferConsistent k2.edge_buffer :=
    Hedge.bufferConsistent_edge_transfer k1.edge_buffer k2.edge_buffer p2free p2sc p1be
  obtain ⟨p3e, p3f⟩ := Hedge.defrag_points_frame k2
  set k3 := k2.defrag_points with hk3
  have htw3 : Hedge.TwinInvolution k3.edge_buffer.buffer := by rw [p3e]; exact htw2
  have hnp3 : Hedge.NextPrevInvolution k3.edge_buffer.buffer := by rw [p3e]; exact hnp2
  have hns3 : Hedge.NoSelfNext k3.edge_buffer.buffer := by rw [p3e]; exact hns2
  have hfl3 : Hedge.FaceLoopsOK k3.edge_buffer.buffer k3.face_buffer.buffer := by
    rw [p3e, p3f]
    exact hfl2
  have hbe3 : Hedge.BufferConsistent k3.edge_buffer := by rw [p3e]; exact hbe2
  obtain ⟨f1, f2, f3⟩ := Hedge.defrag_edges_topo k3 hbe3 htw3 hnp3 hns3 hfl3
  rw [hk]
  exact ⟨f1, f2, f3⟩


theorem C4_defrag_preserves_topology_witness :
    Hedge.TwinInvolution Hedge.exKC4W.defrag.edge_buffer.buffer ∧
    Hedge.NextPrevInvolution Hedge.exKC4W.defrag.edge_buffer.buffer ∧
    Hedge.FaceLoopsOK Hedge.exKC4W.defrag.edge_buffer.buffer
      Hedge.exKC4W.defrag.face_buffer.buffer :=
  C4_defrag_preserves_topology Hedge.exKC4W
    (by refine ⟨by decide, ?_, by decide⟩
        intro e he
        rw [show Hedge.exKC4W.edge_buffer.buffer[0]? =
          some (Hedge.MeshElement.defaultElem) by rfl] at he
        rw [← Option.some.inj he]
        rfl)
    (by refine ⟨by decide, ?_, by decide⟩
        intro e he
        rw [show Hedge.exKC4W.face_buffer.buffer[0]? =
          some (Hedge.MeshElement.defaultElem) by rfl] at he
        rw [← Option.some.inj he]
        rfl)
    (by intro o ho
        have h4 : o < 4 := liveAt_lt_length ho
        interval_cases o
        · exact absurd ho (by decide)
        · exact absurd ho (by decide)
        · exact ⟨by decide, by decide, by decide⟩
        · exact ⟨by decide, by decide, by decide⟩)
    (by intro o ho
        have h4 : o < 4 := liveAt_lt_length ho
        interval_cases o
        · exact absurd ho (by decide)
        · exact absurd ho (by decide)
        · exact ⟨by decide, by decide, by decide, by decide⟩
        · exact ⟨by decide, by decide, by decide, by decide⟩)
    (by intro o ho
        have h4 : o < 4 := liveAt_lt_length ho
        interval_cases o
        · exact absurd ho (by decide)
        · exact absurd ho (by decide)
        · decide
        · decide)
    (by intro o ho
        have h2 : o < 2 := liveAt_lt_length ho
        interval_cases o
        · exact absurd ho (by decide)
        · refine ⟨[2, 3], ⟨by decide, by decide, by decide, by decide, ?_⟩, by decide⟩
          intro i hi
          have hi2 : i < 2 := hi
          interval_cases i
          · decide
          · decide)
